import Mathlib

/-!
The replay engine and the log pipeline of nabu.

A shallow embedding of `engine/engine.go`, `engine/logger.go` and
`types/types.go`.  Go maps with integer keys become partial functions, the
mutex-protected sections of the engine become state transformers on `Engine`,
and every goroutine that drives an endpoint becomes a small program counter
machine (`Task`) whose steps are interleaved with the control operations by an
explicit schedule (`List Action`).  Outcomes that the program obtains from the
operating system (dial, write, bind, which branch of a `select` fires) are
supplied by an `Oracle`.  Calls to `e.log` only append to the logger and are
not part of the engine state.
-/

namespace Nabu

/-! ## types/types.go -/

/-- An endpoint of the trace (`types.Endpoint`). -/
structure Endpoint where
  ID : Int
  Kind : String
  Address : String
  Port : Int
deriving DecidableEq, Repr

/-- A message of the trace (`types.Message`). -/
structure Message where
  From : Int
  To : Int
  Kind : String
  Value : String
  TDelta : Int
deriving DecidableEq, Repr

/-- The four endpoint statuses, `StatusIdle` being the zero value. -/
inductive EndpointStatus where
  | StatusIdle
  | StatusRunning
  | StatusCompleted
  | StatusError
deriving DecidableEq, Repr

/-- A Go map with integer keys: a key is absent or bound to a value. -/
abbrev GoMap (V : Type) := Int → Option V

/-- The map returned by `make`. -/
def GoMap.empty {V : Type} : GoMap V := fun _ => none

/-- The assignment `m[k] = v`. -/
def GoMap.set {V : Type} (m : GoMap V) (k : Int) (v : V) : GoMap V :=
  fun j => if j = k then some v else m j

/-- The statement `delete(m, k)`. -/
def GoMap.delete {V : Type} (m : GoMap V) (k : Int) : GoMap V :=
  fun j => if j = k then none else m j

/-- The trace (`types.Config`); `MessagesByFrom` is `none` while the Go map is nil. -/
structure Config where
  Endpoints : List Endpoint
  Messages : List Message
  MessagesByFrom : Option (GoMap (List Message))

/-- One iteration of the loop of `IndexMessages`: append `m` to its sender's slice. -/
def indexStep (idx : GoMap (List Message)) (m : Message) : GoMap (List Message) :=
  idx.set m.From ((idx m.From).getD [] ++ [m])

/-- The method `Config.IndexMessages`. -/
def Config.IndexMessages (c : Config) : Config :=
  { c with MessagesByFrom := some (c.Messages.foldl indexStep GoMap.empty) }

/-- The read `c.MessagesByFrom[id]`: a nil map or a missing key gives the nil slice. -/
def Config.messagesOf (c : Config) (id : Int) : List Message :=
  match c.MessagesByFrom with
  | none => []
  | some idx => (idx id).getD []

/-! ## engine/engine.go: state -/

/-- The engine (`Engine`).  Listeners and connections are named by handles,
contexts by their creation number, and `cancelled` lists the contexts whose
cancel function has been called. -/
structure Engine where
  Config : Config
  Running : Bool
  Stopped : Bool
  Listeners : GoMap Nat
  Clients : GoMap (GoMap Nat)
  ActiveEnd : List Int
  Status : GoMap EndpointStatus
  Ctx : Nat
  cancelled : List Nat
  activeCount : Int
  endpointMutex : List Int

/-- The constructor `NewEngine` (the logger and the two durations are not part of the state). -/
def NewEngine (cfg : Config) : Engine :=
  { Config := cfg
    Running := false
    Stopped := false
    Listeners := GoMap.empty
    Clients := GoMap.empty
    ActiveEnd := []
    Status := GoMap.empty
    Ctx := 0
    cancelled := []
    activeCount := 0
    endpointMutex := [] }

/-- The method `findEndpoint`: the first endpoint of the trace with the given id. -/
def Engine.findEndpoint (e : Engine) (id : Int) : Option Endpoint :=
  e.Config.Endpoints.find? (fun ep => decide (ep.ID = id))

/-- The method `GetStatus`: a missing key reads as the zero value `StatusIdle`. -/
def Engine.GetStatus (e : Engine) (id : Int) : EndpointStatus :=
  (e.Status id).getD EndpointStatus.StatusIdle

/-- The method `IsRunning`: the read `e.ActiveEnd[id]`. -/
def Engine.IsRunning (e : Engine) (id : Int) : Bool :=
  decide (id ∈ e.ActiveEnd)

/-- The test `ep != nil && ep.Kind == "server"`. -/
def Engine.isServerId (e : Engine) (id : Int) : Bool :=
  match e.findEndpoint id with
  | some ep => ep.Kind == "server"
  | none => false

/-- Whether the trace declares `id` with role client. -/
def Engine.isClientId (e : Engine) (id : Int) : Bool :=
  match e.findEndpoint id with
  | some ep => ep.Kind == "client"
  | none => false

/-- The number of ids of the active set whose endpoint has role client. -/
def Engine.activeClients (e : Engine) : Nat :=
  (e.ActiveEnd.filter (fun id => e.isClientId id)).length

/-- The method `StartEndpoint`; the second component is the goroutine it spawns
(`go e.runEndpoint(id, isServer)`), if any. -/
def Engine.StartEndpoint (e : Engine) (id : Int) : Engine × Option (Int × Bool) :=
  if id ∈ e.ActiveEnd then (e, none)
  else
    let isServer := e.isServerId id
    ({ e with
        endpointMutex := if id ∈ e.endpointMutex then e.endpointMutex else id :: e.endpointMutex
        ActiveEnd := id :: e.ActiveEnd
        Running := true
        activeCount := if isServer then e.activeCount else e.activeCount + 1
        Status := e.Status.set id EndpointStatus.StatusRunning },
     some (id, isServer))

/-- The method `finishEndpoint`. -/
def Engine.finishEndpoint (e : Engine) (id : Int) : Engine :=
  let cnt := if e.activeCount - 1 < 0 then 0 else e.activeCount - 1
  { e with
      ActiveEnd := e.ActiveEnd.filter (fun j => decide (j ≠ id))
      activeCount := cnt
      Status := if e.GetStatus id ≠ EndpointStatus.StatusError
                then e.Status.set id EndpointStatus.StatusCompleted else e.Status
      Running := if cnt = 0 then false else e.Running }

/-- The method `StopEndpoint`. -/
def Engine.StopEndpoint (e : Engine) (id : Int) : Engine :=
  if id ∉ e.ActiveEnd then e
  else
    let isServer := e.isServerId id
    let cnt := if isServer then e.activeCount
               else if e.activeCount - 1 < 0 then 0 else e.activeCount - 1
    { e with
        ActiveEnd := e.ActiveEnd.filter (fun j => decide (j ≠ id))
        activeCount := cnt
        Status := if e.GetStatus id = EndpointStatus.StatusRunning
                  then e.Status.set id EndpointStatus.StatusIdle else e.Status
        Running := if cnt = 0 then false else e.Running
        Listeners := e.Listeners.delete id
        Clients := e.Clients.delete id }

/-- The body of the loop of `StopAll` for one active id. -/
def Engine.stopAllBody (e : Engine) (id : Int) : Engine :=
  { e with
      ActiveEnd := e.ActiveEnd.filter (fun j => decide (j ≠ id))
      Status := if e.GetStatus id = EndpointStatus.StatusRunning
                then e.Status.set id EndpointStatus.StatusIdle else e.Status
      Listeners := e.Listeners.delete id
      Clients := e.Clients.delete id }

/-- The part of `StopAll` that runs under the engine lock. -/
def Engine.stopAllLocked (e : Engine) : Engine :=
  let e1 := e.ActiveEnd.foldl Engine.stopAllBody e
  { e1 with activeCount := 0, Running := false }

/-- The call `e.Cancel()` of `StopAll`: the current context becomes done. -/
def Engine.stopAllCancel (e : Engine) : Engine :=
  { e with cancelled := e.Ctx :: e.cancelled }

/-- The last statement of `StopAll`: a new context is installed. -/
def Engine.stopAllRenew (e : Engine) : Engine :=
  { e with Ctx := e.Ctx + 1 }

/-- The method `StopAll`, run without interruption. -/
def Engine.StopAll (e : Engine) : Engine :=
  e.stopAllLocked.stopAllCancel.stopAllRenew

/-- What the environment decides in one step of a goroutine: whether the timer
branch of the sleep `select` is taken, the result of `net.DialTimeout`, whether
`conn.Write` succeeds, the result of `net.Listen`. -/
structure Oracle where
  timer : Bool
  dial : Option Nat
  writeOk : Bool
  listen : Option Nat
deriving DecidableEq, Repr

/-- The errors `executeMessage` can return. -/
inductive ExecError where
  | targetNotFound (target : Int)
  | connectFailed
  | invalidHex
  | writeFailed
deriving DecidableEq, Repr

/-- The value of one hexadecimal digit (`fromHexChar` of `encoding/hex`). -/
def fromHexChar (c : Char) : Option Nat :=
  if '0' ≤ c ∧ c ≤ '9' then some (c.toNat - '0'.toNat)
  else if 'a' ≤ c ∧ c ≤ 'f' then some (c.toNat - 'a'.toNat + 10)
  else if 'A' ≤ c ∧ c ≤ 'F' then some (c.toNat - 'A'.toNat + 10)
  else none

/-- The function `hex.DecodeString` on the characters of the payload: `none` is an error. -/
def hexDecode : List Char → Option (List Nat)
  | [] => some []
  | [_] => none
  | a :: b :: rest =>
    match fromHexChar a, fromHexChar b, hexDecode rest with
    | some x, some y, some r => some ((x * 16 + y) :: r)
    | _, _, _ => none

/-- The result of `executeMessage`: the engine afterwards, the returned error and
the call of `conn.Write` it made, if any (the connection and the bytes passed,
whether the call succeeded or not). -/
structure ExecResult where
  engine : Engine
  err : Option ExecError
  wrote : Option (Nat × List Nat)

/-- The read `e.Clients[from][to]`. -/
def Engine.conn (e : Engine) (src dst : Int) : Option Nat :=
  match e.Clients src with
  | none => none
  | some inner => inner dst

/-- The method `executeMessage`. -/
def Engine.executeMessage (e : Engine) (msg : Message) (o : Oracle) : ExecResult :=
  let e0 : Engine :=
    if msg.From ∈ e.endpointMutex then e
    else { e with endpointMutex := msg.From :: e.endpointMutex }
  if msg.Kind = "syn" then
    match e0.Config.Endpoints.find? (fun ep => decide (ep.ID = msg.To)) with
    | none => { engine := e0, err := some (ExecError.targetNotFound msg.To), wrote := none }
    | some _ =>
      match o.dial with
      | none => { engine := e0, err := some ExecError.connectFailed, wrote := none }
      | some c =>
        let inner : GoMap Nat := (e0.Clients msg.From).getD GoMap.empty
        { engine := { e0 with Clients := e0.Clients.set msg.From (inner.set msg.To c) }
          err := none, wrote := none }
  else if msg.Kind = "data" ∨ msg.Kind = "psh" ∨ msg.Kind = "push" then
    match e0.conn msg.From msg.To with
    | none => { engine := e0, err := none, wrote := none }
    | some c =>
      match hexDecode msg.Value.toList with
      | none => { engine := e0, err := some ExecError.invalidHex, wrote := none }
      | some data =>
        if data.length > 0 then
          if o.writeOk then { engine := e0, err := none, wrote := some (c, data) }
          else { engine := e0, err := some ExecError.writeFailed, wrote := some (c, data) }
        else { engine := e0, err := none, wrote := none }
  else if msg.Kind = "fin" then
    match e0.Clients msg.From with
    | none => { engine := e0, err := none, wrote := none }
    | some inner =>
      match inner msg.To with
      | none => { engine := e0, err := none, wrote := none }
      | some _ =>
        { engine := { e0 with Clients := e0.Clients.set msg.From (inner.delete msg.To) }
          err := none, wrote := none }
  else { engine := e0, err := none, wrote := none }

/-- The method `setupListener` (the accept loop it spawns does not touch the engine state). -/
def Engine.setupListener (e : Engine) (ep : Endpoint) (o : Oracle) : Engine × Bool :=
  match o.listen with
  | none => (e, false)
  | some ln =>
    ({ e with
        Listeners := e.Listeners.set ep.ID ln
        Clients := match e.Clients ep.ID with
                   | some _ => e.Clients
                   | none => e.Clients.set ep.ID GoMap.empty },
     true)

/-! ## engine/engine.go: the goroutine `runEndpoint` -/

/-- The places where a goroutine running `runEndpoint` can be between two of
its atomic steps (a critical section, a `select`, or a call of `executeMessage`). -/
inductive Pc where
  | entry
  | serverCheck
  | serverSetup
  | serverStatus (ok : Bool)
  | loopTop (i : Nat)
  | checkActive (i : Nat)
  | sleepEnter (i : Nat)
  | sleeping (i : Nat) (ctx : Nat)
  | exec (i : Nat)
  | setError (i : Nat)
  | setIdle
  | finish
  | done
deriving DecidableEq, Repr

/-- A goroutine `runEndpoint(id, isServer)`: its arguments, the slice `messages`
it iterates over, its position, and (as a record of what it did) the messages it
passed to `executeMessage`, each with whether the call returned an error. -/
structure Task where
  id : Int
  isServer : Bool
  messages : List Message
  pc : Pc
  executed : List (Message × Bool)

/-- The goroutine spawned by `go e.runEndpoint(id, isServer)`. -/
def Task.spawn (id : Int) (isServer : Bool) : Task :=
  { id := id, isServer := isServer, messages := [], pc := Pc.entry, executed := [] }

/-- The assignment `e.Status[id] = st` under the engine lock. -/
def Engine.setStatus (e : Engine) (id : Int) (st : EndpointStatus) : Engine :=
  { e with Status := e.Status.set id st }

/-- The first statement of `runEndpoint`: index the messages if the index is nil. -/
def Engine.ensureIndexed (e : Engine) : Engine :=
  match e.Config.MessagesByFrom with
  | none => { e with Config := e.Config.IndexMessages }
  | some _ => e

/-- One atomic step of `runEndpoint`. -/
def taskStep (e : Engine) (t : Task) (o : Oracle) : Engine × Task :=
  match t.pc with
  | Pc.entry =>
    match e.ensureIndexed.findEndpoint t.id with
    | none => (e.ensureIndexed, { t with pc := if t.isServer then Pc.done else Pc.finish })
    | some ep =>
      if ep.Kind = "server" then (e.ensureIndexed, { t with pc := Pc.serverCheck })
      else (e.ensureIndexed,
            { t with messages := e.ensureIndexed.Config.messagesOf t.id, pc := Pc.loopTop 0 })
  | Pc.serverCheck =>
    match e.Listeners t.id with
    | none => (e, { t with pc := Pc.serverSetup })
    | some _ => (e, { t with pc := Pc.done })
  | Pc.serverSetup =>
    match e.findEndpoint t.id with
    | none => (e, { t with pc := Pc.done })
    | some ep =>
      let r := e.setupListener ep o
      (r.1, { t with pc := Pc.serverStatus r.2 })
  | Pc.serverStatus ok =>
    (e.setStatus t.id (if ok then EndpointStatus.StatusRunning else EndpointStatus.StatusError),
     { t with pc := Pc.done })
  | Pc.loopTop i =>
    if i < t.messages.length then
      if e.Ctx ∈ e.cancelled then (e, { t with pc := Pc.setIdle })
      else (e, { t with pc := Pc.checkActive i })
    else (e, { t with pc := Pc.finish })
  | Pc.checkActive i =>
    if e.IsRunning t.id then
      match t.messages.get? i with
      | some msg =>
        if msg.TDelta > 0 then (e, { t with pc := Pc.sleepEnter i })
        else (e, { t with pc := Pc.exec i })
      | none => (e, { t with pc := Pc.finish })
    else (e, { t with pc := Pc.finish })
  | Pc.sleepEnter i => (e, { t with pc := Pc.sleeping i e.Ctx })
  | Pc.sleeping i ctx =>
    if o.timer then (e, { t with pc := Pc.exec i })
    else if ctx ∈ e.cancelled then (e, { t with pc := Pc.setIdle })
    else (e, t)
  | Pc.exec i =>
    match t.messages.get? i with
    | some msg =>
      let r := e.executeMessage msg o
      (r.engine,
       { t with
           executed := t.executed ++ [(msg, r.err.isSome)]
           pc := if r.err.isSome then Pc.setError i else Pc.loopTop (i + 1) })
    | none => (e, { t with pc := Pc.finish })
  | Pc.setError i => (e.setStatus t.id EndpointStatus.StatusError, { t with pc := Pc.loopTop (i + 1) })
  | Pc.setIdle => (e.setStatus t.id EndpointStatus.StatusIdle, { t with pc := Pc.finish })
  | Pc.finish => (e.finishEndpoint t.id, { t with pc := Pc.done })
  | Pc.done => (e, t)

/-- The engine together with the goroutines `StartEndpoint` has spawned. -/
structure System where
  engine : Engine
  tasks : List Task

/-- What can happen next: a control operation of the presentation layer (the
three phases of `StopAll` are separate because only the first holds the lock),
or one step of the `k`-th goroutine. -/
inductive Action where
  | start (id : Int)
  | stop (id : Int)
  | stopAllLocked
  | stopAllCancel
  | stopAllRenew
  | task (k : Nat) (o : Oracle)
deriving DecidableEq, Repr

/-- The effect of one action. -/
def System.step (s : System) (a : Action) : System :=
  match a with
  | Action.start id =>
    match s.engine.StartEndpoint id with
    | (e1, some (j, srv)) => { engine := e1, tasks := s.tasks ++ [Task.spawn j srv] }
    | (e1, none) => { engine := e1, tasks := s.tasks }
  | Action.stop id => { s with engine := s.engine.StopEndpoint id }
  | Action.stopAllLocked => { s with engine := s.engine.stopAllLocked }
  | Action.stopAllCancel => { s with engine := s.engine.stopAllCancel }
  | Action.stopAllRenew => { s with engine := s.engine.stopAllRenew }
  | Action.task k o =>
    match s.tasks.get? k with
    | none => s
    | some t =>
      let r := taskStep s.engine t o
      { engine := r.1, tasks := s.tasks.set k r.2 }

/-- The effect of a schedule. -/
def System.run (s : System) (acts : List Action) : System :=
  acts.foldl System.step s

/-- A freshly constructed engine with no goroutine. -/
def System.init (cfg : Config) : System :=
  { engine := NewEngine cfg, tasks := [] }

/-- The states reachable from a freshly constructed engine. -/
def Reachable (cfg : Config) (s : System) : Prop :=
  ∃ acts : List Action, (System.init cfg).run acts = s

/-- An oracle for steps in which nothing fails: the timer fires, dials and binds
return the given handle, writes succeed. -/
def Oracle.ok (h : Nat) : Oracle :=
  { timer := true, dial := some h, writeOk := true, listen := some h }

/-- An oracle for a sleeping goroutine whose timer has not fired yet. -/
def Oracle.waiting : Oracle :=
  { timer := false, dial := none, writeOk := true, listen := none }

/-- The status of `id` in a system state. -/
def System.status (s : System) (id : Int) : EndpointStatus :=
  s.engine.GetStatus id

/-! ## engine/logger.go -/

/-- The logger (`Logger`): the ring `lines` with `head` and `count`, the file
handle if a file is open, the contents of the buffered channel `ch` (capacity
100), and the `closed` flag. -/
structure Logger where
  lines : List String
  capacity : Nat
  head : Nat
  count : Nat
  filePath : String
  file : Option Nat
  ch : List String
  closed : Bool

/-- The constant `defaultLogLines`. -/
def defaultLogLines : Nat := 1000

/-- The constructor `NewLogger`; `opened` is what `openFile` obtains from the
operating system when the path is not empty. -/
def NewLogger (filePath : String) (capacity : Int) (opened : Option Nat) : Logger :=
  let cap : Nat := if capacity ≤ 0 then defaultLogLines else capacity.toNat
  { lines := List.replicate cap ""
    capacity := cap
    head := 0
    count := 0
    filePath := filePath
    file := if filePath = "" then none else opened
    ch := []
    closed := false }

/-- The method `Logger.Write`. -/
def Logger.Write (l : Logger) (msg : String) : Logger :=
  if l.closed then l
  else
    { l with
        lines := l.lines.set l.head msg
        head := (l.head + 1) % l.capacity
        count := if l.count < l.capacity then l.count + 1 else l.count
        ch := if l.ch.length < 100 then l.ch ++ [msg] else l.ch }

/-- One iteration of the loop of `ReadAll`. -/
def Logger.readStep (l : Logger) (start : Nat) (result : String) (i : Nat) : String :=
  let line := l.lines.getD ((start + i) % l.capacity) ""
  if line ≠ "" then (result ++ line).push (Char.ofNat 10) else result

/-- The method `Logger.ReadAll`. -/
def Logger.ReadAll (l : Logger) : String :=
  if l.count = 0 then ""
  else
    let start := if l.count ≥ l.capacity then l.head else 0
    (List.range l.count).foldl (l.readStep start) ""

/-- The logger after the lines `ws` have been written in order. -/
def Logger.writeAll (l : Logger) (ws : List String) : Logger :=
  ws.foldl Logger.Write l

/-- The last `min n c` elements of a list of length `n`. -/
def lastLines (c : Nat) (ws : List String) : List String :=
  ws.drop (ws.length - min ws.length c)

/-- The concatenation of the given lines, each followed by a newline. -/
def joinLines (ws : List String) : String :=
  String.join (ws.map (fun w => w.push (Char.ofNat 10)))

/-! ## Concrete traces and schedules -/

/-- A trace with two client endpoints; endpoint 1 sends two messages, the second after 50 ms. -/
def twoClients : Config :=
  { Endpoints := [⟨1, "client", "127.0.0.1", 9001⟩, ⟨2, "client", "127.0.0.1", 9002⟩]
    Messages := [⟨1, 2, "data", "ab", 0⟩, ⟨1, 2, "data", "cd", 50⟩, ⟨2, 1, "data", "ab", 50⟩]
    MessagesByFrom := none }

/-- A trace with a server 1 and a client 2 whose first message names the
undeclared endpoint 99 and whose second message waits 50 ms. -/
def badTarget : Config :=
  { Endpoints := [⟨1, "server", "127.0.0.1", 9001⟩, ⟨2, "client", "127.0.0.1", 9002⟩]
    Messages := [⟨2, 99, "syn", "", 0⟩, ⟨2, 1, "data", "ab12", 50⟩]
    MessagesByFrom := none }

/-- Both clients are started, client 1 enters its loop, `StopEndpoint(1)` is
called, and the goroutine of client 1 then sees that it is no longer active and
finalises. -/
def stopThenFinish : List Action :=
  [Action.start 1, Action.start 2, Action.task 0 (Oracle.ok 7),
   Action.stop 1,
   Action.task 0 (Oracle.ok 7), Action.task 0 (Oracle.ok 7), Action.task 0 (Oracle.ok 7)]

/-- Client 1 is started, its goroutine enters the loop, `StopEndpoint(1)` is called. -/
def stopMidSequence : List Action :=
  [Action.start 1, Action.task 0 (Oracle.ok 7), Action.stop 1]

/-- The goroutine passes the cancellation check, sees that the endpoint is no
longer active, and finalises. -/
def observeStop : List Action :=
  [Action.task 0 (Oracle.ok 7), Action.task 0 (Oracle.ok 7), Action.task 0 (Oracle.ok 7)]

/-- Client 1 is started and its goroutine executes its first message and goes to
sleep before the second one; then `StopAll` runs. -/
def sleepThenStopAll : List Action :=
  [Action.start 1,
   Action.task 0 (Oracle.ok 7), Action.task 0 (Oracle.ok 7), Action.task 0 (Oracle.ok 7),
   Action.task 0 (Oracle.ok 7), Action.task 0 (Oracle.ok 7), Action.task 0 (Oracle.ok 7),
   Action.task 0 (Oracle.ok 7),
   Action.stopAllLocked, Action.stopAllCancel, Action.stopAllRenew]

/-- The sleeping goroutine is woken by the cancellation, sets the status to
`StatusIdle` and finalises. -/
def observeCancel : List Action :=
  [Action.task 0 Oracle.waiting, Action.task 0 Oracle.waiting, Action.task 0 Oracle.waiting]

/-- Client 1 is started and `StopAll` has called the cancel function, but not yet
installed the new context, when the goroutine reaches the top of its loop. -/
def cancelAtLoopTop : List Action :=
  [Action.start 1, Action.task 0 (Oracle.ok 7),
   Action.stopAllLocked, Action.stopAllCancel,
   Action.task 0 (Oracle.ok 7), Action.stopAllRenew,
   Action.task 0 (Oracle.ok 7), Action.task 0 (Oracle.ok 7)]

/-- Client 2 of `badTarget` is started; its `syn` to the undeclared endpoint 99
fails and the status is set to `StatusError`; the goroutine goes to sleep before
its second message. -/
def failThenSleep : List Action :=
  [Action.start 2,
   Action.task 0 (Oracle.ok 7), Action.task 0 (Oracle.ok 7), Action.task 0 (Oracle.ok 7),
   Action.task 0 (Oracle.ok 7), Action.task 0 (Oracle.ok 7), Action.task 0 (Oracle.ok 7),
   Action.task 0 (Oracle.ok 7), Action.task 0 (Oracle.ok 7)]

/-- `StopAll` runs while the goroutine sleeps; it is woken by the cancellation
and finalises.  No `StartEndpoint` occurs. -/
def stopAllThenObserve : List Action :=
  [Action.stopAllLocked, Action.stopAllCancel, Action.stopAllRenew,
   Action.task 0 Oracle.waiting, Action.task 0 Oracle.waiting, Action.task 0 Oracle.waiting]

/-- The undeclared id 99 is started and its goroutine runs to its end. -/
def startUnknown : List Action :=
  [Action.start 99, Action.task 0 (Oracle.ok 7), Action.task 0 (Oracle.ok 7)]

/-- The position of the `k`-th goroutine, if there is one. -/
def System.pcOf (s : System) (k : Nat) : Option Pc :=
  (s.tasks.get? k).map (fun t => t.pc)

/-- The schedule that starts only the server endpoint 1 of `badTarget`. -/
def startServerOnly : List Action := [Action.start 1]

/-- The counter is not negative, and `Running` is set whenever it is positive. -/
def CountInv (e : Engine) : Prop :=
  0 ≤ e.activeCount ∧ (0 < e.activeCount → e.Running = true)

/-- A goroutine run on its own: one step per oracle, nothing else in between. -/
def runTask (e : Engine) (t : Task) (os : List Oracle) : Engine × Task :=
  os.foldl (fun st o => taskStep st.1 st.2 o) (e, t)

/-- After any `n` or more steps of the goroutine on its own, none of which is
woken by a cancellation, `Q` holds. -/
def Eventually (n : Nat) (e : Engine) (t : Task) (Q : Engine × Task → Prop) : Prop :=
  ∀ os : List Oracle, (∀ o ∈ os, o.timer = true) → n ≤ os.length → Q (runTask e t os)

/-- The endpoint is active, the current context is not cancelled, and the
endpoints of the trace are `eps`. -/
def Steady (id : Int) (eps : List Endpoint) (e : Engine) : Prop :=
  id ∈ e.ActiveEnd ∧ e.Ctx ∉ e.cancelled ∧ e.Config.Endpoints = eps

/-- A `syn` whose target id is not the id of any endpoint in `eps`. -/
def unknownSyn (eps : List Endpoint) (m : Message) : Prop :=
  m.Kind = "syn" ∧ eps.find? (fun ep => decide (ep.ID = m.To)) = none

/-- What holds when the client loop has ended: the goroutine is done, it has
passed exactly the messages `rest` to `executeMessage` after those of `ex`, the
status is `StatusError` if a call failed (or `failed` held before), and a `syn`
to an undeclared target is recorded as failed. -/
def LoopPost (id : Int) (eps : List Endpoint) (failed : Prop) (ex : List (Message × Bool))
    (rest : List Message) (r : Engine × Task) : Prop :=
  r.2.pc = Pc.done ∧
    ∃ new : List (Message × Bool),
      r.2.executed = ex ++ new ∧ new.map Prod.fst = rest ∧
      ((failed ∨ ∃ x ∈ new, x.2 = true) → r.1.GetStatus id = EndpointStatus.StatusError) ∧
      ∀ x ∈ new, unknownSyn eps x.1 → x.2 = true

/-- The ring after the lines `ws` have been written to a logger of capacity `c`:
the head follows the number of writes, the count is capped at `c`, and the slot
`k % c` holds the `k`-th line for each of the last `min n c` writes. -/
def RingInv (c : Nat) (ws : List String) (l : Logger) : Prop :=
  l.capacity = c ∧ l.lines.length = c ∧ l.closed = false ∧
    l.head = ws.length % c ∧ l.count = min ws.length c ∧
    ∀ k, ws.length - min ws.length c ≤ k → k < ws.length → l.lines[k % c]? = ws[k]?

/-- The lines that are not the empty string, in order. -/
def nonEmptyLines (ws : List String) : List String :=
  ws.filter (fun w => decide (w ≠ ""))

/-- The state after `stopThenFinish` on `twoClients`. -/
def afterStopThenFinish : System := (System.init twoClients).run stopThenFinish

/-- The state after `stopMidSequence` on `twoClients`. -/
def afterStopMidSequence : System := (System.init twoClients).run stopMidSequence

/-- The state after `sleepThenStopAll` on `twoClients`. -/
def afterSleepThenStopAll : System := (System.init twoClients).run sleepThenStopAll

/-- The state after `cancelAtLoopTop` on `twoClients`. -/
def afterCancelAtLoopTop : System := (System.init twoClients).run cancelAtLoopTop

/-- The state after `failThenSleep` on `badTarget`. -/
def afterFailThenSleep : System := (System.init badTarget).run failThenSleep

/-- The state after `startUnknown` on `badTarget`. -/
def afterStartUnknown : System := (System.init badTarget).run startUnknown

/-- The state after `startServerOnly` on `badTarget`. -/
def afterStartServerOnly : System := (System.init badTarget).run startServerOnly

/-- The error flags of the calls of `executeMessage` the `k`-th goroutine has made. -/
def System.failuresOf (s : System) (k : Nat) : Option (List Bool) :=
  (s.tasks.get? k).map (fun t => t.executed.map Prod.snd)

/-! ## Statements and inputs for the start and stop operations -/

/-- A trace whose endpoint 3 has a kind that is neither `"server"` nor `"client"`. -/
def oddKind : Config :=
  { Endpoints := [⟨1, "server", "127.0.0.1", 9001⟩, ⟨3, "proxy", "127.0.0.1", 9003⟩]
    Messages := []
    MessagesByFrom := none }

/-- The engine of `badTarget` in which the undeclared id 99 has been started. -/
def unknownActive : Engine := ((NewEngine badTarget).StartEndpoint 99).1

/-- The engine of `twoClients` in which client 1 has been started. -/
def clientActive : Engine := ((NewEngine twoClients).StartEndpoint 1).1

/-- The decrement of `finishEndpoint` and `StopEndpoint`: one less, but not below 0. -/
def clampDec (n : Int) : Int := if n - 1 < 0 then 0 else n - 1

/-- The statement "after `StartEndpoint(id)` on a non-active id the id is active
with status Running, and `activeCount` has increased by one if the role is client
and is unchanged if the role is not client", for one state and one id. -/
def StartCountsClients (e : Engine) (id : Int) : Prop :=
  id ∉ e.ActiveEnd →
    id ∈ (e.StartEndpoint id).1.ActiveEnd ∧
      (e.StartEndpoint id).1.GetStatus id = EndpointStatus.StatusRunning ∧
      (e.isClientId id = true → (e.StartEndpoint id).1.activeCount = e.activeCount + 1) ∧
      (e.isClientId id = false → (e.StartEndpoint id).1.activeCount = e.activeCount)

/-- The statement "after `StopEndpoint(id)` on an active id `activeCount` is
decremented (not below 0) if and only if the role is client", for one state and
one id. -/
def StopCountsClients (e : Engine) (id : Int) : Prop :=
  id ∈ e.ActiveEnd →
    (e.isClientId id = true → (e.StopEndpoint id).activeCount = clampDec e.activeCount) ∧
      (e.isClientId id = false → (e.StopEndpoint id).activeCount = e.activeCount)

/-- The statement can be checked on a concrete state. -/
instance (e : Engine) (id : Int) : Decidable (StartCountsClients e id) := by
  unfold StartCountsClients
  infer_instance

/-- The statement can be checked on a concrete state. -/
instance (e : Engine) (id : Int) : Decidable (StopCountsClients e id) := by
  unfold StopCountsClients
  infer_instance

/-- Contexts are numbered in the order of their creation: no context later than
the current one exists, so none can have been cancelled. -/
def CtxWf (e : Engine) : Prop := ∀ c ∈ e.cancelled, c ≤ e.Ctx

/-- Two engine states with the same context, cancelled contexts and endpoints. -/
def SameSetting (e e1 : Engine) : Prop :=
  e1.Ctx = e.Ctx ∧ e1.cancelled = e.cancelled ∧ e1.Config.Endpoints = e.Config.Endpoints

/-- The value of a hexadecimal digit, 0 for any other character. -/
def hexVal (c : Char) : Nat := (fromHexChar c).getD 0

/-- A valid hex string: an even number of characters, each a hexadecimal digit. -/
def validHex (cs : List Char) : Prop :=
  cs.length % 2 = 0 ∧ ∀ ch ∈ cs, (fromHexChar ch).isSome = true

/-- The bytes whose values are the successive pairs of hexadecimal digits. -/
def hexPairs : List Char → List Nat
  | a :: b :: rest => (hexVal a * 16 + hexVal b) :: hexPairs rest
  | _ => []

/-- Validity of a concrete string can be checked. -/
instance (cs : List Char) : Decidable (validHex cs) := by
  unfold validHex
  infer_instance

/-- The engine of `badTarget` after client 2 has connected to server 1 (connection 7). -/
def connected : Engine :=
  ((NewEngine badTarget).executeMessage ⟨2, 1, "syn", "", 0⟩ (Oracle.ok 7)).engine

/-- The positions of the client part of `runEndpoint`, with the finalisation. -/
def Pc.isClientPc : Pc → Bool
  | Pc.loopTop _ => true
  | Pc.checkActive _ => true
  | Pc.sleepEnter _ => true
  | Pc.sleeping _ _ => true
  | Pc.exec _ => true
  | Pc.setError _ => true
  | Pc.setIdle => true
  | Pc.finish => true
  | _ => false

/-- The positions of the server part of `runEndpoint`. -/
def Pc.isServerPc : Pc → Bool
  | Pc.serverCheck => true
  | Pc.serverSetup => true
  | Pc.serverStatus _ => true
  | _ => false

/-- A goroutine is in the client part only for an id that is not a declared
server, and in the server part only for a declared server. -/
def RoleOk (e : Engine) (t : Task) : Prop :=
  (t.pc.isClientPc = true → e.isServerId t.id = false) ∧
    (t.pc.isServerPc = true → e.isServerId t.id = true)

/-- Every goroutine of the system is in the part that fits the role of its id. -/
def RolesOk (s : System) : Prop := ∀ t ∈ s.tasks, RoleOk s.engine t

/-! ## Inputs and invariants for the teardown and the life cycle of an endpoint -/

/-- A trace with a server 1 and a client 2 whose only message is a `syn` to 1. -/
def synOnly : Config :=
  { Endpoints := [⟨1, "server", "127.0.0.1", 9001⟩, ⟨2, "client", "127.0.0.1", 9002⟩]
    Messages := [⟨2, 1, "syn", "", 0⟩]
    MessagesByFrom := none }

/-- Server 1 and client 2 are started; the server goroutine binds listener 5 and
ends; the client goroutine dials (connection 7), exhausts its sequence and
finalises; then `StopAll` runs. -/
def completeThenStopAll : List Action :=
  [Action.start 1, Action.start 2,
   Action.task 0 (Oracle.ok 5), Action.task 0 (Oracle.ok 5), Action.task 0 (Oracle.ok 5),
   Action.task 0 (Oracle.ok 5),
   Action.task 1 (Oracle.ok 7), Action.task 1 (Oracle.ok 7), Action.task 1 (Oracle.ok 7),
   Action.task 1 (Oracle.ok 7), Action.task 1 (Oracle.ok 7), Action.task 1 (Oracle.ok 7),
   Action.stopAllLocked, Action.stopAllCancel, Action.stopAllRenew]

/-- Server 1 is started and stopped before its goroutine has run; the goroutine
then binds listener 5; then `StopAll` runs. -/
def lateListenThenStopAll : List Action :=
  [Action.start 1, Action.stop 1,
   Action.task 0 (Oracle.ok 5), Action.task 0 (Oracle.ok 5), Action.task 0 (Oracle.ok 5),
   Action.task 0 (Oracle.ok 5),
   Action.stopAllLocked, Action.stopAllCancel, Action.stopAllRenew]

/-- The state after `completeThenStopAll` on `synOnly`. -/
def afterCompleteThenStopAll : System := (System.init synOnly).run completeThenStopAll

/-- The state after `lateListenThenStopAll` on `synOnly`. -/
def afterLateListenThenStopAll : System := (System.init synOnly).run lateListenThenStopAll

/-- No call of `executeMessage` recorded in `ex` returned an error. -/
def noFailure (ex : List (Message × Bool)) : Prop := ∀ x ∈ ex, x.2 = false

/-- The state of a client goroutine that runs undisturbed, and of its endpoint:
in the loop and before the finalisation the endpoint is active, the context is
not cancelled and the status is Running as long as no call has failed; a failed
call has been recorded when the status is about to be set to Error; when the
goroutine is done the endpoint is not active and the status is Completed if no
call has failed. -/
def ClientPhase (id : Int) (r : Engine × Task) : Prop :=
  r.2.id = id ∧
    match r.2.pc with
    | Pc.done =>
      id ∉ r.1.ActiveEnd ∧
        (noFailure r.2.executed → r.1.GetStatus id = EndpointStatus.StatusCompleted)
    | Pc.setError _ =>
      id ∈ r.1.ActiveEnd ∧ r.1.Ctx ∉ r.1.cancelled ∧ ¬ noFailure r.2.executed
    | Pc.loopTop _ | Pc.checkActive _ | Pc.sleepEnter _ | Pc.sleeping _ _ | Pc.exec _
    | Pc.finish =>
      id ∈ r.1.ActiveEnd ∧ r.1.Ctx ∉ r.1.cancelled ∧
        (noFailure r.2.executed → r.1.GetStatus id = EndpointStatus.StatusRunning)
    | _ => False

/-- The id has never been started: it has no status entry, it is not active, and
no goroutine runs for it. -/
def NeverStarted (id : Int) (s : System) : Prop :=
  s.engine.Status id = none ∧ id ∉ s.engine.ActiveEnd ∧ ∀ t ∈ s.tasks, t.id ≠ id

/-! ## lua/reader.go: `ValidateConfig` -/

/-- The errors `ValidateConfig` returns: the index of the message and the offending id. -/
inductive ValidationError where
  | invalidFrom (index : Nat) (id : Int)
  | invalidTo (index : Nat) (id : Int)
deriving DecidableEq, Repr

/-- The map `endpoints` that `ValidateConfig` builds from the declared endpoints. -/
def declaredMap (eps : List Endpoint) : GoMap Bool :=
  eps.foldl (fun m ep => m.set ep.ID true) GoMap.empty

/-- The loop of `ValidateConfig` over the messages, `i` being the index of the first one. -/
def validateFrom (endpoints : GoMap Bool) : Nat → List Message → Option ValidationError
  | _, [] => none
  | i, m :: ms =>
    if (endpoints m.From).getD false = false then some (ValidationError.invalidFrom i m.From)
    else if (endpoints m.To).getD false = false then some (ValidationError.invalidTo i m.To)
    else validateFrom endpoints (i + 1) ms

/-- The function `ValidateConfig` of `lua/reader.go`; `none` is the nil error. -/
def ValidateConfig (cfg : Config) : Option ValidationError :=
  validateFrom (declaredMap cfg.Endpoints) 0 cfg.Messages

/-- The id is the id of a declared endpoint of the trace. -/
def Config.declares (c : Config) (id : Int) : Prop := ∃ ep ∈ c.Endpoints, ep.ID = id

/-! ## pcapreader/reader.go -/

/-- The variables `getOrCreateEndpoint` works on through its pointer and map arguments: the endpoint
list of the trace under construction, the map from keys to ids, and the next id. -/
structure PcapState where
  endpoints : List Endpoint
  index : String → Option Int
  nextID : Int

/-- The state `ReadPCAP` starts from: no endpoint, an empty map, next id 0. -/
def PcapState.empty : PcapState :=
  { endpoints := [], index := fun _ => none, nextID := 0 }

/-- The address and port `getOrCreateEndpoint` gives a new endpoint. `parse key` stands for the
regular-expression match and the `Atoi` of the port group: `none` when the expression does not
match, `some (address, none)` when the port does not convert. -/
def endpointAddress (parse : String → Option (String × Option Int)) (key : String) :
    String × Int :=
  match parse key with
  | some (address, some p) => (address, p)
  | some (address, none) => (address, 0)
  | none => (key, 0)

/-- The function `getOrCreateEndpoint` of `pcapreader/reader.go`: the new state and the returned
id. -/
def getOrCreateEndpoint (parse : String → Option (String × Option Int)) (key kind : String)
    (st : PcapState) : PcapState × Int :=
  match st.index key with
  | some id => (st, id)
  | none =>
    let id := st.nextID
    ({ endpoints := st.endpoints ++
          [{ ID := id, Kind := kind, Address := (endpointAddress parse key).1,
             Port := (endpointAddress parse key).2 }],
       index := fun k => if k = key then some id else st.index k,
       nextID := st.nextID + 1 }, id)

/-- A sequence of calls of `getOrCreateEndpoint`, each with its key and kind, run from `st`. -/
def runCalls (parse : String → Option (String × Option Int)) (st : PcapState)
    (calls : List (String × String)) : PcapState :=
  calls.foldl (fun s c => (getOrCreateEndpoint parse c.1 c.2 s).1) st

/-- What the loop of `ReadPCAP` uses of a TCP packet it keeps: the two keys, the kind chosen from
the flags, the hex text of the payload and the delay since the previous packet. -/
structure Packet where
  srcKey : String
  dstKey : String
  kind : String
  value : String
  delta : Int

/-- One iteration of the loop of `ReadPCAP` for a packet it keeps. -/
def readPacket (parse : String → Option (String × Option Int))
    (acc : PcapState × List Message) (p : Packet) : PcapState × List Message :=
  let src := getOrCreateEndpoint parse p.srcKey "client" acc.1
  let dst := getOrCreateEndpoint parse p.dstKey "server" src.1
  (dst.1, acc.2 ++ [{ From := src.2, To := dst.2, Kind := p.kind, Value := p.value,
                      TDelta := p.delta }])

/-- The trace `ReadPCAP` builds from the packets it keeps. -/
def ReadPCAP (parse : String → Option (String × Option Int)) (pkts : List Packet) : Config :=
  { Endpoints := (pkts.foldl (readPacket parse) (PcapState.empty, [])).1.endpoints,
    Messages := (pkts.foldl (readPacket parse) (PcapState.empty, [])).2,
    MessagesByFrom := none }

/-- The ids of the endpoint list are 0, 1, 2, ... in order, the next id is the length of the list
and every id stored in the map is one of them. -/
def PcapInv (st : PcapState) : Prop :=
  st.endpoints.map (fun ep => ep.ID) = (List.range st.endpoints.length).map Int.ofNat ∧
    st.nextID = st.endpoints.length ∧
    ∀ k id, st.index k = some id → 0 ≤ id ∧ id < st.endpoints.length

/-! ## engine/logger.go: the consumer task `writer` -/

/-- The constant `defaultBatchSize`. -/
def defaultBatchSize : Nat := 10

/-- Whether `NewLogger` starts the consumer task: it returns early only when `openFile` fails,
and `openFile` succeeds without opening anything when the path is empty. -/
def startsWriter (filePath : String) (opened : Option Nat) : Bool :=
  if filePath = "" then true else opened.isSome

/-- The local state of `Logger.writer`: the pending batch, the strings passed to
`file.WriteString` so far, and whether the task has returned. -/
structure WriterState where
  batch : List String
  written : List String
  returned : Bool

/-- What one `select` of `Logger.writer` receives: a line of the queue, the closing of the queue,
or a tick of the timer. -/
inductive WriterEvent where
  | recv (msg : String)
  | closed
  | tick

/-- The closure `flush` of `Logger.writer`. -/
def Logger.flush (l : Logger) (w : WriterState) : WriterState :=
  if w.batch.length = 0 ∨ l.file = none then w
  else { w with written := w.written ++ w.batch.map (fun msg => msg.push (Char.ofNat 10)),
                batch := [] }

/-- One iteration of the loop of `Logger.writer`. -/
def Logger.writerStep (l : Logger) (w : WriterState) (ev : WriterEvent) : WriterState :=
  if w.returned then w
  else
    match ev with
    | WriterEvent.recv msg =>
      let w1 := { w with batch := w.batch ++ [msg] }
      if w1.batch.length ≥ defaultBatchSize then l.flush w1 else w1
    | WriterEvent.closed => { l.flush w with returned := true }
    | WriterEvent.tick => l.flush w

/-- The method `Logger.writer` run on the events its `select` receives. -/
def Logger.writer (l : Logger) (events : List WriterEvent) : WriterState :=
  events.foldl l.writerStep { batch := [], written := [], returned := false }

/-- Ten log lines. -/
def tenLines : List String :=
  ["l0", "l1", "l2", "l3", "l4", "l5", "l6", "l7", "l8", "l9"]

/-! ## engine/engine.go: the locks around the connection map -/

/-- The mutexes of the engine: `e.Mutex` and the per-endpoint mutex `e.endpointMutex[id]`. -/
inductive LockId where
  | engine
  | endpoint (id : Int)
deriving DecidableEq, Repr

/-- The statements of the engine as far as the locking of the connection map `e.Clients` is
concerned: taking and releasing a mutex, a read and a mutation of `e.Clients[id]` or of one of its
entries, and any other statement (dial, write, close, log). -/
inductive LockOp where
  | lock (m : LockId)
  | unlock (m : LockId)
  | readClients (id : Int)
  | writeClients (id : Int)
  | other
deriving DecidableEq, Repr

/-- The statements `executeMessage` runs, in order. The flags pick the path: the target of a `syn`
was found, the dial succeeded, `e.Clients[fromID]` was nil, the lookup of the connection
succeeded. -/
def executeMessageOps (msg : Message) (found dialed noInner hasConn : Bool) : List LockOp :=
  [LockOp.lock LockId.engine, LockOp.other, LockOp.unlock LockId.engine] ++
    if msg.Kind = "syn" then
      if found then
        LockOp.other ::
          (if dialed then
            [LockOp.lock (LockId.endpoint msg.From), LockOp.readClients msg.From] ++
              (if noInner then [LockOp.writeClients msg.From] else []) ++
              [LockOp.writeClients msg.From, LockOp.unlock (LockId.endpoint msg.From),
               LockOp.other]
          else [])
      else []
    else if msg.Kind = "data" ∨ msg.Kind = "psh" ∨ msg.Kind = "push" then
      [LockOp.lock (LockId.endpoint msg.From), LockOp.readClients msg.From,
       LockOp.unlock (LockId.endpoint msg.From), LockOp.other]
    else if msg.Kind = "fin" then
      [LockOp.lock (LockId.endpoint msg.From), LockOp.readClients msg.From] ++
        (if hasConn then [LockOp.other, LockOp.writeClients msg.From] else []) ++
        [LockOp.unlock (LockId.endpoint msg.From), LockOp.other]
    else []

/-- The statements `StopEndpoint` runs, in order. The flags pick the path: the id was active, and
`e.Clients[id]` was present. -/
def StopEndpointOps (id : Int) (active hasConns : Bool) : List LockOp :=
  [LockOp.lock LockId.engine] ++
    (if active then
      [LockOp.other, LockOp.readClients id] ++
        (if hasConns then [LockOp.other, LockOp.writeClients id] else []) ++ [LockOp.other]
    else []) ++
    [LockOp.unlock LockId.engine]

/-- The statements of one iteration of the loop of `StopAll`, for the active id `id`;
`hasConns id` tells whether `e.Clients[id]` was present. -/
def StopAllIterOps (hasConns : Int → Bool) (id : Int) : List LockOp :=
  [LockOp.other, LockOp.readClients id] ++
    (if hasConns id then [LockOp.other, LockOp.writeClients id] else [])

/-- The statements of the locked part of `StopAll`, in order, for the active ids `ids`. -/
def StopAllOps (ids : List Int) (hasConns : Int → Bool) : List LockOp :=
  [LockOp.lock LockId.engine] ++ ids.flatMap (StopAllIterOps hasConns) ++
    [LockOp.other, LockOp.unlock LockId.engine]

/-- Every access to the connection map in `ops` is made while the running task holds all the
mutexes `need id` of the accessed id; `held` are the mutexes held at the start. -/
def guardedBy (need : Int → List LockId) : List LockId → List LockOp → Bool
  | _, [] => true
  | held, LockOp.lock m :: ops => guardedBy need (m :: held) ops
  | held, LockOp.unlock m :: ops => guardedBy need (held.erase m) ops
  | held, LockOp.readClients id :: ops =>
    (need id).all (fun m => decide (m ∈ held)) && guardedBy need held ops
  | held, LockOp.writeClients id :: ops =>
    (need id).all (fun m => decide (m ∈ held)) && guardedBy need held ops
  | held, LockOp.other :: ops => guardedBy need held ops

/-- Tasks running side by side: the statements each one has left, and the mutexes taken with the
number of the task holding each. -/
structure LockSys where
  threads : List (List LockOp)
  held : List (LockId × Nat)
deriving DecidableEq, Repr

/-- Task `t` runs its next statement. A `Lock` of a mutex that is held blocks (`none`), and so does
a task with nothing left to run. -/
def LockSys.step (s : LockSys) (t : Nat) : Option LockSys :=
  match s.threads[t]? with
  | some (LockOp.lock m :: rest) =>
    if s.held.any (fun h => decide (h.1 = m)) then none
    else some { threads := s.threads.set t rest, held := (m, t) :: s.held }
  | some (LockOp.unlock m :: rest) =>
    some { threads := s.threads.set t rest, held := s.held.filter (fun h => decide (h.1 ≠ m)) }
  | some (_ :: rest) => some { s with threads := s.threads.set t rest }
  | _ => none

/-- The tasks run one statement at a time in the order `sched`. -/
def LockSys.run (s : LockSys) : List Nat → Option LockSys
  | [] => some s
  | t :: sched => (s.step t).bind (fun s1 => s1.run sched)

/-- The entry of the connection map the next statement of task `t` accesses, and whether it
mutates it. -/
def LockSys.nextAccess (s : LockSys) (t : Nat) : Option (Int × Bool) :=
  match s.threads[t]? with
  | some (LockOp.readClients id :: _) => some (id, false)
  | some (LockOp.writeClients id :: _) => some (id, true)
  | _ => none

/-- Tasks `t1` and `t2` are both about to access the connections of the same endpoint, one of
them at least to mutate them. -/
def LockSys.race (s : LockSys) (t1 t2 : Nat) : Bool :=
  match s.nextAccess t1, s.nextAccess t2 with
  | some (i1, w1), some (i2, w2) => decide (i1 = i2) && (w1 || w2)
  | _, _ => false

/-- Task 0 is `StopEndpoint(2)` on an active endpoint with stored connections; task 1 is the
goroutine of endpoint 2 in `executeMessage` for the message syn 2 -> 1, the dial succeeding. -/
def stopVsStore : LockSys :=
  { threads := [StopEndpointOps 2 true true,
                executeMessageOps ⟨2, 1, "syn", "", 0⟩ true true false false],
    held := [] }

/-- The goroutine runs up to its store `e.Clients[fromID][msg.To] = conn`, then `StopEndpoint`
runs up to its `delete(e.Clients, id)`. -/
def storeThenStop : List Nat := [1, 1, 1, 1, 1, 1, 0, 0, 0, 0]

/-- After `storeThenStop` both tasks run to their end, one statement each in turn. -/
def bothFinish : List Nat := [0, 1, 0, 1, 0, 1]

/-! ## Theorems -/

/-- Whatever the state, `finishEndpoint` leaves the status of the endpoint at
`StatusCompleted` or `StatusError`. -/
theorem finishEndpoint_status (e : Engine) (id : Int) :
    (e.finishEndpoint id).GetStatus id = EndpointStatus.StatusCompleted ∨
      (e.finishEndpoint id).GetStatus id = EndpointStatus.StatusError := by
  by_cases h : e.GetStatus id = EndpointStatus.StatusError
  · right
    have hs : (e.finishEndpoint id).Status = e.Status := by
      simp [Engine.finishEndpoint, h]
    simpa [Engine.GetStatus, hs] using h
  · left
    have hs : (e.finishEndpoint id).Status = e.Status.set id EndpointStatus.StatusCompleted := by
      simp [Engine.finishEndpoint, h]
    simp [Engine.GetStatus, hs, GoMap.set]

/-- `StopEndpoint` on an id that is not active is the early return. -/
theorem StopEndpoint_of_not_active (e : Engine) (id : Int) (h : id ∉ e.ActiveEnd) :
    e.StopEndpoint id = e := by
  unfold Engine.StopEndpoint
  rw [if_pos h]

/-- After `StopEndpoint(id)` the id is not active. -/
theorem StopEndpoint_not_active (e : Engine) (id : Int) :
    id ∉ (e.StopEndpoint id).ActiveEnd := by
  by_cases h : id ∈ e.ActiveEnd
  · simp [Engine.StopEndpoint, h]
  · rw [StopEndpoint_of_not_active e id h]
    exact h

/-- C1 (the code departs from the claim): with two client endpoints started,
`StopEndpoint(1)` decrements `activeCount` and the goroutine of endpoint 1 then
decrements it again in `finishEndpoint`; the goroutine has ended, client 2 is
still in the active set, and `activeCount` is 0 while one active id is a client. -/
theorem activeCount_decremented_twice :
    Reachable twoClients afterStopThenFinish ∧
      afterStopThenFinish.pcOf 0 = some Pc.done ∧
      afterStopThenFinish.engine.ActiveEnd = [2] ∧
      afterStopThenFinish.engine.activeCount = 0 ∧
      afterStopThenFinish.engine.activeClients = 1 :=
  ⟨⟨stopThenFinish, rfl⟩, by decide⟩

/-- `executeMessage` changes neither `activeCount` nor `Running`. -/
theorem executeMessage_count (e : Engine) (msg : Message) (o : Oracle) :
    (e.executeMessage msg o).engine.activeCount = e.activeCount ∧
      (e.executeMessage msg o).engine.Running = e.Running := by
  unfold Engine.executeMessage
  simp only []
  repeat' split
  all_goals exact ⟨rfl, rfl⟩

/-- `setupListener` changes neither `activeCount` nor `Running`. -/
theorem setupListener_count (e : Engine) (ep : Endpoint) (o : Oracle) :
    (e.setupListener ep o).1.activeCount = e.activeCount ∧
      (e.setupListener ep o).1.Running = e.Running := by
  unfold Engine.setupListener
  split <;> exact ⟨rfl, rfl⟩

/-- The invariant only depends on `activeCount` and `Running`. -/
theorem CountInv_of_eq {e e1 : Engine} (h : CountInv e)
    (hc : e1.activeCount = e.activeCount ∧ e1.Running = e.Running) : CountInv e1 := by
  unfold CountInv at *
  rw [hc.1, hc.2]
  exact h

/-- `finishEndpoint` keeps the invariant. -/
theorem CountInv_finishEndpoint (e : Engine) (id : Int) (h : CountInv e) :
    CountInv (e.finishEndpoint id) := by
  obtain ⟨h0, h1⟩ := h
  by_cases hc : e.activeCount - 1 < 0
  · have : e.activeCount = 0 := by omega
    simp [CountInv, Engine.finishEndpoint, this]
  · have hpos : 0 < e.activeCount := by omega
    by_cases hz : e.activeCount - 1 = 0
    · simp [CountInv, Engine.finishEndpoint, hc, hz]
    · simp only [CountInv, Engine.finishEndpoint, hc, hz, if_false]
      exact ⟨by omega, fun _ => h1 hpos⟩

/-- `StartEndpoint` keeps the invariant. -/
theorem CountInv_StartEndpoint (e : Engine) (id : Int) (h : CountInv e) :
    CountInv (e.StartEndpoint id).1 := by
  obtain ⟨h0, h1⟩ := h
  by_cases ha : id ∈ e.ActiveEnd
  · simpa [Engine.StartEndpoint, ha] using And.intro h0 h1
  · by_cases hs : e.isServerId id = true
    · simp [CountInv, Engine.StartEndpoint, ha, hs, h0]
    · have hs2 : e.isServerId id = false := by simpa using hs
      simp only [CountInv, Engine.StartEndpoint, ha, hs2, if_false]
      exact ⟨by omega, fun _ => trivial⟩

/-- `StopEndpoint` keeps the invariant. -/
theorem CountInv_StopEndpoint (e : Engine) (id : Int) (h : CountInv e) :
    CountInv (e.StopEndpoint id) := by
  by_cases ha : id ∈ e.ActiveEnd
  · obtain ⟨h0, h1⟩ := h
    by_cases hs : e.isServerId id = true
    · by_cases hz : e.activeCount = 0
      · simp [CountInv, Engine.StopEndpoint, ha, hs, hz]
      · simp only [CountInv, Engine.StopEndpoint, ha, hs, hz, if_false, if_true, not_true_eq_false]
        exact ⟨h0, h1⟩
    · by_cases hc : e.activeCount - 1 < 0
      · simp [CountInv, Engine.StopEndpoint, ha, hs, hc]
      · have hpos : 0 < e.activeCount := by omega
        by_cases hz : e.activeCount - 1 = 0
        · simp [CountInv, Engine.StopEndpoint, ha, hs, hc, hz]
        · have hs2 : e.isServerId id = false := by simpa using hs
          simp only [CountInv, Engine.StopEndpoint, ha, hs2, hc, hz, if_false, not_true_eq_false]
          refine ⟨by omega, fun _ => ?_⟩
          simpa [hz] using h1 hpos
  · rw [StopEndpoint_of_not_active e id ha]
    exact h

/-- Indexing the messages changes neither `activeCount` nor `Running`. -/
theorem ensureIndexed_count (e : Engine) :
    e.ensureIndexed.activeCount = e.activeCount ∧ e.ensureIndexed.Running = e.Running := by
  unfold Engine.ensureIndexed
  split <;> exact ⟨rfl, rfl⟩

/-- Every step of a goroutine keeps the invariant. -/
theorem CountInv_taskStep (e : Engine) (t : Task) (o : Oracle) (h : CountInv e) :
    CountInv (taskStep e t o).1 := by
  have hidx := CountInv_of_eq h (ensureIndexed_count e)
  cases hpc : t.pc <;> simp only [taskStep, hpc]
  all_goals repeat' split
  all_goals first
    | exact h
    | exact hidx
    | exact CountInv_finishEndpoint _ _ h
    | exact CountInv_of_eq h (executeMessage_count _ _ _)
    | exact CountInv_of_eq h (setupListener_count _ _ _)

/-- The engine after a `start` action is the one `StartEndpoint` returns. -/
theorem step_start_engine (s : System) (id : Int) :
    (s.step (Action.start id)).engine = (s.engine.StartEndpoint id).1 := by
  simp only [System.step]
  rcases s.engine.StartEndpoint id with ⟨e1, _ | ⟨j, srv⟩⟩ <;> rfl

/-- The engine after a step of an existing goroutine. -/
theorem step_task_engine (s : System) (k : Nat) (o : Oracle) (t : Task)
    (h : s.tasks.get? k = some t) :
    (s.step (Action.task k o)).engine = (taskStep s.engine t o).1 := by
  simp only [System.step, h]

/-- A step of a goroutine that does not exist changes nothing. -/
theorem step_task_none (s : System) (k : Nat) (o : Oracle)
    (h : s.tasks.get? k = none) : s.step (Action.task k o) = s := by
  simp only [System.step, h]

/-- Every action keeps the invariant. -/
theorem CountInv_step (s : System) (a : Action) (h : CountInv s.engine) :
    CountInv (s.step a).engine := by
  cases a with
  | start id =>
    rw [step_start_engine]
    exact CountInv_StartEndpoint s.engine id h
  | stop id => exact CountInv_StopEndpoint s.engine id h
  | stopAllLocked => exact ⟨le_refl _, fun hp => absurd hp (lt_irrefl _)⟩
  | stopAllCancel => exact h
  | stopAllRenew => exact h
  | task k o =>
    cases ht : s.tasks.get? k with
    | none => rw [step_task_none s k o ht]; exact h
    | some t => rw [step_task_engine s k o t ht]; exact CountInv_taskStep _ _ _ h

/-- Every schedule keeps the invariant. -/
theorem CountInv_run (acts : List Action) (s : System) (h : CountInv s.engine) :
    CountInv (s.run acts).engine := by
  induction acts generalizing s with
  | nil => exact h
  | cons a rest ih => exact ih (s.step a) (CountInv_step s a h)

/-- C2 as stated fails: after `StartEndpoint` of the server endpoint 1 alone, a
reachable state, `Running` is true while `activeCount` is 0. -/
theorem running_iff_count_fails :
    Reachable badTarget afterStartServerOnly ∧
      ¬ (afterStartServerOnly.engine.Running = true ↔
          0 < afterStartServerOnly.engine.activeCount) :=
  ⟨⟨startServerOnly, rfl⟩, by decide⟩

/-- C2 amended: in every state reachable from a freshly constructed engine by
`StartEndpoint`, `StopEndpoint`, the phases of `StopAll` and steps of the
endpoint goroutines (their finalisation included), `activeCount` is not negative
and `Running` is true whenever `activeCount > 0`. -/
theorem running_of_count_pos (cfg : Config) (s : System) (hr : Reachable cfg s) :
    0 ≤ s.engine.activeCount ∧ (0 < s.engine.activeCount → s.engine.Running = true) := by
  obtain ⟨acts, rfl⟩ := hr
  exact CountInv_run acts _ ⟨le_refl _, fun hp => absurd hp (lt_irrefl _)⟩

/-- C2 amended, at the state reached by starting client 1 of `twoClients`. -/
theorem running_of_count_pos_witness :
    Reachable twoClients ((System.init twoClients).run [Action.start 1]) ∧
      0 < ((System.init twoClients).run [Action.start 1]).engine.activeCount ∧
      ((System.init twoClients).run [Action.start 1]).engine.Running = true :=
  ⟨⟨[Action.start 1], rfl⟩, by decide,
   (running_of_count_pos twoClients _ ⟨[Action.start 1], rfl⟩).2 (by decide)⟩

/-- C3 (the code departs from the claim): client 1 is running with both of its
messages still to process when `StopEndpoint(1)` sets its status to
`StatusIdle`; the goroutine then observes that it is no longer active, leaves
the loop and calls `finishEndpoint`, after which the status is
`StatusCompleted`. -/
theorem stopped_client_ends_completed :
    afterStopMidSequence.pcOf 0 = some (Pc.loopTop 0) ∧
      afterStopMidSequence.status 1 = EndpointStatus.StatusIdle ∧
      (afterStopMidSequence.run observeStop).pcOf 0 = some Pc.done ∧
      (afterStopMidSequence.run observeStop).status 1 = EndpointStatus.StatusCompleted := by
  decide

/-- Appending a character after a concatenation. -/
theorem push_append (a b : String) (c : Char) : (a ++ b).push c = a ++ b.push c := by
  apply String.ext
  show (a.data ++ b.data) ++ [c] = a.data ++ (b.data ++ [c])
  exact List.append_assoc _ _ _

/-- The joined lines with one more line at the end. -/
theorem joinLines_snoc (xs : List String) (x : String) :
    joinLines (xs ++ [x]) = (joinLines xs ++ x).push (Char.ofNat 10) := by
  unfold joinLines String.join
  rw [List.map_append, List.foldl_append, push_append]
  rfl

/-- The loop of `ReadAll` over `m` slots joins the non-empty lines it visits. -/
theorem readLoop (l : Logger) (start m : Nat) :
    (List.range m).foldl (l.readStep start) "" =
      joinLines (nonEmptyLines
        ((List.range m).map (fun i => l.lines.getD ((start + i) % l.capacity) ""))) := by
  induction m with
  | zero => rfl
  | succ m ih =>
    rw [List.range_succ, List.foldl_append, ih, List.map_append]
    unfold nonEmptyLines
    rw [List.filter_append]
    simp only [List.foldl_cons, List.foldl_nil, List.map_cons, List.map_nil, Logger.readStep]
    generalize l.lines.getD ((start + m) % l.capacity) "" = x
    by_cases h : x = ""
    · subst h
      simp
    · have hf : List.filter (fun w => decide (w ≠ "")) [x] = [x] := by simp [h]
      rw [hf, joinLines_snoc, if_pos h]

/-- Writing one more line. -/
theorem writeAll_snoc (l : Logger) (ws : List String) (w : String) :
    l.writeAll (ws ++ [w]) = (l.writeAll ws).Write w := by
  simp [Logger.writeAll, List.foldl_append]

/-- A new logger satisfies the ring invariant for no writes. -/
theorem RingInv_new (p : String) (cap : Int) (o : Option Nat) :
    RingInv (NewLogger p cap o).capacity [] (NewLogger p cap o) := by
  refine ⟨rfl, ?_, rfl, ?_, ?_, ?_⟩
  · show (List.replicate _ "").length = _
    rw [List.length_replicate]
    rfl
  · show 0 = 0 % _
    rw [Nat.zero_mod]
  · show 0 = min 0 _
    rw [Nat.zero_min]
  · intro k _ hk
    exact absurd hk (Nat.not_lt_zero k)

/-- The capacity of a new logger is positive. -/
theorem NewLogger_capacity_pos (p : String) (cap : Int) (o : Option Nat) :
    0 < (NewLogger p cap o).capacity := by
  show 0 < (if cap ≤ 0 then defaultLogLines else cap.toNat)
  by_cases h : cap ≤ 0
  · rw [if_pos h]
    unfold defaultLogLines
    omega
  · rw [if_neg h]
    omega

/-- Two write numbers less than `c` apart fall into different slots. -/
theorem mod_ne_of_lt {c k n : Nat} (h1 : k < n) (h2 : n - k < c) : k % c ≠ n % c := by
  intro h
  have hn : n = k + (n - k) := by omega
  have : (k + (n - k)) % c = k % c := by rw [← hn]; exact h.symm
  have h3 : (n - k) % c = 0 := by
    have := Nat.sub_mod_eq_zero_of_mod_eq this
    simpa using this
  rw [Nat.mod_eq_of_lt h2] at h3
  omega

/-- `Write` keeps the ring invariant. -/
theorem RingInv_Write (c : Nat) (hc : 0 < c) (ws : List String) (l : Logger) (w : String)
    (h : RingInv c ws l) : RingInv c (ws ++ [w]) (l.Write w) := by
  obtain ⟨hcap, hlen, hcl, hhead, hcount, hl⟩ := h
  have hW : l.Write w =
      { l with
          lines := l.lines.set l.head w
          head := (l.head + 1) % l.capacity
          count := if l.count < l.capacity then l.count + 1 else l.count
          ch := if l.ch.length < 100 then l.ch ++ [w] else l.ch } := by
    simp [Logger.Write, hcl]
  rw [hW]
  refine ⟨hcap, ?_, hcl, ?_, ?_, ?_⟩
  · simp [hlen]
  · simp only [hhead, hcap, List.length_append, List.length_singleton]
    rw [Nat.add_mod, Nat.mod_mod, ← Nat.add_mod]
  · simp only [hcount, hcap, List.length_append, List.length_singleton]
    split_ifs <;> omega
  · intro k hk1 hk2
    simp only [List.length_append, List.length_singleton] at hk1 hk2
    simp only [hhead]
    rw [List.getElem?_set]
    by_cases hkn : k = ws.length
    · subst hkn
      have hlt : ws.length % c < l.lines.length := by rw [hlen]; exact Nat.mod_lt _ hc
      simp [hlt]
    · have hk3 : k < ws.length := by omega
      have hne : ws.length % c ≠ k % c := (mod_ne_of_lt hk3 (by omega)).symm
      rw [if_neg hne, List.getElem?_append_left hk3]
      exact hl k (by omega) hk3

/-- The ring invariant holds after any sequence of writes on a new logger. -/
theorem RingInv_writeAll (p : String) (cap : Int) (o : Option Nat) (ws : List String) :
    RingInv (NewLogger p cap o).capacity ws ((NewLogger p cap o).writeAll ws) := by
  induction ws using List.reverseRecOn with
  | nil => exact RingInv_new p cap o
  | append_singleton ws w ih =>
    rw [writeAll_snoc]
    exact RingInv_Write _ (NewLogger_capacity_pos p cap o) ws _ w ih

/-- The slots `ReadAll` visits hold the last `min n c` written lines, oldest first. -/
theorem ring_contents (c : Nat) (ws : List String) (l : Logger)
    (h : RingInv c ws l) :
    (List.range l.count).map
        (fun i => l.lines.getD (((if l.count ≥ l.capacity then l.head else 0) + i) % l.capacity) "")
      = lastLines c ws := by
  obtain ⟨hcap, hlen, hcl, hhead, hcount, hl⟩ := h
  apply List.ext_getElem?
  intro i
  unfold lastLines
  rw [List.getElem?_map, List.getElem?_drop]
  by_cases hi : i < l.count
  · rw [List.getElem?_range hi]
    have hk : ws.length - min ws.length c + i < ws.length := by omega
    have hidx : ((if l.count ≥ l.capacity then l.head else 0) + i) % l.capacity =
        (ws.length - min ws.length c + i) % c := by
      rw [hcap, hhead, hcount]
      by_cases hn : c ≤ ws.length
      · have hmin : min ws.length c = c := by omega
        rw [hmin, if_pos (le_refl c)]
        have e1 : (ws.length % c + i) % c = (ws.length + i) % c := by
          rw [Nat.add_mod, Nat.mod_mod, ← Nat.add_mod]
        have e2 : ws.length + i = (ws.length - c + i) + c := by omega
        rw [e1, e2, Nat.add_mod_right]
      · have hmin : min ws.length c = ws.length := by omega
        rw [hmin, if_neg (by omega)]
        simp
    simp only [Option.map_some', List.getD_eq_getElem?_getD, hidx]
    rw [hl _ (by omega) hk]
    rw [List.getElem?_eq_getElem hk]
    rfl
  · rw [List.getElem?_eq_none (by simpa using hi), List.getElem?_eq_none (by omega)]
    rfl

/-- C4 as stated fails: on a logger of capacity 2, after the single line `""` has been written, `ReadAll` returns the empty string and not that line followed by a newline. -/
theorem ReadAll_fails :
    ((NewLogger "" 2 none).writeAll [""]).ReadAll ≠
      joinLines (lastLines (NewLogger "" 2 none).capacity [""]) := by
  decide

/-- C4 amended: for every logger made by `NewLogger`, of capacity `C`, and every sequence of `n` lines written to it, `ReadAll` returns the concatenation, oldest first, of those of the last `min n C` written lines that are not the empty string, each followed by a newline. -/
theorem ReadAll_nonEmpty (p : String) (cap : Int) (o : Option Nat) (ws : List String) :
    ((NewLogger p cap o).writeAll ws).ReadAll =
      joinLines (nonEmptyLines (lastLines (NewLogger p cap o).capacity ws)) := by
  have hinv := RingInv_writeAll p cap o ws
  have hpos := NewLogger_capacity_pos p cap o
  have hcontents := ring_contents _ ws _ hinv
  obtain ⟨hcap, hlen, hcl, hhead, hcount, hl⟩ := hinv
  unfold Logger.ReadAll
  by_cases h0 : ((NewLogger p cap o).writeAll ws).count = 0
  · rw [if_pos h0]
    have hws : ws = [] := by
      rw [hcount] at h0
      have : ws.length = 0 := by omega
      exact List.length_eq_zero.mp this
    subst hws
    simp [lastLines, nonEmptyLines, joinLines, String.join]
  · rw [if_neg h0]
    simp only []
    rw [readLoop, hcontents]

/-- C5: `StartEndpoint(id)` on an id of the active set returns the engine state
as it was (active set, `activeCount`, `Running`, the status map and every other
field) and spawns no goroutine. -/
theorem StartEndpoint_active_unchanged (e : Engine) (id : Int) (h : id ∈ e.ActiveEnd) :
    e.StartEndpoint id = (e, none) := by
  simp [Engine.StartEndpoint, h]

/-- C5 at the state reached by starting client 1 of `twoClients`. -/
theorem StartEndpoint_active_unchanged_witness :
    (1 : Int) ∈ ((NewEngine twoClients).StartEndpoint 1).1.ActiveEnd ∧
      ((NewEngine twoClients).StartEndpoint 1).1.StartEndpoint 1 =
        (((NewEngine twoClients).StartEndpoint 1).1, none) :=
  ⟨by decide, StartEndpoint_active_unchanged _ 1 (by decide)⟩

/-- C6: a second `StopEndpoint(id)` changes nothing of the state a first one
produced (active set, `activeCount`, `Running`, status, listener and connection
maps, and every other field), and `StopEndpoint` on an id that is not active
returns the state as it was. -/
theorem StopEndpoint_idempotent (e : Engine) (id : Int) :
    (e.StopEndpoint id).StopEndpoint id = e.StopEndpoint id ∧
      (id ∉ e.ActiveEnd → e.StopEndpoint id = e) :=
  ⟨StopEndpoint_of_not_active _ id (StopEndpoint_not_active e id),
   StopEndpoint_of_not_active e id⟩

/-- C6 at the fresh engine of `twoClients`, where id 1 is not active. -/
theorem StopEndpoint_idempotent_witness :
    (1 : Int) ∉ (NewEngine twoClients).ActiveEnd ∧
      (NewEngine twoClients).StopEndpoint 1 = NewEngine twoClients :=
  ⟨by decide, (StopEndpoint_idempotent (NewEngine twoClients) 1).2 (by decide)⟩

/-- C7 (the code departs from the claim): a client goroutine that observes the
cancellation fired by `StopAll`, while sleeping before a message or at the top
of its loop, sets the status to `StatusIdle` and then calls `finishEndpoint`,
after which the status is `StatusCompleted`. -/
theorem cancelled_client_ends_completed :
    afterSleepThenStopAll.pcOf 0 = some (Pc.sleeping 1 0) ∧
      (afterSleepThenStopAll.run observeCancel).pcOf 0 = some Pc.done ∧
      (afterSleepThenStopAll.run observeCancel).status 1 = EndpointStatus.StatusCompleted ∧
      afterCancelAtLoopTop.pcOf 0 = some Pc.done ∧
      afterCancelAtLoopTop.status 1 = EndpointStatus.StatusCompleted := by
  decide

/-- A goroutine that is done stays as it is. -/
theorem runTask_done (e : Engine) (t : Task) (os : List Oracle) (h : t.pc = Pc.done) :
    runTask e t os = (e, t) := by
  induction os with
  | nil => rfl
  | cons o os ih =>
    have : taskStep e t o = (e, t) := by simp [taskStep, h]
    show runTask (taskStep e t o).1 (taskStep e t o).2 os = (e, t)
    rw [this]
    exact ih

/-- A goroutine that is done satisfies what holds of its state. -/
theorem ev_done {e : Engine} {t : Task} {Q : Engine × Task → Prop} (n : Nat)
    (h : t.pc = Pc.done) (hq : Q (e, t)) : Eventually n e t Q := by
  intro os _ _
  rw [runTask_done e t os h]
  exact hq

/-- One step more: what is eventually true after each possible step is eventually true. -/
theorem ev_step {n : Nat} {e : Engine} {t : Task} {Q : Engine × Task → Prop}
    (h : ∀ o : Oracle, o.timer = true → Eventually n (taskStep e t o).1 (taskStep e t o).2 Q) :
    Eventually (n + 1) e t Q := by
  intro os hos hlen
  cases os with
  | nil => simp at hlen
  | cons o os =>
    have h1 := h o (hos o (List.mem_cons_self _ _)) os
      (fun x hx => hos x (List.mem_cons_of_mem _ hx))
      (by simpa using hlen)
    exact h1

/-- More steps are allowed. -/
theorem ev_mono {n m : Nat} {e : Engine} {t : Task} {Q : Engine × Task → Prop}
    (h : Eventually n e t Q) (hnm : n ≤ m) : Eventually m e t Q :=
  fun os hos hlen => h os hos (le_trans hnm hlen)

/-- The property may be weakened. -/
theorem ev_imp {n : Nat} {e : Engine} {t : Task} {Q Q1 : Engine × Task → Prop}
    (h : Eventually n e t Q) (hq : ∀ r, Q r → Q1 r) : Eventually n e t Q1 :=
  fun os hos hlen => hq _ (h os hos hlen)

/-- `executeMessage` changes neither the active set, the context, the trace nor the status map. -/
theorem executeMessage_frame (e : Engine) (msg : Message) (o : Oracle) :
    (e.executeMessage msg o).engine.ActiveEnd = e.ActiveEnd ∧
      (e.executeMessage msg o).engine.Ctx = e.Ctx ∧
      (e.executeMessage msg o).engine.cancelled = e.cancelled ∧
      (e.executeMessage msg o).engine.Config = e.Config ∧
      (e.executeMessage msg o).engine.Status = e.Status := by
  unfold Engine.executeMessage
  simp only []
  repeat' split
  all_goals exact ⟨rfl, rfl, rfl, rfl, rfl⟩

/-- A `syn` to an id that is not an endpoint of the trace makes `executeMessage` return an error. -/
theorem executeMessage_unknownSyn (e : Engine) (msg : Message) (o : Oracle)
    (h : unknownSyn e.Config.Endpoints msg) :
    (e.executeMessage msg o).err.isSome = true := by
  obtain ⟨hk, hf⟩ := h
  by_cases hm : msg.From ∈ e.endpointMutex
  · simp [Engine.executeMessage, hk, hm, hf]
  · simp [Engine.executeMessage, hk, hm, hf]

/-- `finishEndpoint` keeps the status `StatusError`. -/
theorem finishEndpoint_keeps_error (e : Engine) (id : Int)
    (h : e.GetStatus id = EndpointStatus.StatusError) :
    (e.finishEndpoint id).GetStatus id = EndpointStatus.StatusError := by
  have hs : (e.finishEndpoint id).Status = e.Status := by
    simp [Engine.finishEndpoint, h]
  simpa [Engine.GetStatus, hs] using h

/-- The loop property for one more message at the front. -/
theorem LoopPost_cons {id : Int} {eps : List Endpoint} {failed failed1 : Prop}
    {ex : List (Message × Bool)} {msg : Message} {b : Bool} {rest : List Message}
    {r : Engine × Task}
    (h : LoopPost id eps failed1 (ex ++ [(msg, b)]) rest r)
    (hf : failed ∨ b = true → failed1) (hb : unknownSyn eps msg → b = true) :
    LoopPost id eps failed ex (msg :: rest) r := by
  obtain ⟨hpc, new, hex, hmap, hst, hfl⟩ := h
  refine ⟨hpc, (msg, b) :: new, ?_, ?_, ?_, ?_⟩
  · rw [hex, List.append_assoc]
    rfl
  · simp [hmap]
  · rintro (hfa | ⟨x, hx, hx2⟩)
    · exact hst (Or.inl (hf (Or.inl hfa)))
    · rcases List.mem_cons.mp hx with rfl | hx
      · exact hst (Or.inl (hf (Or.inr hx2)))
      · exact hst (Or.inr ⟨x, hx, hx2⟩)
  · intro x hx hu
    rcases List.mem_cons.mp hx with rfl | hx
    · exact hb hu
    · exact hfl x hx hu

/-- The client loop from message `i` on, run undisturbed: it calls `executeMessage` on each remaining message in order and finalises. -/
theorem client_loop (id : Int) (eps : List Endpoint) (M : List Message) :
    ∀ (k i : Nat) (e : Engine) (ex : List (Message × Bool)) (failed : Prop),
      i + k = M.length → Steady id eps e →
      (failed → e.GetStatus id = EndpointStatus.StatusError) →
      Eventually (6 * k + 2) e
        { id := id, isServer := false, messages := M, pc := Pc.loopTop i, executed := ex }
        (LoopPost id eps failed ex (M.drop i)) := by
  intro k
  induction k with
  | zero =>
    intro i e ex failed hik hsteady hfail
    have hi : ¬ i < M.length := by omega
    refine ev_step fun o _ => ?_
    have h1 : taskStep e
        { id := id, isServer := false, messages := M, pc := Pc.loopTop i, executed := ex } o =
        (e, { id := id, isServer := false, messages := M, pc := Pc.finish, executed := ex }) := by
      simp [taskStep, hi]
    rw [h1]
    refine ev_step fun o1 _ => ?_
    have h2 : taskStep e
        { id := id, isServer := false, messages := M, pc := Pc.finish, executed := ex } o1 =
        (e.finishEndpoint id,
         { id := id, isServer := false, messages := M, pc := Pc.done, executed := ex }) := by
      simp [taskStep]
    rw [h2]
    refine ev_done 0 rfl ⟨rfl, [], by simp, ?_, ?_, by simp⟩
    · simp [List.drop_eq_nil_of_le (show M.length ≤ i by omega)]
    · rintro (hf | ⟨x, hx, _⟩)
      · exact finishEndpoint_keeps_error e id (hfail hf)
      · simp at hx
  | succ k ih =>
    intro i e ex failed hik hsteady hfail
    have hi : i < M.length := by omega
    have hget : M.get? i = some (M.get ⟨i, hi⟩) := List.get?_eq_get hi
    have hdrop : M.drop i = M.get ⟨i, hi⟩ :: M.drop (i + 1) := by
      simp
    generalize M.get ⟨i, hi⟩ = msg at hget hdrop
    have hget2 : M[i]? = some msg := by
      rw [← List.get?_eq_getElem?]
      exact hget
    rw [hdrop]
    obtain ⟨hact, hctx, heps⟩ := hsteady
    -- the call of executeMessage and what follows it
    have hExec : Eventually (6 * k + 4) e
        { id := id, isServer := false, messages := M, pc := Pc.exec i, executed := ex }
        (LoopPost id eps failed ex (msg :: M.drop (i + 1))) := by
      refine ev_step fun o _ => ?_
      obtain ⟨fa, fc, fd, fcfg, fst⟩ := executeMessage_frame e msg o
      have hsteady1 : Steady id eps (e.executeMessage msg o).engine :=
        ⟨by rw [fa]; exact hact, by rw [fc, fd]; exact hctx, by rw [fcfg]; exact heps⟩
      by_cases herr : (e.executeMessage msg o).err.isSome = true
      · have h1 : taskStep e
            { id := id, isServer := false, messages := M, pc := Pc.exec i, executed := ex } o =
            ((e.executeMessage msg o).engine,
             { id := id, isServer := false, messages := M, pc := Pc.setError i,
               executed := ex ++ [(msg, true)] }) := by
          simp [taskStep, hget2, herr]
        rw [h1]
        refine ev_step fun o1 _ => ?_
        have h2 : taskStep (e.executeMessage msg o).engine
            { id := id, isServer := false, messages := M, pc := Pc.setError i,
              executed := ex ++ [(msg, true)] } o1 =
            ((e.executeMessage msg o).engine.setStatus id EndpointStatus.StatusError,
             { id := id, isServer := false, messages := M, pc := Pc.loopTop (i + 1),
               executed := ex ++ [(msg, true)] }) := by
          simp [taskStep]
        rw [h2]
        have hI := ih (i + 1) ((e.executeMessage msg o).engine.setStatus id EndpointStatus.StatusError)
          (ex ++ [(msg, true)]) True (by omega) hsteady1
          (fun _ => by simp [Engine.setStatus, Engine.GetStatus, GoMap.set])
        exact ev_imp hI fun r hr => LoopPost_cons hr (fun _ => trivial) (fun _ => rfl)
      · have hfalse : (e.executeMessage msg o).err.isSome = false := by simpa using herr
        have h1 : taskStep e
            { id := id, isServer := false, messages := M, pc := Pc.exec i, executed := ex } o =
            ((e.executeMessage msg o).engine,
             { id := id, isServer := false, messages := M, pc := Pc.loopTop (i + 1),
               executed := ex ++ [(msg, false)] }) := by
          simp [taskStep, hget2, hfalse]
        rw [h1]
        have hI := ih (i + 1) (e.executeMessage msg o).engine
          (ex ++ [(msg, false)]) failed (by omega) hsteady1
          (fun hf => by
            have := hfail hf
            simpa [Engine.GetStatus, fst] using this)
        refine ev_mono (ev_imp hI fun r hr => LoopPost_cons hr ?_ ?_) (by omega)
        · rintro (hf | hb)
          · exact hf
          · exact absurd hb (by decide)
        · intro hu
          have := executeMessage_unknownSyn e msg o (by rw [heps]; exact hu)
          rw [hfalse] at this
          exact absurd this (by decide)
    refine ev_mono (ev_step fun o _ => ?_) (show 6 * k + 7 + 1 ≤ 6 * (k + 1) + 2 by omega)
    have h1 : taskStep e
        { id := id, isServer := false, messages := M, pc := Pc.loopTop i, executed := ex } o =
        (e, { id := id, isServer := false, messages := M, pc := Pc.checkActive i,
              executed := ex }) := by
      simp [taskStep, hi, hctx]
    rw [h1]
    refine ev_step fun o1 _ => ?_
    by_cases hd : msg.TDelta > 0
    · have h2 : taskStep e
          { id := id, isServer := false, messages := M, pc := Pc.checkActive i,
            executed := ex } o1 =
          (e, { id := id, isServer := false, messages := M, pc := Pc.sleepEnter i,
                executed := ex }) := by
        simp [taskStep, Engine.IsRunning, hact, hget2, hd]
      rw [h2]
      refine ev_step fun o2 _ => ?_
      have h3 : taskStep e
          { id := id, isServer := false, messages := M, pc := Pc.sleepEnter i,
            executed := ex } o2 =
          (e, { id := id, isServer := false, messages := M, pc := Pc.sleeping i e.Ctx,
                executed := ex }) := by
        simp [taskStep]
      rw [h3]
      refine ev_step fun o3 ho3 => ?_
      have h4 : taskStep e
          { id := id, isServer := false, messages := M, pc := Pc.sleeping i e.Ctx,
            executed := ex } o3 =
          (e, { id := id, isServer := false, messages := M, pc := Pc.exec i,
                executed := ex }) := by
        simp [taskStep, ho3]
      rw [h4]
      exact hExec
    · have h2 : taskStep e
          { id := id, isServer := false, messages := M, pc := Pc.checkActive i,
            executed := ex } o1 =
          (e, { id := id, isServer := false, messages := M, pc := Pc.exec i,
                executed := ex }) := by
        simp [taskStep, Engine.IsRunning, hact, hget2, hd]
      rw [h2]
      exact ev_mono hExec (by omega)

/-- Indexing the messages leaves the rest of the engine as it is. -/
theorem ensureIndexed_frame (e : Engine) :
    e.ensureIndexed.ActiveEnd = e.ActiveEnd ∧ e.ensureIndexed.Ctx = e.Ctx ∧
      e.ensureIndexed.cancelled = e.cancelled ∧ e.ensureIndexed.Status = e.Status ∧
      e.ensureIndexed.Config.Endpoints = e.Config.Endpoints := by
  unfold Engine.ensureIndexed
  split <;> exact ⟨rfl, rfl, rfl, rfl, rfl⟩

/-- The indexed trace only depends on the trace. -/
theorem ensureIndexed_config (e e1 : Engine) (h : e1.Config = e.Config) :
    e1.ensureIndexed.Config = e.ensureIndexed.Config := by
  unfold Engine.ensureIndexed
  rw [h]
  split <;> simp [h]

/-- C8: for a client endpoint that is started while the current context is not cancelled and whose goroutine then runs for enough steps without being stopped or cancelled (every sleep ends by its timer), whatever dials and writes return: the goroutine ends, the messages it passed to `executeMessage` are exactly those of the indexed sequence of the endpoint, once each and in order, and the status at the end is `StatusError` if some call returned an error, in particular if some message is a `syn` to an id that is not an endpoint of the trace. -/
theorem client_runs_every_message (e : Engine) (id : Int) (ep : Endpoint) (os : List Oracle)
    (hep : e.findEndpoint id = some ep) (hkind : ep.Kind = "client")
    (hna : id ∉ e.ActiveEnd) (hctx : e.Ctx ∉ e.cancelled)
    (htimer : ∀ o ∈ os, o.timer = true)
    (hlen : 6 * (e.ensureIndexed.Config.messagesOf id).length + 3 ≤ os.length) :
    (e.StartEndpoint id).2 = some (id, false) ∧
      (runTask (e.StartEndpoint id).1 (Task.spawn id false) os).2.pc = Pc.done ∧
      (runTask (e.StartEndpoint id).1 (Task.spawn id false) os).2.executed.map Prod.fst =
        e.ensureIndexed.Config.messagesOf id ∧
      ((∃ x ∈ (runTask (e.StartEndpoint id).1 (Task.spawn id false) os).2.executed, x.2 = true) →
        (runTask (e.StartEndpoint id).1 (Task.spawn id false) os).1.GetStatus id =
          EndpointStatus.StatusError) ∧
      ((∃ m ∈ e.ensureIndexed.Config.messagesOf id, unknownSyn e.Config.Endpoints m) →
        (runTask (e.StartEndpoint id).1 (Task.spawn id false) os).1.GetStatus id =
          EndpointStatus.StatusError) := by
  have hsrv : e.isServerId id = false := by
    simp [Engine.isServerId, hep, hkind]
  have hstart : e.StartEndpoint id =
      ({ e with
          endpointMutex := if id ∈ e.endpointMutex then e.endpointMutex else id :: e.endpointMutex
          ActiveEnd := id :: e.ActiveEnd
          Running := true
          activeCount := e.activeCount + 1
          Status := e.Status.set id EndpointStatus.StatusRunning }, some (id, false)) := by
    simp [Engine.StartEndpoint, hna, hsrv]
  rw [hstart]
  generalize he1 : ({ e with
          endpointMutex := if id ∈ e.endpointMutex then e.endpointMutex else id :: e.endpointMutex
          ActiveEnd := id :: e.ActiveEnd
          Running := true
          activeCount := e.activeCount + 1
          Status := e.Status.set id EndpointStatus.StatusRunning } : Engine) = e1
  have hcfg : e1.Config = e.Config := by rw [← he1]
  have hact1 : id ∈ e1.ActiveEnd := by rw [← he1]; exact List.mem_cons_self _ _
  have hctx1 : e1.Ctx ∉ e1.cancelled := by rw [← he1]; exact hctx
  obtain ⟨ia, ic, id1, _, iep⟩ := ensureIndexed_frame e1
  have hicfg := ensureIndexed_config e e1 hcfg
  have hfind : e1.ensureIndexed.findEndpoint id = some ep := by
    unfold Engine.findEndpoint at hep ⊢
    rw [iep, hcfg]
    exact hep
  have hns : ¬ ep.Kind = "server" := by rw [hkind]; decide
  have hsteady : Steady id e.Config.Endpoints e1.ensureIndexed :=
    ⟨by rw [ia]; exact hact1, by rw [ic, id1]; exact hctx1, by rw [iep, hcfg]⟩
  have hloop := client_loop id e.Config.Endpoints (e.ensureIndexed.Config.messagesOf id)
    (e.ensureIndexed.Config.messagesOf id).length 0 e1.ensureIndexed [] False (by omega) hsteady
    (fun h => h.elim)
  have hev : Eventually (6 * (e.ensureIndexed.Config.messagesOf id).length + 2 + 1) e1
      (Task.spawn id false)
      (LoopPost id e.Config.Endpoints False [] (e.ensureIndexed.Config.messagesOf id)) := by
    refine ev_step fun o _ => ?_
    have h1 : taskStep e1 (Task.spawn id false) o =
        (e1.ensureIndexed,
         { id := id, isServer := false, messages := e.ensureIndexed.Config.messagesOf id,
           pc := Pc.loopTop 0, executed := [] }) := by
      simp [taskStep, Task.spawn, hfind, hns, hicfg]
    rw [h1]
    simpa using hloop
  obtain ⟨hpc, new, hex, hmap, hst, hfl⟩ := hev os htimer (by omega)
  rw [List.nil_append] at hex
  refine ⟨rfl, hpc, by rw [hex, hmap], ?_, ?_⟩
  · rintro ⟨x, hx, hx2⟩
    rw [hex] at hx
    exact hst (Or.inr ⟨x, hx, hx2⟩)
  · rintro ⟨m, hm, hu⟩
    rw [← hmap] at hm
    obtain ⟨x, hx, rfl⟩ := List.mem_map.mp hm
    exact hst (Or.inr ⟨x, hx, hfl x hx hu⟩)

/-- C8 at client 2 of `badTarget`, whose first message is a `syn` to the undeclared id 99. -/
theorem client_runs_every_message_witness :
    (runTask ((NewEngine badTarget).StartEndpoint 2).1 (Task.spawn 2 false)
        (List.replicate 15 (Oracle.ok 7))).2.pc = Pc.done ∧
      (runTask ((NewEngine badTarget).StartEndpoint 2).1 (Task.spawn 2 false)
        (List.replicate 15 (Oracle.ok 7))).2.executed.map Prod.fst =
        (NewEngine badTarget).ensureIndexed.Config.messagesOf 2 :=
  have h := client_runs_every_message (NewEngine badTarget) 2 ⟨2, "client", "127.0.0.1", 9002⟩
    (List.replicate 15 (Oracle.ok 7)) (by decide) (by decide) (by decide) (by decide)
    (by decide) (by decide)
  ⟨h.2.1, h.2.2.1⟩

/-- C9 (the code departs from the claim): the `syn` of client 2 to the undeclared
endpoint 99 fails and the status becomes `StatusError`; `StopAll` then cancels
the sleeping goroutine, which overwrites the status with `StatusIdle` and calls
`finishEndpoint`, so that the status is `StatusCompleted` although no
`StartEndpoint` has occurred since the failure. -/
theorem error_overwritten_after_cancel :
    afterFailThenSleep.status 2 = EndpointStatus.StatusError ∧
      afterFailThenSleep.failuresOf 0 = some [true] ∧
      (afterFailThenSleep.run stopAllThenObserve).pcOf 0 = some Pc.done ∧
      (afterFailThenSleep.run stopAllThenObserve).status 2 =
        EndpointStatus.StatusCompleted := by
  decide

/-- C10 (the code departs from the claim): 99 is not the id of an endpoint of
`badTarget`; after `StartEndpoint(99)` and the run of the goroutine it spawns,
which only calls `finishEndpoint`, the status of 99 is `StatusCompleted`. -/
theorem unknown_id_ends_completed :
    (NewEngine badTarget).findEndpoint 99 = none ∧
      afterStartUnknown.pcOf 0 = some Pc.done ∧
      afterStartUnknown.status 99 = EndpointStatus.StatusCompleted := by
  decide

/-- An endpoint of kind `"client"` is not of kind `"server"`. -/
theorem isClient_not_server (e : Engine) (id : Int) (h : e.isClientId id = true) :
    e.isServerId id = false := by
  unfold Engine.isClientId at h
  unfold Engine.isServerId
  cases hf : e.findEndpoint id with
  | none => rfl
  | some ep =>
    rw [hf] at h
    simp only [beq_iff_eq] at h
    simp only [beq_eq_false_iff_ne]
    rw [h]
    decide

/-- C13 as stated fails: `StartEndpoint` of the undeclared id 99, and of
endpoint 3 whose kind is `"proxy"`, increments `activeCount` although the role is
not client. -/
theorem start_counts_clients_fails :
    ¬ StartCountsClients (NewEngine badTarget) 99 ∧
      ¬ StartCountsClients (NewEngine oddKind) 3 := by
  decide

/-- C13 amended: for every engine state and every id not in the active set,
after `StartEndpoint(id)` the id is active with status Running, one goroutine is
spawned, and `activeCount` has increased by one unless the id is that of an
endpoint of kind `"server"`, in which case it is unchanged; in particular it has
increased by one for a client endpoint. -/
theorem StartEndpoint_effect (e : Engine) (id : Int) (h : id ∉ e.ActiveEnd) :
    id ∈ (e.StartEndpoint id).1.ActiveEnd ∧
      (e.StartEndpoint id).1.GetStatus id = EndpointStatus.StatusRunning ∧
      (e.isServerId id = false → (e.StartEndpoint id).1.activeCount = e.activeCount + 1) ∧
      (e.isServerId id = true → (e.StartEndpoint id).1.activeCount = e.activeCount) ∧
      (e.isClientId id = true → (e.StartEndpoint id).1.activeCount = e.activeCount + 1) ∧
      (e.StartEndpoint id).2 = some (id, e.isServerId id) := by
  have hc : (e.StartEndpoint id).1.activeCount =
      if e.isServerId id = true then e.activeCount else e.activeCount + 1 := by
    simp [Engine.StartEndpoint, h]
  refine ⟨?_, ?_, ?_, ?_, ?_, ?_⟩
  · simp [Engine.StartEndpoint, h]
  · simp [Engine.StartEndpoint, h, Engine.GetStatus, GoMap.set]
  · intro hs
    rw [hc, hs]
    rfl
  · intro hs
    rw [hc, hs]
    rfl
  · intro hcl
    rw [hc, isClient_not_server e id hcl]
    rfl
  · simp [Engine.StartEndpoint, h]

/-- C13 amended, at the fresh engine of `twoClients` and its client 1. -/
theorem StartEndpoint_effect_witness :
    (1 : Int) ∉ (NewEngine twoClients).ActiveEnd ∧
      (NewEngine twoClients).isClientId 1 = true ∧
      ((NewEngine twoClients).StartEndpoint 1).1.activeCount =
        (NewEngine twoClients).activeCount + 1 :=
  ⟨by decide, by decide,
   (StartEndpoint_effect (NewEngine twoClients) 1 (by decide)).2.2.2.2.1 (by decide)⟩

/-- C14 as stated fails: the undeclared id 99 is active with `activeCount = 1`;
its role is not client, and `StopEndpoint(99)` decrements `activeCount` to 0. -/
theorem stop_counts_clients_fails :
    (99 : Int) ∈ unknownActive.ActiveEnd ∧ ¬ StopCountsClients unknownActive 99 := by
  decide

/-- C14 amended: for every engine state and every active id, after
`StopEndpoint(id)` the id is not active; `activeCount` is decremented (not below
0) unless the id is that of an endpoint of kind `"server"`, in which case it is
unchanged (so it is decremented for a client endpoint); a status Running has
become Idle while any other status is unchanged; and the listener map and the
connection map have no entry for id. -/
theorem StopEndpoint_effect (e : Engine) (id : Int) (h : id ∈ e.ActiveEnd) :
    id ∉ (e.StopEndpoint id).ActiveEnd ∧
      (e.isServerId id = false → (e.StopEndpoint id).activeCount = clampDec e.activeCount) ∧
      (e.isServerId id = true → (e.StopEndpoint id).activeCount = e.activeCount) ∧
      (e.isClientId id = true → (e.StopEndpoint id).activeCount = clampDec e.activeCount) ∧
      (e.GetStatus id = EndpointStatus.StatusRunning →
        (e.StopEndpoint id).GetStatus id = EndpointStatus.StatusIdle) ∧
      (e.GetStatus id ≠ EndpointStatus.StatusRunning →
        (e.StopEndpoint id).Status id = e.Status id) ∧
      (e.StopEndpoint id).Listeners id = none ∧
      (e.StopEndpoint id).Clients id = none := by
  have hc : (e.StopEndpoint id).activeCount =
      if e.isServerId id = true then e.activeCount else clampDec e.activeCount := by
    simp [Engine.StopEndpoint, h, clampDec]
  have hst : (e.StopEndpoint id).Status =
      if e.GetStatus id = EndpointStatus.StatusRunning
      then e.Status.set id EndpointStatus.StatusIdle else e.Status := by
    simp [Engine.StopEndpoint, h]
  refine ⟨StopEndpoint_not_active e id, ?_, ?_, ?_, ?_, ?_, ?_, ?_⟩
  · intro hs
    rw [hc, hs]
    rfl
  · intro hs
    rw [hc, hs]
    rfl
  · intro hcl
    rw [hc, isClient_not_server e id hcl]
    rfl
  · intro hr
    unfold Engine.GetStatus
    rw [hst, if_pos hr]
    simp [GoMap.set]
  · intro hr
    rw [hst, if_neg hr]
  · simp [Engine.StopEndpoint, h, GoMap.delete]
  · simp [Engine.StopEndpoint, h, GoMap.delete]

/-- C14 amended, at the engine of `twoClients` in which client 1 is active. -/
theorem StopEndpoint_effect_witness :
    (1 : Int) ∈ clientActive.ActiveEnd ∧
      clientActive.isClientId 1 = true ∧
      (clientActive.StopEndpoint 1).activeCount = clampDec clientActive.activeCount ∧
      (clientActive.StopEndpoint 1).Clients 1 = none :=
  ⟨by decide, by decide,
   (StopEndpoint_effect clientActive 1 (by decide)).2.2.2.1 (by decide),
   (StopEndpoint_effect clientActive 1 (by decide)).2.2.2.2.2.2.2⟩

/-- When `StopEndpoint` of an active id leaves the counter at 0, it sets `Running` to false. -/
theorem StopEndpoint_running_false (e : Engine) (id : Int) (h : id ∈ e.ActiveEnd)
    (hz : (e.StopEndpoint id).activeCount = 0) : (e.StopEndpoint id).Running = false := by
  have hr : (e.StopEndpoint id).Running =
      if (e.StopEndpoint id).activeCount = 0 then false else e.Running := by
    simp [Engine.StopEndpoint, h]
  rw [hr, if_pos hz]

/-- C15: in every reachable state and for every active id, right after
`StopEndpoint(id)` the flag `Running` is true exactly when `activeCount > 0`. -/
theorem StopEndpoint_running_iff (cfg : Config) (s : System) (id : Int)
    (hr : Reachable cfg s) (h : id ∈ s.engine.ActiveEnd) :
    ((s.engine.StopEndpoint id).Running = true ↔
      0 < (s.engine.StopEndpoint id).activeCount) := by
  obtain ⟨acts, rfl⟩ := hr
  have hinv : CountInv ((System.init cfg).run acts).engine :=
    CountInv_run acts _ ⟨le_refl _, fun hp => absurd hp (lt_irrefl _)⟩
  obtain ⟨h0, h1⟩ := CountInv_StopEndpoint _ id hinv
  constructor
  · intro hrun
    by_contra hn
    have hz : (((System.init cfg).run acts).engine.StopEndpoint id).activeCount = 0 := by omega
    rw [StopEndpoint_running_false _ id h hz] at hrun
    exact absurd hrun (by decide)
  · exact h1

/-- C15 at the state of `twoClients` in which clients 1 and 2 have been started. -/
theorem StopEndpoint_running_iff_witness :
    Reachable twoClients ((System.init twoClients).run [Action.start 1, Action.start 2]) ∧
      (1 : Int) ∈ ((System.init twoClients).run [Action.start 1, Action.start 2]).engine.ActiveEnd ∧
      ((((System.init twoClients).run [Action.start 1, Action.start 2]).engine.StopEndpoint
          1).Running = true ↔
        0 < (((System.init twoClients).run [Action.start 1, Action.start 2]).engine.StopEndpoint
          1).activeCount) :=
  ⟨⟨_, rfl⟩, by decide,
   StopEndpoint_running_iff twoClients _ 1 ⟨[Action.start 1, Action.start 2], rfl⟩ (by decide)⟩

/-- C16: for distinct ids `a` and `b`, `StopEndpoint(a)` leaves the membership of
`b` in the active set, the status of `b`, the listener entry of `b` and the
connection-map entry of `b` unchanged. -/
theorem StopEndpoint_frame (e : Engine) (a b : Int) (hab : a ≠ b) :
    (b ∈ (e.StopEndpoint a).ActiveEnd ↔ b ∈ e.ActiveEnd) ∧
      (e.StopEndpoint a).Status b = e.Status b ∧
      (e.StopEndpoint a).Listeners b = e.Listeners b ∧
      (e.StopEndpoint a).Clients b = e.Clients b := by
  have hba : b ≠ a := fun h => hab h.symm
  by_cases h : a ∈ e.ActiveEnd
  · refine ⟨?_, ?_, ?_, ?_⟩
    · simp [Engine.StopEndpoint, h, hba]
    · by_cases hr : e.GetStatus a = EndpointStatus.StatusRunning
      · simp [Engine.StopEndpoint, h, hr, GoMap.set, hba]
      · simp [Engine.StopEndpoint, h, hr]
    · simp [Engine.StopEndpoint, h, GoMap.delete, hba]
    · simp [Engine.StopEndpoint, h, GoMap.delete, hba]
  · rw [StopEndpoint_of_not_active e a h]
    exact ⟨Iff.rfl, rfl, rfl, rfl⟩

/-- C16 at the engine of `twoClients` with client 1 active, for `a = 1` and `b = 2`. -/
theorem StopEndpoint_frame_witness :
    (1 : Int) ≠ 2 ∧ (clientActive.StopEndpoint 1).Status 2 = clientActive.Status 2 :=
  ⟨by decide, (StopEndpoint_frame clientActive 1 2 (by decide)).2.1⟩

/-- The status map after one iteration of the loop of `StopAll`. -/
theorem stopAllBody_status (e : Engine) (a id : Int) :
    (e.stopAllBody a).Status id =
      if id = a ∧ e.GetStatus id = EndpointStatus.StatusRunning
      then some EndpointStatus.StatusIdle else e.Status id := by
  by_cases h : id = a
  · subst h
    by_cases hr : e.GetStatus id = EndpointStatus.StatusRunning
    · simp [Engine.stopAllBody, hr, GoMap.set]
    · simp [Engine.stopAllBody, hr]
  · by_cases hr : e.GetStatus a = EndpointStatus.StatusRunning
    · simp [Engine.stopAllBody, hr, GoMap.set, h]
    · simp [Engine.stopAllBody, hr, h]

/-- The loop of `StopAll` over the ids `L`: their Running statuses become Idle, their listener and connection entries are removed, they leave the active set, and nothing else changes. -/
theorem stopAll_fold (L : List Int) :
    ∀ e : Engine,
      (∀ id, (L.foldl Engine.stopAllBody e).Status id =
        if id ∈ L ∧ e.GetStatus id = EndpointStatus.StatusRunning
        then some EndpointStatus.StatusIdle else e.Status id) ∧
      (∀ id, (L.foldl Engine.stopAllBody e).Listeners id =
        if id ∈ L then none else e.Listeners id) ∧
      (∀ id, (L.foldl Engine.stopAllBody e).Clients id =
        if id ∈ L then none else e.Clients id) ∧
      (L.foldl Engine.stopAllBody e).ActiveEnd = e.ActiveEnd.filter (fun j => decide (j ∉ L)) ∧
      (L.foldl Engine.stopAllBody e).Ctx = e.Ctx ∧
      (L.foldl Engine.stopAllBody e).cancelled = e.cancelled ∧
      (L.foldl Engine.stopAllBody e).Config = e.Config := by
  induction L with
  | nil =>
    intro e
    simp
  | cons a L ih =>
    intro e
    obtain ⟨hs, hl, hc, ha, hx, hcan, hcfg⟩ := ih (e.stopAllBody a)
    simp only [List.foldl_cons]
    refine ⟨?_, ?_, ?_, ?_, ?_, ?_, ?_⟩
    · intro id
      rw [hs id, stopAllBody_status]
      have hg : (e.stopAllBody a).GetStatus id =
          if id = a ∧ e.GetStatus id = EndpointStatus.StatusRunning
          then EndpointStatus.StatusIdle else e.GetStatus id := by
        unfold Engine.GetStatus
        rw [stopAllBody_status]
        unfold Engine.GetStatus
        split_ifs <;> rfl
      rw [hg]
      by_cases h1 : id = a
      · subst h1
        by_cases h2 : e.GetStatus id = EndpointStatus.StatusRunning
        · simp [h2]
        · simp [h2]
      · simp [h1]
    · intro id
      rw [hl id]
      by_cases h1 : id = a
      · simp [h1, Engine.stopAllBody, GoMap.delete]
      · simp [h1, Engine.stopAllBody, GoMap.delete]
    · intro id
      rw [hc id]
      by_cases h1 : id = a
      · simp [h1, Engine.stopAllBody, GoMap.delete]
      · simp [h1, Engine.stopAllBody, GoMap.delete]
    · rw [ha]
      simp only [Engine.stopAllBody, List.filter_filter]
      apply List.filter_congr
      intro j _
      simp [not_or, and_comm]
      exact Bool.and_comm _ _
    · rw [hx]; rfl
    · rw [hcan]; rfl
    · rw [hcfg]; rfl

/-- The locked part of `StopAll` empties the active set. -/
theorem stopAllLocked_active (e : Engine) : e.stopAllLocked.ActiveEnd = [] := by
  have h := (stopAll_fold e.ActiveEnd e).2.2.2.1
  show (e.ActiveEnd.foldl Engine.stopAllBody e).ActiveEnd = []
  rw [h]
  simp

/-- C12: for every engine state (whose contexts are numbered in creation order, as in every reachable state), after `StopAll` the active set is empty, `activeCount` is 0, `Running` is false, every endpoint that was active with status Running has status Idle while every other status entry is unchanged, and the installed context is not cancelled; and `StartEndpoint(id)` right after it takes the start branch for every id: the id becomes active with status Running and a goroutine is spawned. -/
theorem StopAll_effect (e : Engine) (hctx : CtxWf e) :
    e.StopAll.ActiveEnd = [] ∧ e.StopAll.activeCount = 0 ∧ e.StopAll.Running = false ∧
      (∀ id, id ∈ e.ActiveEnd → e.GetStatus id = EndpointStatus.StatusRunning →
        e.StopAll.GetStatus id = EndpointStatus.StatusIdle) ∧
      (∀ id, ¬ (id ∈ e.ActiveEnd ∧ e.GetStatus id = EndpointStatus.StatusRunning) →
        e.StopAll.Status id = e.Status id) ∧
      e.StopAll.Ctx ∉ e.StopAll.cancelled ∧
      (∀ id, id ∈ (e.StopAll.StartEndpoint id).1.ActiveEnd ∧
        (e.StopAll.StartEndpoint id).1.GetStatus id = EndpointStatus.StatusRunning ∧
        (e.StopAll.StartEndpoint id).2 = some (id, e.StopAll.isServerId id)) := by
  obtain ⟨hs, _, _, _, hx, hcan, _⟩ := stopAll_fold e.ActiveEnd e
  have hact : e.StopAll.ActiveEnd = [] := stopAllLocked_active e
  have hst : ∀ id, e.StopAll.Status id = (e.ActiveEnd.foldl Engine.stopAllBody e).Status id :=
    fun _ => rfl
  refine ⟨hact, rfl, rfl, ?_, ?_, ?_, ?_⟩
  · intro id h1 h2
    unfold Engine.GetStatus
    rw [hst, hs id, if_pos ⟨h1, h2⟩]
    rfl
  · intro id h
    rw [hst, hs id, if_neg h]
  · show e.stopAllLocked.Ctx + 1 ∉ e.stopAllLocked.Ctx :: e.stopAllLocked.cancelled
    have h1 : e.stopAllLocked.Ctx = e.Ctx := hx
    have h2 : e.stopAllLocked.cancelled = e.cancelled := hcan
    rw [h1, h2]
    intro hmem
    rcases List.mem_cons.mp hmem with h | h
    · omega
    · have := hctx _ h
      omega
  · intro id
    have hn : id ∉ e.StopAll.ActiveEnd := by rw [hact]; exact List.not_mem_nil _
    have := StartEndpoint_effect e.StopAll id hn
    exact ⟨this.1, this.2.1, this.2.2.2.2.2⟩

/-- `setupListener` keeps the setting. -/
theorem setupListener_setting (e : Engine) (ep : Endpoint) (o : Oracle) :
    SameSetting e (e.setupListener ep o).1 := by
  unfold Engine.setupListener
  split <;> exact ⟨rfl, rfl, rfl⟩

/-- `executeMessage` keeps the setting. -/
theorem executeMessage_setting (e : Engine) (msg : Message) (o : Oracle) :
    SameSetting e (e.executeMessage msg o).engine := by
  obtain ⟨_, h1, h2, h3, _⟩ := executeMessage_frame e msg o
  exact ⟨h1, h2, by rw [h3]⟩

/-- Indexing the messages keeps the setting. -/
theorem ensureIndexed_setting (e : Engine) : SameSetting e e.ensureIndexed := by
  obtain ⟨_, h1, h2, _, h3⟩ := ensureIndexed_frame e
  exact ⟨h1, h2, h3⟩

/-- Every step of a goroutine keeps the setting. -/
theorem taskStep_setting (e : Engine) (t : Task) (o : Oracle) :
    SameSetting e (taskStep e t o).1 := by
  cases hpc : t.pc <;> simp only [taskStep, hpc]
  all_goals repeat' split
  all_goals first
    | exact ⟨rfl, rfl, rfl⟩
    | exact ensureIndexed_setting e
    | exact executeMessage_setting _ _ _
    | exact setupListener_setting _ _ _

/-- `StartEndpoint` keeps the setting. -/
theorem StartEndpoint_setting (e : Engine) (id : Int) :
    SameSetting e (e.StartEndpoint id).1 := by
  unfold Engine.StartEndpoint
  split <;> exact ⟨rfl, rfl, rfl⟩

/-- `StopEndpoint` keeps the setting. -/
theorem StopEndpoint_setting (e : Engine) (id : Int) :
    SameSetting e (e.StopEndpoint id) := by
  unfold Engine.StopEndpoint
  split <;> exact ⟨rfl, rfl, rfl⟩

/-- The locked part of `StopAll` keeps the setting. -/
theorem stopAllLocked_setting (e : Engine) : SameSetting e e.stopAllLocked := by
  obtain ⟨_, _, _, _, hx, hcan, hcfg⟩ := stopAll_fold e.ActiveEnd e
  exact ⟨hx, hcan, by
    show (e.ActiveEnd.foldl Engine.stopAllBody e).Config.Endpoints = _
    rw [hcfg]⟩

/-- The numbering of contexts only depends on the setting. -/
theorem CtxWf_of_same {e e1 : Engine} (h : CtxWf e) (hs : SameSetting e e1) : CtxWf e1 := by
  unfold CtxWf
  rw [hs.1, hs.2.1]
  exact h

/-- Every action keeps the contexts numbered in creation order. -/
theorem step_setting (s : System) (a : Action) :
    CtxWf s.engine → CtxWf (s.step a).engine := by
  intro h
  cases a with
  | start id =>
    rw [step_start_engine]
    exact CtxWf_of_same h (StartEndpoint_setting _ _)
  | stop id => exact CtxWf_of_same h (StopEndpoint_setting _ _)
  | stopAllLocked => exact CtxWf_of_same h (stopAllLocked_setting _)
  | stopAllCancel =>
    intro c hc
    rcases List.mem_cons.mp hc with h1 | h1
    · exact le_of_eq h1
    · exact h c h1
  | stopAllRenew =>
    intro c hc
    exact Nat.le_succ_of_le (h c hc)
  | task k o =>
    cases ht : s.tasks.get? k with
    | none => rw [step_task_none s k o ht]; exact h
    | some t =>
      rw [step_task_engine s k o t ht]
      exact CtxWf_of_same h (taskStep_setting _ _ _)

/-- No action changes the endpoints of the trace. -/
theorem step_endpoints (s : System) (a : Action) :
    (s.step a).engine.Config.Endpoints = s.engine.Config.Endpoints := by
  cases a with
  | start id =>
    rw [step_start_engine]
    exact (StartEndpoint_setting _ _).2.2
  | stop id => exact (StopEndpoint_setting _ _).2.2
  | stopAllLocked => exact (stopAllLocked_setting _).2.2
  | stopAllCancel => rfl
  | stopAllRenew => rfl
  | task k o =>
    cases ht : s.tasks.get? k with
    | none => rw [step_task_none s k o ht]
    | some t =>
      rw [step_task_engine s k o t ht]
      exact (taskStep_setting _ _ _).2.2

/-- In every reachable state the contexts are numbered in creation order. -/
theorem reachable_ctx_wf (cfg : Config) (s : System) (hr : Reachable cfg s) :
    CtxWf s.engine := by
  obtain ⟨acts, rfl⟩ := hr
  have : ∀ (acts : List Action) (s : System), CtxWf s.engine → CtxWf (s.run acts).engine := by
    intro acts
    induction acts with
    | nil => intro s h; exact h
    | cons a rest ih => intro s h; exact ih (s.step a) (step_setting s a h)
  exact this acts _ (fun c hc => absurd hc (List.not_mem_nil c))

/-- In every reachable state the endpoints are those of the trace the engine was made with. -/
theorem reachable_endpoints (cfg : Config) (s : System) (hr : Reachable cfg s) :
    s.engine.Config.Endpoints = cfg.Endpoints := by
  obtain ⟨acts, rfl⟩ := hr
  have : ∀ (acts : List Action) (s : System),
      (s.run acts).engine.Config.Endpoints = s.engine.Config.Endpoints := by
    intro acts
    induction acts with
    | nil => intro s; rfl
    | cons a rest ih => intro s; exact (ih (s.step a)).trans (step_endpoints s a)
  exact this acts _


/-- C12 at the engine of `twoClients` in which client 1 is active. -/
theorem StopAll_effect_witness :
    CtxWf clientActive ∧ clientActive.StopAll.ActiveEnd = [] ∧
      clientActive.StopAll.Ctx ∉ clientActive.StopAll.cancelled ∧
      clientActive.StopAll.GetStatus 1 = EndpointStatus.StatusIdle :=
  ⟨fun c hc => absurd hc (List.not_mem_nil c),
   (StopAll_effect clientActive (fun c hc => absurd hc (List.not_mem_nil c))).1,
   (StopAll_effect clientActive (fun c hc => absurd hc (List.not_mem_nil c))).2.2.2.2.2.1,
   (StopAll_effect clientActive (fun c hc => absurd hc (List.not_mem_nil c))).2.2.2.1 1
     (by decide) (by decide)⟩

/-- On a valid hex string `hex.DecodeString` succeeds and returns the bytes of the successive pairs of digits. -/
theorem hexDecode_valid : ∀ cs : List Char, validHex cs → hexDecode cs = some (hexPairs cs)
  | [], _ => rfl
  | [_], h => by
    have := h.1
    simp at this
  | a :: b :: rest, h => by
    have hrest : validHex rest := by
      refine ⟨?_, fun ch hch => h.2 ch (List.mem_cons_of_mem _ (List.mem_cons_of_mem _ hch))⟩
      have := h.1
      simp only [List.length_cons] at this
      omega
    have ha := h.2 a (List.mem_cons_self _ _)
    have hb := h.2 b (List.mem_cons_of_mem _ (List.mem_cons_self _ _))
    obtain ⟨x, hx⟩ := Option.isSome_iff_exists.mp ha
    obtain ⟨y, hy⟩ := Option.isSome_iff_exists.mp hb
    simp [hexDecode, hexPairs, hexVal, hx, hy, hexDecode_valid rest hrest]

/-- On a string that is not a valid hex string `hex.DecodeString` fails. -/
theorem hexDecode_invalid : ∀ cs : List Char, ¬ validHex cs → hexDecode cs = none
  | [], h => absurd ⟨rfl, fun _ hch => absurd hch (List.not_mem_nil _)⟩ h
  | [_], _ => rfl
  | a :: b :: rest, h => by
    cases ha : fromHexChar a with
    | none => simp [hexDecode, ha]
    | some x =>
      cases hb : fromHexChar b with
      | none => simp [hexDecode, ha, hb]
      | some y =>
        have hrest : ¬ validHex rest := by
          intro hr
          apply h
          refine ⟨?_, ?_⟩
          · have := hr.1
            simp only [List.length_cons]
            omega
          · intro ch hch
            rcases List.mem_cons.mp hch with rfl | hch
            · simp [ha]
            · rcases List.mem_cons.mp hch with rfl | hch
              · simp [hb]
              · exact hr.2 ch hch
        simp [hexDecode, ha, hb, hexDecode_invalid rest hrest]

/-- A string of `2n` characters has `n` pairs. -/
theorem hexPairs_length : ∀ cs : List Char, cs.length % 2 = 0 → (hexPairs cs).length * 2 = cs.length
  | [], _ => rfl
  | [_], h => by simp at h
  | a :: b :: rest, h => by
    have hr : rest.length % 2 = 0 := by
      simp only [List.length_cons] at h
      omega
    have := hexPairs_length rest hr
    simp only [hexPairs, List.length_cons]
    omega

/-- The kinds data, psh and push are not the kind syn. -/
theorem dataKind_not_syn (msg : Message)
    (hk : msg.Kind = "data" ∨ msg.Kind = "psh" ∨ msg.Kind = "push") : ¬ msg.Kind = "syn" := by
  rcases hk with h | h | h <;> rw [h] <;> decide

/-- What `executeMessage` does with a data message, by cases. -/
theorem executeMessage_data (e : Engine) (msg : Message) (o : Oracle)
    (hk : msg.Kind = "data" ∨ msg.Kind = "psh" ∨ msg.Kind = "push") :
    (e.executeMessage msg o).engine.Clients = e.Clients ∧
      (e.executeMessage msg o).err =
        (match e.conn msg.From msg.To with
         | none => none
         | some _ =>
           match hexDecode msg.Value.toList with
           | none => some ExecError.invalidHex
           | some data =>
             if data.length > 0 ∧ o.writeOk = false then some ExecError.writeFailed else none) ∧
      (e.executeMessage msg o).wrote =
        (match e.conn msg.From msg.To with
         | none => none
         | some c =>
           match hexDecode msg.Value.toList with
           | none => none
           | some data => if data.length > 0 then some (c, data) else none) := by
  have hns := dataKind_not_syn msg hk
  by_cases hm : msg.From ∈ e.endpointMutex
  · simp only [Engine.executeMessage, hm, if_true, hns, if_false, hk]
    cases hc : e.conn msg.From msg.To with
    | none => simp
    | some c =>
      cases hd : hexDecode msg.Value.toList with
      | none => simp
      | some data =>
        by_cases hl : data.length > 0
        · cases hw : o.writeOk <;> simp [hl, hw]
        · simp [hl]
  · have h0 : ({ e with endpointMutex := msg.From :: e.endpointMutex } : Engine).conn
        msg.From msg.To = e.conn msg.From msg.To := rfl
    simp only [Engine.executeMessage, hm, if_false, hns, hk, if_true, h0]
    cases hc : e.conn msg.From msg.To with
    | none => simp
    | some c =>
      cases hd : hexDecode msg.Value.toList with
      | none => simp
      | some data =>
        by_cases hl : data.length > 0
        · cases hw : o.writeOk <;> simp [hl, hw]
        · simp [hl]

/-- C19: for every message of kind data, psh or push, `executeMessage` returns an error if and only if a connection is stored under `connections[from][to]` and either the payload is not a valid hex string or the write, which is made when the payload has at least one byte, fails; when no connection is stored it returns no error; and the connection map is left unchanged. -/
theorem data_error_iff (e : Engine) (msg : Message) (o : Oracle)
    (hk : msg.Kind = "data" ∨ msg.Kind = "psh" ∨ msg.Kind = "push") :
    ((e.executeMessage msg o).err.isSome = true ↔
        ∃ c, e.conn msg.From msg.To = some c ∧
          (¬ validHex msg.Value.toList ∨
            (0 < (hexPairs msg.Value.toList).length ∧ o.writeOk = false))) ∧
      (e.conn msg.From msg.To = none → (e.executeMessage msg o).err = none) ∧
      (e.executeMessage msg o).engine.Clients = e.Clients := by
  obtain ⟨hcl, herr, _⟩ := executeMessage_data e msg o hk
  refine ⟨?_, ?_, hcl⟩
  · rw [herr]
    cases hc : e.conn msg.From msg.To with
    | none =>
      constructor
      · intro h
        cases h
      · rintro ⟨c, hcc, _⟩
        cases hcc
    | some c =>
      by_cases hv : validHex msg.Value.toList
      · rw [hexDecode_valid _ hv]
        by_cases hw : 0 < (hexPairs msg.Value.toList).length ∧ o.writeOk = false
        · dsimp only
          rw [if_pos hw]
          exact ⟨fun _ => ⟨c, rfl, Or.inr hw⟩, fun _ => rfl⟩
        · dsimp only
          rw [if_neg hw]
          constructor
          · intro h
            cases h
          · rintro ⟨_, _, hn | hw1⟩
            · exact absurd hv hn
            · exact absurd hw1 hw
      · rw [hexDecode_invalid _ hv]
        exact ⟨fun _ => ⟨c, rfl, Or.inl hv⟩, fun _ => rfl⟩
  · intro hc
    rw [herr, hc]

/-- C19 at a stored connection and the payload `zz`, which is not valid hex. -/
theorem data_error_iff_witness :
    (connected.executeMessage ⟨2, 1, "data", "zz", 0⟩ (Oracle.ok 7)).err.isSome = true :=
  (data_error_iff connected ⟨2, 1, "data", "zz", 0⟩ (Oracle.ok 7) (Or.inl rfl)).1.mpr
    ⟨7, by decide, Or.inl (by decide)⟩

/-- C20: for every message of kind data, psh or push whose payload is a valid hex string of `2n` digits and for which a connection is stored under `connections[from][to]`, `executeMessage` makes one call of `Write` on that connection with exactly the `n` bytes whose values are the successive hex pairs when `n > 0`, and makes no write when `n = 0`. -/
theorem data_write_bytes (e : Engine) (msg : Message) (o : Oracle) (c : Nat)
    (hk : msg.Kind = "data" ∨ msg.Kind = "psh" ∨ msg.Kind = "push")
    (hc : e.conn msg.From msg.To = some c) (hv : validHex msg.Value.toList) :
    (hexPairs msg.Value.toList).length * 2 = msg.Value.toList.length ∧
      (0 < (hexPairs msg.Value.toList).length →
        (e.executeMessage msg o).wrote = some (c, hexPairs msg.Value.toList)) ∧
      ((hexPairs msg.Value.toList).length = 0 → (e.executeMessage msg o).wrote = none) := by
  obtain ⟨_, _, hw⟩ := executeMessage_data e msg o hk
  rw [hw, hc, hexDecode_valid _ hv]
  refine ⟨hexPairs_length _ hv.1, ?_, ?_⟩
  · intro hpos
    dsimp only
    rw [if_pos hpos]
  · intro hz
    dsimp only
    rw [if_neg (by omega)]

/-- C20 at the payload `ab12`: the bytes written are `0xab, 0x12`. -/
theorem data_write_bytes_witness :
    connected.conn 2 1 = some 7 ∧ validHex "ab12".toList ∧
      (connected.executeMessage ⟨2, 1, "data", "ab12", 50⟩ (Oracle.ok 7)).wrote =
        some (7, [0xab, 0x12]) :=
  ⟨by decide, by decide,
   (data_write_bytes connected ⟨2, 1, "data", "ab12", 50⟩ (Oracle.ok 7) 7 (Or.inl rfl)
      (by decide) (by decide)).2.1 (by decide)⟩

/-- Whether an id is a declared server only depends on the endpoints of the trace. -/
theorem isServerId_congr {e e1 : Engine} (h : e1.Config.Endpoints = e.Config.Endpoints)
    (id : Int) : e1.isServerId id = e.isServerId id := by
  unfold Engine.isServerId Engine.findEndpoint
  rw [h]

/-- The role condition only depends on the endpoints of the trace. -/
theorem RoleOk_congr {e e1 : Engine} (h : e1.Config.Endpoints = e.Config.Endpoints)
    (t : Task) (hr : RoleOk e t) : RoleOk e1 t := by
  unfold RoleOk
  rw [isServerId_congr h]
  exact hr

/-- A goroutine keeps its id. -/
theorem taskStep_id (e : Engine) (t : Task) (o : Oracle) : (taskStep e t o).2.id = t.id := by
  cases hpc : t.pc <;> simp only [taskStep, hpc]
  all_goals repeat' split
  all_goals rfl

/-- A step of a goroutine keeps it in the part that fits the role of its id. -/
theorem taskStep_role (e : Engine) (t : Task) (o : Oracle) (hr : RoleOk e t) :
    RoleOk (taskStep e t o).1 (taskStep e t o).2 := by
  have hset := taskStep_setting e t o
  refine ⟨fun hc => ?_, fun hs => ?_⟩
  · rw [isServerId_congr hset.2.2, taskStep_id]
    cases hpc : t.pc
    case entry =>
      simp only [taskStep, hpc] at hc
      have hidx : e.ensureIndexed.findEndpoint t.id = e.findEndpoint t.id := by
        unfold Engine.findEndpoint
        rw [(ensureIndexed_setting e).2.2]
      rw [hidx] at hc
      unfold Engine.isServerId
      cases hf : e.findEndpoint t.id with
      | none => rfl
      | some ep =>
        rw [hf] at hc
        simp only at hc
        by_cases hk : ep.Kind = "server"
        · rw [if_pos hk] at hc
          exact Bool.noConfusion hc
        · simpa using hk
    all_goals
      first
      | exact hr.1 (by rw [hpc]; rfl)
      | (simp only [taskStep, hpc] at hc
         revert hc
         repeat' split
         all_goals intro hc
         all_goals exact Bool.noConfusion hc)
  · rw [isServerId_congr hset.2.2, taskStep_id]
    cases hpc : t.pc
    case entry =>
      simp only [taskStep, hpc] at hs
      have hidx : e.ensureIndexed.findEndpoint t.id = e.findEndpoint t.id := by
        unfold Engine.findEndpoint
        rw [(ensureIndexed_setting e).2.2]
      rw [hidx] at hs
      unfold Engine.isServerId
      cases hf : e.findEndpoint t.id with
      | none =>
        rw [hf] at hs
        simp only at hs
        revert hs
        split <;> intro hs <;> exact Bool.noConfusion hs
      | some ep =>
        rw [hf] at hs
        simp only at hs
        by_cases hk : ep.Kind = "server"
        · simpa using hk
        · rw [if_neg hk] at hs
          exact Bool.noConfusion hs
    all_goals
      first
      | exact hr.2 (by rw [hpc]; rfl)
      | (simp only [taskStep, hpc] at hs
         revert hs
         repeat' split
         all_goals intro hs
         all_goals first
           | exact Bool.noConfusion hs
           | (have hs1 : t.pc.isServerPc = true := hs
              rw [hpc] at hs1
              exact Bool.noConfusion hs1))

/-- The statuses after an assignment to the status map. -/
theorem setStatus_get (e : Engine) (j : Int) (st : EndpointStatus) (id : Int) :
    (e.setStatus j st).GetStatus id = if id = j then st else e.GetStatus id := by
  unfold Engine.setStatus Engine.GetStatus GoMap.set
  dsimp only
  split <;> rfl

/-- The statuses after `finishEndpoint`. -/
theorem finishEndpoint_get (e : Engine) (j id : Int) :
    (e.finishEndpoint j).GetStatus id =
      if id = j ∧ e.GetStatus j ≠ EndpointStatus.StatusError
      then EndpointStatus.StatusCompleted else e.GetStatus id := by
  by_cases hE : e.GetStatus j = EndpointStatus.StatusError
  · have hs : (e.finishEndpoint j).Status = e.Status := by
      simp [Engine.finishEndpoint, hE]
    unfold Engine.GetStatus at hE ⊢
    rw [hs, if_neg (fun h => h.2 hE)]
  · have hs : (e.finishEndpoint j).Status = e.Status.set j EndpointStatus.StatusCompleted := by
      simp [Engine.finishEndpoint, hE]
    unfold Engine.GetStatus at hE ⊢
    rw [hs]
    unfold GoMap.set
    by_cases hid : id = j
    · rw [if_pos hid, if_pos ⟨hid, hE⟩]
      rfl
    · rw [if_neg hid, if_neg (fun h => hid h.1)]

/-- `setupListener` does not change the status map. -/
theorem setupListener_status (e : Engine) (ep : Endpoint) (o : Oracle) :
    (e.setupListener ep o).1.Status = e.Status := by
  unfold Engine.setupListener
  split <;> rfl

/-- How one step of a goroutine can change the status of `id`. -/
theorem taskStep_status (e : Engine) (t : Task) (o : Oracle) (id : Int) :
    (taskStep e t o).1.GetStatus id = e.GetStatus id ∨
      (t.id = id ∧
        ((t.pc = Pc.finish ∧ (taskStep e t o).1.GetStatus id = EndpointStatus.StatusCompleted) ∨
          (t.pc.isServerPc = true ∧
            (taskStep e t o).1.GetStatus id = EndpointStatus.StatusRunning) ∨
          (taskStep e t o).1.GetStatus id = EndpointStatus.StatusError ∨
          (taskStep e t o).1.GetStatus id = EndpointStatus.StatusIdle)) := by
  have hsame : ∀ e1 : Engine, e1.Status = e.Status → e1.GetStatus id = e.GetStatus id := by
    intro e1 h
    unfold Engine.GetStatus
    rw [h]
  cases hpc : t.pc <;> simp only [taskStep, hpc]
  case serverStatus ok =>
    rw [setStatus_get]
    by_cases hid : id = t.id
    · rw [if_pos hid]
      right
      refine ⟨hid.symm, ?_⟩
      cases ok
      · exact Or.inr (Or.inr (Or.inl rfl))
      · exact Or.inr (Or.inl ⟨rfl, rfl⟩)
    · rw [if_neg hid]
      exact Or.inl rfl
  case setError i =>
    rw [setStatus_get]
    by_cases hid : id = t.id
    · rw [if_pos hid]
      exact Or.inr ⟨hid.symm, Or.inr (Or.inr (Or.inl rfl))⟩
    · rw [if_neg hid]
      exact Or.inl rfl
  case setIdle =>
    rw [setStatus_get]
    by_cases hid : id = t.id
    · rw [if_pos hid]
      exact Or.inr ⟨hid.symm, Or.inr (Or.inr (Or.inr rfl))⟩
    · rw [if_neg hid]
      exact Or.inl rfl
  case finish =>
    rw [finishEndpoint_get]
    by_cases hc : id = t.id ∧ e.GetStatus t.id ≠ EndpointStatus.StatusError
    · rw [if_pos hc]
      exact Or.inr ⟨hc.1.symm, Or.inl ⟨trivial, rfl⟩⟩
    · rw [if_neg hc]
      exact Or.inl rfl
  all_goals repeat' split
  all_goals first
    | exact Or.inl trivial
    | exact Or.inl rfl
    | exact Or.inl (hsame _ (ensureIndexed_frame e).2.2.2.1)
    | exact Or.inl (hsame _ (executeMessage_frame _ _ _).2.2.2.2)
    | exact Or.inl (hsame _ (setupListener_status _ _ _))

/-- `StartEndpoint` changes no status except to Running, for the id it starts. -/
theorem StartEndpoint_get (e : Engine) (j id : Int) :
    (e.StartEndpoint j).1.GetStatus id = e.GetStatus id ∨
      (j = id ∧ (e.StartEndpoint j).1.GetStatus id = EndpointStatus.StatusRunning) := by
  by_cases h : j ∈ e.ActiveEnd
  · left
    simp [Engine.StartEndpoint, h]
  · by_cases hid : id = j
    · right
      subst hid
      exact ⟨rfl, (StartEndpoint_effect e id h).2.1⟩
    · left
      simp [Engine.StartEndpoint, h, Engine.GetStatus, GoMap.set, hid]

/-- `StopEndpoint` changes no status except to Idle. -/
theorem StopEndpoint_get (e : Engine) (j id : Int) :
    (e.StopEndpoint j).GetStatus id = e.GetStatus id ∨
      (e.StopEndpoint j).GetStatus id = EndpointStatus.StatusIdle := by
  by_cases h : j ∈ e.ActiveEnd
  · by_cases hr : e.GetStatus j = EndpointStatus.StatusRunning
    · by_cases hid : id = j
      · right
        subst hid
        exact (StopEndpoint_effect e id h).2.2.2.2.1 hr
      · left
        have := (StopEndpoint_frame e j id (fun h => hid h.symm)).2.1
        unfold Engine.GetStatus
        rw [this]
    · left
      have hst : (e.StopEndpoint j).Status = e.Status := by
        simp [Engine.StopEndpoint, h, hr]
      unfold Engine.GetStatus
      rw [hst]
  · left
    rw [StopEndpoint_of_not_active e j h]

/-- The locked part of `StopAll` changes no status except to Idle. -/
theorem stopAllLocked_get (e : Engine) (id : Int) :
    e.stopAllLocked.GetStatus id = e.GetStatus id ∨
      e.stopAllLocked.GetStatus id = EndpointStatus.StatusIdle := by
  have hs := (stopAll_fold e.ActiveEnd e).1 id
  have hst : e.stopAllLocked.Status id = (e.ActiveEnd.foldl Engine.stopAllBody e).Status id := rfl
  unfold Engine.GetStatus
  rw [hst, hs]
  split
  · right
    rfl
  · left
    rfl

/-- The goroutines after an action: those before, a new one at its entry, or one that has made a step. -/
theorem step_tasks_mem (s : System) (a : Action) (t1 : Task) (h : t1 ∈ (s.step a).tasks) :
    t1 ∈ s.tasks ∨ t1.pc = Pc.entry ∨
      ∃ k o t, s.tasks.get? k = some t ∧ t1 = (taskStep s.engine t o).2 := by
  cases a with
  | start id =>
    simp only [System.step] at h
    rcases hst : s.engine.StartEndpoint id with ⟨e1, _ | ⟨j, srv⟩⟩
    · rw [hst] at h
      exact Or.inl h
    · rw [hst] at h
      rcases List.mem_append.mp h with h1 | h1
      · exact Or.inl h1
      · rw [List.mem_singleton] at h1
        rw [h1]
        exact Or.inr (Or.inl rfl)
  | stop id => exact Or.inl h
  | stopAllLocked => exact Or.inl h
  | stopAllCancel => exact Or.inl h
  | stopAllRenew => exact Or.inl h
  | task k o =>
    cases ht : s.tasks.get? k with
    | none =>
      rw [step_task_none s k o ht] at h
      exact Or.inl h
    | some t =>
      simp only [System.step, ht] at h
      rcases List.mem_or_eq_of_mem_set h with h1 | h1
      · exact Or.inl h1
      · exact Or.inr (Or.inr ⟨k, o, t, ht, h1⟩)

/-- Every action keeps the goroutines in the parts that fit their roles. -/
theorem step_roles (s : System) (a : Action) (h : RolesOk s) : RolesOk (s.step a) := by
  intro t1 ht1
  have hend := step_endpoints s a
  rcases step_tasks_mem s a t1 ht1 with h1 | h1 | ⟨k, o, t, hk, rfl⟩
  · exact RoleOk_congr hend t1 (h t1 h1)
  · refine ⟨fun hc => ?_, fun hs => ?_⟩
    · rw [h1] at hc
      exact Bool.noConfusion hc
    · rw [h1] at hs
      exact Bool.noConfusion hs
  · have hmem : t ∈ s.tasks := List.get?_mem hk
    have hr := taskStep_role s.engine t o (h t hmem)
    have he : (taskStep s.engine t o).1.Config.Endpoints = s.engine.Config.Endpoints :=
      (taskStep_setting _ _ _).2.2
    exact RoleOk_congr (hend.trans he.symm) _ hr

/-- In every reachable state the goroutines are in the parts that fit their roles. -/
theorem reachable_roles (cfg : Config) (s : System) (hr : Reachable cfg s) : RolesOk s := by
  obtain ⟨acts, rfl⟩ := hr
  have : ∀ (acts : List Action) (s : System), RolesOk s → RolesOk (s.run acts) := by
    intro acts
    induction acts with
    | nil => intro s h; exact h
    | cons a rest ih => intro s h; exact ih (s.step a) (step_roles s a h)
  exact this acts _ (fun t ht => absurd ht (List.not_mem_nil t))

/-- In a reachable state no action changes the status of a server endpoint to Completed. -/
theorem server_not_completed (cfg : Config) (s : System) (a : Action) (id : Int)
    (hr : Reachable cfg s) (hsrv : s.engine.isServerId id = true)
    (hc : (s.step a).status id = EndpointStatus.StatusCompleted) :
    s.status id = EndpointStatus.StatusCompleted := by
  have hroles := reachable_roles cfg s hr
  unfold System.status at hc ⊢
  cases a with
  | start j =>
    rw [step_start_engine] at hc
    rcases StartEndpoint_get s.engine j id with h | ⟨_, h⟩
    · rw [← h]; exact hc
    · rw [h] at hc; cases hc
  | stop j =>
    rcases StopEndpoint_get s.engine j id with h | h
    · rw [← h]; exact hc
    · have hc1 : (s.engine.StopEndpoint j).GetStatus id = EndpointStatus.StatusCompleted := hc
      rw [h] at hc1; cases hc1
  | stopAllLocked =>
    rcases stopAllLocked_get s.engine id with h | h
    · rw [← h]; exact hc
    · have hc1 : s.engine.stopAllLocked.GetStatus id = EndpointStatus.StatusCompleted := hc
      rw [h] at hc1; cases hc1
  | stopAllCancel => exact hc
  | stopAllRenew => exact hc
  | task k o =>
    cases ht : s.tasks.get? k with
    | none =>
      rw [step_task_none s k o ht] at hc
      exact hc
    | some t =>
      rw [step_task_engine s k o t ht] at hc
      rcases taskStep_status s.engine t o id with h | ⟨hid, h | h | h | h⟩
      · rw [← h]; exact hc
      · have hrole := (hroles t (List.get?_mem ht)).1 (by rw [h.1]; rfl)
        rw [hid, hsrv] at hrole
        cases hrole
      · rw [h.2] at hc; cases hc
      · rw [h] at hc; cases hc
      · rw [h] at hc; cases hc

/-- In a reachable state no action other than `StartEndpoint` changes the status
of a client endpoint to Running. -/
theorem client_not_running (cfg : Config) (s : System) (a : Action) (id : Int)
    (hr : Reachable cfg s) (hcl : s.engine.isClientId id = true)
    (hns : ∀ j, a ≠ Action.start j)
    (hc : (s.step a).status id = EndpointStatus.StatusRunning) :
    s.status id = EndpointStatus.StatusRunning := by
  have hroles := reachable_roles cfg s hr
  have hsrv := isClient_not_server s.engine id hcl
  unfold System.status at hc ⊢
  cases a with
  | start j => exact absurd rfl (hns j)
  | stop j =>
    rcases StopEndpoint_get s.engine j id with h | h
    · rw [← h]; exact hc
    · have hc1 : (s.engine.StopEndpoint j).GetStatus id = EndpointStatus.StatusRunning := hc
      rw [h] at hc1; cases hc1
  | stopAllLocked =>
    rcases stopAllLocked_get s.engine id with h | h
    · rw [← h]; exact hc
    · have hc1 : s.engine.stopAllLocked.GetStatus id = EndpointStatus.StatusRunning := hc
      rw [h] at hc1; cases hc1
  | stopAllCancel => exact hc
  | stopAllRenew => exact hc
  | task k o =>
    cases ht : s.tasks.get? k with
    | none =>
      rw [step_task_none s k o ht] at hc
      exact hc
    | some t =>
      rw [step_task_engine s k o t ht] at hc
      rcases taskStep_status s.engine t o id with h | ⟨hid, h | h | h | h⟩
      · rw [← h]; exact hc
      · rw [h.2] at hc; cases hc
      · have hrole := (hroles t (List.get?_mem ht)).2 h.1
        rw [hid, hsrv] at hrole
        cases hrole
      · rw [h] at hc; cases hc
      · rw [h] at hc; cases hc

/-- Indexing the messages leaves the listener and connection maps as they are. -/
theorem ensureIndexed_maps (e : Engine) :
    e.ensureIndexed.Listeners = e.Listeners ∧ e.ensureIndexed.Clients = e.Clients := by
  unfold Engine.ensureIndexed
  split <;> exact ⟨rfl, rfl⟩

/-- A run is its first step followed by the rest. -/
theorem runTask_cons (e : Engine) (t : Task) (o : Oracle) (os : List Oracle) :
    runTask e t (o :: os) = runTask (taskStep e t o).1 (taskStep e t o).2 os := rfl

/-- The server goroutine run on its own after `StartEndpoint`. -/
theorem server_run (e : Engine) (id : Int) (ep : Endpoint) (o1 o2 o3 o4 : Oracle)
    (rest : List Oracle)
    (hep : e.findEndpoint id = some ep) (hkind : ep.Kind = "server") (hna : id ∉ e.ActiveEnd) :
    (e.StartEndpoint id).2 = some (id, true) ∧
      (runTask (e.StartEndpoint id).1 (Task.spawn id true) (o1 :: o2 :: o3 :: o4 :: rest)).2.pc =
        Pc.done ∧
      ((e.Listeners id).isSome = true →
        (runTask (e.StartEndpoint id).1 (Task.spawn id true)
          (o1 :: o2 :: o3 :: o4 :: rest)).1.GetStatus id = EndpointStatus.StatusRunning) ∧
      (e.Listeners id = none → o3.listen = none →
        (runTask (e.StartEndpoint id).1 (Task.spawn id true)
          (o1 :: o2 :: o3 :: o4 :: rest)).1.GetStatus id = EndpointStatus.StatusError) ∧
      (e.Listeners id = none → o3.listen.isSome = true →
        (runTask (e.StartEndpoint id).1 (Task.spawn id true)
          (o1 :: o2 :: o3 :: o4 :: rest)).1.GetStatus id = EndpointStatus.StatusRunning ∧
        (runTask (e.StartEndpoint id).1 (Task.spawn id true)
          (o1 :: o2 :: o3 :: o4 :: rest)).1.Listeners id = o3.listen) := by
  have hsrv : e.isServerId id = true := by
    simp [Engine.isServerId, hep, hkind]
  have hst := StartEndpoint_effect e id hna
  have hspawn : (e.StartEndpoint id).2 = some (id, true) := by
    rw [hst.2.2.2.2.2, hsrv]
  generalize he1 : (e.StartEndpoint id).1 = e1 at hst ⊢
  have hset := StartEndpoint_setting e id
  rw [he1] at hset
  have hrun1 : e1.GetStatus id = EndpointStatus.StatusRunning := hst.2.1
  have hlis1 : e1.Listeners = e.Listeners := by
    rw [← he1]
    simp [Engine.StartEndpoint, hna]
  have hfind0 : e1.findEndpoint id = some ep := by
    unfold Engine.findEndpoint at hep ⊢
    rw [hset.2.2]
    exact hep
  have hfind : e1.ensureIndexed.findEndpoint id = some ep := by
    unfold Engine.findEndpoint at hfind0 ⊢
    rw [(ensureIndexed_setting e1).2.2]
    exact hfind0
  have hid : ep.ID = id := by
    have := List.find?_some hep
    simpa using this
  have hrun2 : e1.ensureIndexed.GetStatus id = EndpointStatus.StatusRunning := by
    unfold Engine.GetStatus at hrun1 ⊢
    rw [(ensureIndexed_frame e1).2.2.2.1]
    exact hrun1
  have hlis2 : e1.ensureIndexed.Listeners id = e.Listeners id := by
    rw [(ensureIndexed_maps e1).1, hlis1]
  have hs1 : taskStep e1 (Task.spawn id true) o1 =
      (e1.ensureIndexed,
       { id := id, isServer := true, messages := [], pc := Pc.serverCheck, executed := [] }) := by
    simp [taskStep, Task.spawn, hfind, hkind]
  rw [runTask_cons, hs1, runTask_cons]
  cases hl : e.Listeners id with
  | some ln =>
    have hs2 : taskStep e1.ensureIndexed
        { id := id, isServer := true, messages := [], pc := Pc.serverCheck, executed := [] } o2 =
        (e1.ensureIndexed,
         { id := id, isServer := true, messages := [], pc := Pc.done, executed := [] }) := by
      simp [taskStep, hlis2, hl]
    rw [hs2, runTask_done _ _ _ rfl]
    refine ⟨hspawn, rfl, fun _ => hrun2, fun h => ?_, fun h => ?_⟩
    · cases h
    · cases h
  | none =>
    have hs2 : taskStep e1.ensureIndexed
        { id := id, isServer := true, messages := [], pc := Pc.serverCheck, executed := [] } o2 =
        (e1.ensureIndexed,
         { id := id, isServer := true, messages := [], pc := Pc.serverSetup, executed := [] }) := by
      simp [taskStep, hlis2, hl]
    have hs3 : taskStep e1.ensureIndexed
        { id := id, isServer := true, messages := [], pc := Pc.serverSetup, executed := [] } o3 =
        ((e1.ensureIndexed.setupListener ep o3).1,
         { id := id, isServer := true, messages := [],
           pc := Pc.serverStatus (e1.ensureIndexed.setupListener ep o3).2, executed := [] }) := by
      simp [taskStep, hfind]
    have hs4 : taskStep (e1.ensureIndexed.setupListener ep o3).1
        { id := id, isServer := true, messages := [],
          pc := Pc.serverStatus (e1.ensureIndexed.setupListener ep o3).2, executed := [] } o4 =
        ((e1.ensureIndexed.setupListener ep o3).1.setStatus id
            (if (e1.ensureIndexed.setupListener ep o3).2 = true
             then EndpointStatus.StatusRunning else EndpointStatus.StatusError),
         { id := id, isServer := true, messages := [], pc := Pc.done, executed := [] }) := by
      simp [taskStep]
    rw [hs2, runTask_cons, hs3, runTask_cons, hs4, runTask_done _ _ _ rfl]
    refine ⟨hspawn, rfl, fun h => ?_, fun _ hb => ?_, fun _ hb => ?_⟩
    · cases h
    · have hres : (e1.ensureIndexed.setupListener ep o3).2 = false := by
        simp [Engine.setupListener, hb]
      rw [setStatus_get, if_pos rfl, hres]
      rfl
    · obtain ⟨ln, hln⟩ := Option.isSome_iff_exists.mp hb
      have hres : (e1.ensureIndexed.setupListener ep o3).2 = true := by
        simp [Engine.setupListener, hln]
      refine ⟨?_, ?_⟩
      · rw [setStatus_get, if_pos rfl, hres]
        rfl
      · simp [Engine.setStatus, Engine.setupListener, hln, GoMap.set, hid]

/-- C18: for every endpoint of kind server that is started and whose goroutine
then runs undisturbed, the goroutine ends with status Running when a listener
for the id already exists, with status Error when binding the listener fails,
and with status Running and the new listener stored when the bind succeeds; and
in every reachable state no action (control operation or goroutine step) changes
the status of a server endpoint to Completed. -/
theorem server_task_status (e : Engine) (id : Int) (ep : Endpoint) (o1 o2 o3 o4 : Oracle)
    (rest : List Oracle)
    (hep : e.findEndpoint id = some ep) (hkind : ep.Kind = "server") (hna : id ∉ e.ActiveEnd) :
    (e.StartEndpoint id).2 = some (id, true) ∧
      (runTask (e.StartEndpoint id).1 (Task.spawn id true) (o1 :: o2 :: o3 :: o4 :: rest)).2.pc =
        Pc.done ∧
      ((e.Listeners id).isSome = true →
        (runTask (e.StartEndpoint id).1 (Task.spawn id true)
          (o1 :: o2 :: o3 :: o4 :: rest)).1.GetStatus id = EndpointStatus.StatusRunning) ∧
      (e.Listeners id = none → o3.listen = none →
        (runTask (e.StartEndpoint id).1 (Task.spawn id true)
          (o1 :: o2 :: o3 :: o4 :: rest)).1.GetStatus id = EndpointStatus.StatusError) ∧
      (e.Listeners id = none → o3.listen.isSome = true →
        (runTask (e.StartEndpoint id).1 (Task.spawn id true)
          (o1 :: o2 :: o3 :: o4 :: rest)).1.GetStatus id = EndpointStatus.StatusRunning ∧
        (runTask (e.StartEndpoint id).1 (Task.spawn id true)
          (o1 :: o2 :: o3 :: o4 :: rest)).1.Listeners id = o3.listen) ∧
      (∀ (cfg : Config) (s : System) (a : Action) (j : Int),
        Reachable cfg s → s.engine.isServerId j = true →
        (s.step a).status j = EndpointStatus.StatusCompleted →
        s.status j = EndpointStatus.StatusCompleted) := by
  have h := server_run e id ep o1 o2 o3 o4 rest hep hkind hna
  exact ⟨h.1, h.2.1, h.2.2.1, h.2.2.2.1, h.2.2.2.2,
    fun cfg s a j hr hs hc => server_not_completed cfg s a j hr hs hc⟩

/-- C18 at server 1 of `badTarget`, whose bind succeeds with listener 5. -/
theorem server_task_status_witness :
    (NewEngine badTarget).Listeners 1 = none ∧
      (runTask ((NewEngine badTarget).StartEndpoint 1).1 (Task.spawn 1 true)
        [Oracle.ok 5, Oracle.ok 5, Oracle.ok 5, Oracle.ok 5]).1.GetStatus 1 =
        EndpointStatus.StatusRunning :=
  ⟨rfl,
   ((server_task_status (NewEngine badTarget) 1 ⟨1, "server", "127.0.0.1", 9001⟩
      (Oracle.ok 5) (Oracle.ok 5) (Oracle.ok 5) (Oracle.ok 5) []
      (by decide) (by decide) (by decide)).2.2.2.2.1 rfl rfl).1⟩

/-- C11 (the code departs from the claim): client 2 has completed its sequence,
so it is no longer active, and its connection 7 to server 1 is still stored;
`StopAll` only tears down the ids of the active set, and after it the connection
map still holds the open connection 7 under `connections[2][1]`.  Likewise a
listener bound by a server goroutine after `StopEndpoint` of its id survives
`StopAll`. -/
theorem StopAll_leaves_handles :
    Reachable synOnly afterCompleteThenStopAll ∧
      afterCompleteThenStopAll.pcOf 1 = some Pc.done ∧
      afterCompleteThenStopAll.engine.ActiveEnd = [] ∧
      afterCompleteThenStopAll.engine.conn 2 1 = some 7 ∧
      afterLateListenThenStopAll.engine.ActiveEnd = [] ∧
      afterLateListenThenStopAll.engine.Listeners 1 = some 5 :=
  ⟨⟨completeThenStopAll, rfl⟩, by decide⟩

/-- No failure after one more call: none before, and the call succeeded. -/
theorem noFailure_snoc (ex : List (Message × Bool)) (m : Message) (b : Bool) :
    noFailure (ex ++ [(m, b)]) ↔ noFailure ex ∧ b = false := by
  unfold noFailure
  constructor
  · intro h
    exact ⟨fun x hx => h x (List.mem_append_left _ hx),
      h (m, b) (List.mem_append_right _ (List.mem_singleton.mpr rfl))⟩
  · rintro ⟨h1, h2⟩ x hx
    rcases List.mem_append.mp hx with h | h
    · exact h1 x h
    · rw [List.mem_singleton.mp h]
      exact h2

/-- A step of the undisturbed client goroutine keeps the phase invariant. -/
theorem ClientPhase_step (id : Int) (e : Engine) (t : Task) (o : Oracle)
    (h : ClientPhase id (e, t)) (ho : o.timer = true) :
    ClientPhase id (taskStep e t o) := by
  obtain ⟨tid, srv, M, pc, ex⟩ := t
  obtain ⟨hid, h⟩ := h
  simp only at hid
  subst hid
  cases pc with
  | entry => exact h.elim
  | serverCheck => exact h.elim
  | serverSetup => exact h.elim
  | serverStatus ok => exact h.elim
  | setIdle => exact h.elim
  | done => exact ⟨rfl, h⟩
  | loopTop i =>
    obtain ⟨ha, hc, hs⟩ := h
    dsimp only at ha hc hs
    by_cases hi : i < M.length
    · simp only [taskStep, hi, if_true, hc, if_false]
      exact ⟨rfl, ha, hc, hs⟩
    · simp only [taskStep, hi, if_false]
      exact ⟨rfl, ha, hc, hs⟩
  | checkActive i =>
    obtain ⟨ha, hc, hs⟩ := h
    dsimp only at ha hc hs
    have hrun : e.IsRunning tid = true := by simp [Engine.IsRunning, ha]
    cases hg : M.get? i with
    | none =>
      simp only [taskStep, hrun, if_true, hg]
      exact ⟨rfl, ha, hc, hs⟩
    | some msg =>
      by_cases hd : msg.TDelta > 0
      · simp only [taskStep, hrun, if_true, hg, hd]
        exact ⟨rfl, ha, hc, hs⟩
      · simp only [taskStep, hrun, if_true, hg, hd, if_false]
        exact ⟨rfl, ha, hc, hs⟩
  | sleepEnter i =>
    obtain ⟨ha, hc, hs⟩ := h
    exact ⟨rfl, ha, hc, hs⟩
  | sleeping i c =>
    obtain ⟨ha, hc, hs⟩ := h
    simp only [taskStep, ho, if_true]
    exact ⟨rfl, ha, hc, hs⟩
  | exec i =>
    obtain ⟨ha, hc, hs⟩ := h
    dsimp only at ha hc hs
    cases hg : M.get? i with
    | none =>
      simp only [taskStep, hg]
      exact ⟨rfl, ha, hc, hs⟩
    | some msg =>
      obtain ⟨fa, fc, fd, _, fst⟩ := executeMessage_frame e msg o
      have hst : (e.executeMessage msg o).engine.GetStatus tid = e.GetStatus tid := by
        unfold Engine.GetStatus
        rw [fst]
      by_cases hb : (e.executeMessage msg o).err.isSome = true
      · simp only [taskStep, hg, hb, if_true]
        refine ⟨rfl, by rw [fa]; exact ha, by rw [fc, fd]; exact hc, ?_⟩
        intro hn
        have := ((noFailure_snoc ex msg true).mp hn).2
        cases this
      · have hb1 : (e.executeMessage msg o).err.isSome = false := by simpa using hb
        simp only [taskStep, hg, hb1, Bool.false_eq_true, if_false]
        refine ⟨rfl, by rw [fa]; exact ha, by rw [fc, fd]; exact hc, ?_⟩
        intro hn
        show (e.executeMessage msg o).engine.GetStatus tid = EndpointStatus.StatusRunning
        rw [hst]
        exact hs ((noFailure_snoc ex msg false).mp hn).1
  | setError i =>
    obtain ⟨ha, hc, hs⟩ := h
    exact ⟨rfl, ha, hc, fun hn => absurd hn hs⟩
  | finish =>
    obtain ⟨ha, hc, hs⟩ := h
    refine ⟨rfl, ?_, ?_⟩
    · show tid ∉ (e.finishEndpoint tid).ActiveEnd
      simp [Engine.finishEndpoint]
    · intro hn
      have hr := hs hn
      show (e.finishEndpoint tid).GetStatus tid = EndpointStatus.StatusCompleted
      rw [finishEndpoint_get, if_pos]
      refine ⟨rfl, ?_⟩
      rw [hr]
      decide

/-- Every undisturbed run of the client goroutine keeps the phase invariant. -/
theorem ClientPhase_run (id : Int) (os : List Oracle) :
    ∀ (e : Engine) (t : Task), ClientPhase id (e, t) → (∀ o ∈ os, o.timer = true) →
      ClientPhase id (runTask e t os) := by
  induction os with
  | nil => intro e t h _; exact h
  | cons o os ih =>
    intro e t h ho
    rw [runTask_cons]
    exact ih _ _ (ClientPhase_step id e t o h (ho o (List.mem_cons_self _ _)))
      (fun x hx => ho x (List.mem_cons_of_mem _ hx))

/-- What the phase invariant says about the status when no call has failed. -/
theorem ClientPhase_status (id : Int) (r : Engine × Task) (h : ClientPhase id r)
    (hn : noFailure r.2.executed) :
    (r.2.pc ≠ Pc.done →
        r.1.GetStatus id = EndpointStatus.StatusRunning ∧ id ∈ r.1.ActiveEnd) ∧
      (r.2.pc = Pc.done →
        r.1.GetStatus id = EndpointStatus.StatusCompleted ∧ id ∉ r.1.ActiveEnd) := by
  obtain ⟨e, t⟩ := r
  obtain ⟨tid, srv, M, pc, ex⟩ := t
  obtain ⟨_, h⟩ := h
  cases pc with
  | entry => exact h.elim
  | serverCheck => exact h.elim
  | serverSetup => exact h.elim
  | serverStatus ok => exact h.elim
  | setIdle => exact h.elim
  | done => exact ⟨fun hd => absurd rfl hd, fun _ => ⟨h.2 hn, h.1⟩⟩
  | setError i => exact absurd hn h.2.2
  | loopTop i => exact ⟨fun _ => ⟨h.2.2 hn, h.1⟩, fun hd => Pc.noConfusion hd⟩
  | checkActive i => exact ⟨fun _ => ⟨h.2.2 hn, h.1⟩, fun hd => Pc.noConfusion hd⟩
  | sleepEnter i => exact ⟨fun _ => ⟨h.2.2 hn, h.1⟩, fun hd => Pc.noConfusion hd⟩
  | sleeping i c => exact ⟨fun _ => ⟨h.2.2 hn, h.1⟩, fun hd => Pc.noConfusion hd⟩
  | exec i => exact ⟨fun _ => ⟨h.2.2 hn, h.1⟩, fun hd => Pc.noConfusion hd⟩
  | finish => exact ⟨fun _ => ⟨h.2.2 hn, h.1⟩, fun hd => Pc.noConfusion hd⟩

/-- The first step of the goroutine of a client endpoint that has just been started. -/
theorem client_start_entry (e : Engine) (id : Int) (ep : Endpoint)
    (hep : e.findEndpoint id = some ep) (hkind : ep.Kind = "client")
    (hna : id ∉ e.ActiveEnd) (hctx : e.Ctx ∉ e.cancelled) :
    (∀ o : Oracle, taskStep (e.StartEndpoint id).1 (Task.spawn id false) o =
        ((e.StartEndpoint id).1.ensureIndexed,
         { id := id, isServer := false, messages := e.ensureIndexed.Config.messagesOf id,
           pc := Pc.loopTop 0, executed := [] })) ∧
      Steady id e.Config.Endpoints (e.StartEndpoint id).1.ensureIndexed ∧
      (e.StartEndpoint id).1.ensureIndexed.GetStatus id = EndpointStatus.StatusRunning := by
  have hst := StartEndpoint_effect e id hna
  have hset := StartEndpoint_setting e id
  have hcfg : (e.StartEndpoint id).1.Config = e.Config := by
    simp [Engine.StartEndpoint, hna]
  generalize (e.StartEndpoint id).1 = e1 at hst hset hcfg ⊢
  obtain ⟨ia, ic, id1, ist, iep⟩ := ensureIndexed_frame e1
  have hicfg := ensureIndexed_config e e1 hcfg
  have hfind : e1.ensureIndexed.findEndpoint id = some ep := by
    unfold Engine.findEndpoint at hep ⊢
    rw [iep, hcfg]
    exact hep
  have hns : ¬ ep.Kind = "server" := by rw [hkind]; decide
  refine ⟨fun o => ?_, ⟨?_, ?_, ?_⟩, ?_⟩
  · simp [taskStep, Task.spawn, hfind, hns, hicfg]
  · rw [ia]; exact hst.1
  · rw [ic, id1, hset.1, hset.2.1]; exact hctx
  · rw [iep, hcfg]
  · unfold Engine.GetStatus
    rw [ist]
    exact hst.2.1

/-- C17: for every client endpoint that is started by `StartEndpoint` while the current context is not cancelled and whose goroutine then runs undisturbed (no stop, no cancellation, sleeps end by their timer): at every point of the run at which no message action has failed, the status is Running and the endpoint is active as long as the goroutine has not finalised, and the status is Completed and the endpoint is no longer active once it has; after enough steps the goroutine has finalised; and in every reachable state no action other than `StartEndpoint` changes the status of a client endpoint to Running. -/
theorem client_lifecycle (e : Engine) (id : Int) (ep : Endpoint) (os : List Oracle)
    (hep : e.findEndpoint id = some ep) (hkind : ep.Kind = "client")
    (hna : id ∉ e.ActiveEnd) (hctx : e.Ctx ∉ e.cancelled)
    (htimer : ∀ o ∈ os, o.timer = true) :
    (noFailure (runTask (e.StartEndpoint id).1 (Task.spawn id false) os).2.executed →
        ((runTask (e.StartEndpoint id).1 (Task.spawn id false) os).2.pc ≠ Pc.done →
          (runTask (e.StartEndpoint id).1 (Task.spawn id false) os).1.GetStatus id =
            EndpointStatus.StatusRunning ∧
          id ∈ (runTask (e.StartEndpoint id).1 (Task.spawn id false) os).1.ActiveEnd) ∧
        ((runTask (e.StartEndpoint id).1 (Task.spawn id false) os).2.pc = Pc.done →
          (runTask (e.StartEndpoint id).1 (Task.spawn id false) os).1.GetStatus id =
            EndpointStatus.StatusCompleted ∧
          id ∉ (runTask (e.StartEndpoint id).1 (Task.spawn id false) os).1.ActiveEnd)) ∧
      (6 * (e.ensureIndexed.Config.messagesOf id).length + 3 ≤ os.length →
        (runTask (e.StartEndpoint id).1 (Task.spawn id false) os).2.pc = Pc.done) ∧
      (∀ (cfg : Config) (s : System) (a : Action) (j : Int),
        Reachable cfg s → s.engine.isClientId j = true → (∀ k, a ≠ Action.start k) →
        (s.step a).status j = EndpointStatus.StatusRunning →
        s.status j = EndpointStatus.StatusRunning) := by
  obtain ⟨h1, hsteady, hrun⟩ := client_start_entry e id ep hep hkind hna hctx
  refine ⟨?_, ?_, fun cfg s a j hr hcl hns hc => client_not_running cfg s a j hr hcl hns hc⟩
  · intro hn
    cases os with
    | nil =>
      have hst := StartEndpoint_effect e id hna
      exact ⟨fun _ => ⟨hst.2.1, hst.1⟩, fun hd => Pc.noConfusion hd⟩
    | cons o os =>
      rw [runTask_cons, h1 o] at hn ⊢
      have hphase : ClientPhase id ((e.StartEndpoint id).1.ensureIndexed,
          { id := id, isServer := false, messages := e.ensureIndexed.Config.messagesOf id,
            pc := Pc.loopTop 0, executed := [] }) :=
        ⟨rfl, hsteady.1, hsteady.2.1, fun _ => hrun⟩
      exact ClientPhase_status id _
        (ClientPhase_run id os _ _ hphase (fun x hx => htimer x (List.mem_cons_of_mem _ hx))) hn
  · intro hlen
    have hloop := client_loop id e.Config.Endpoints (e.ensureIndexed.Config.messagesOf id)
      (e.ensureIndexed.Config.messagesOf id).length 0 (e.StartEndpoint id).1.ensureIndexed []
      False (by omega) hsteady (fun h => h.elim)
    have hev : Eventually (6 * (e.ensureIndexed.Config.messagesOf id).length + 2 + 1)
        (e.StartEndpoint id).1 (Task.spawn id false)
        (LoopPost id e.Config.Endpoints False [] (e.ensureIndexed.Config.messagesOf id)) := by
      refine ev_step fun o _ => ?_
      rw [h1 o]
      simpa using hloop
    exact (hev os htimer (by omega)).1

/-- C17 at client 1 of `twoClients`, whose two messages succeed. -/
theorem client_lifecycle_witness :
    noFailure (runTask ((NewEngine twoClients).StartEndpoint 1).1 (Task.spawn 1 false)
        (List.replicate 15 (Oracle.ok 7))).2.executed ∧
      (runTask ((NewEngine twoClients).StartEndpoint 1).1 (Task.spawn 1 false)
        (List.replicate 15 (Oracle.ok 7))).2.pc = Pc.done ∧
      (runTask ((NewEngine twoClients).StartEndpoint 1).1 (Task.spawn 1 false)
        (List.replicate 15 (Oracle.ok 7))).1.GetStatus 1 = EndpointStatus.StatusCompleted :=
  have h := client_lifecycle (NewEngine twoClients) 1 ⟨1, "client", "127.0.0.1", 9001⟩
    (List.replicate 15 (Oracle.ok 7)) (by decide) (by decide) (by decide) (by decide)
    (by decide)
  have hn : noFailure (runTask ((NewEngine twoClients).StartEndpoint 1).1 (Task.spawn 1 false)
        (List.replicate 15 (Oracle.ok 7))).2.executed := by
    unfold noFailure
    decide
  ⟨hn, h.2.1 (by decide), ((h.1 hn).2 (h.2.1 (by decide))).1⟩

/-- C28: for every engine state and every id, `finishEndpoint(id)` removes id from the active set and no other id, sets `activeCount` to `max(activeCount - 1, 0)`, sets the status of id to Completed unless it is Error, which it keeps, changes no other status, sets `Running` to false when the new `activeCount` is 0 and leaves `Running` unchanged otherwise. -/
theorem finishEndpoint_effect (e : Engine) (id : Int) :
    id ∉ (e.finishEndpoint id).ActiveEnd ∧
      (∀ j, j ≠ id → (j ∈ (e.finishEndpoint id).ActiveEnd ↔ j ∈ e.ActiveEnd)) ∧
      (e.finishEndpoint id).activeCount = max (e.activeCount - 1) 0 ∧
      (e.GetStatus id = EndpointStatus.StatusError →
        (e.finishEndpoint id).GetStatus id = EndpointStatus.StatusError) ∧
      (e.GetStatus id ≠ EndpointStatus.StatusError →
        (e.finishEndpoint id).GetStatus id = EndpointStatus.StatusCompleted) ∧
      (∀ j, j ≠ id → (e.finishEndpoint id).Status j = e.Status j) ∧
      ((e.finishEndpoint id).activeCount = 0 → (e.finishEndpoint id).Running = false) ∧
      ((e.finishEndpoint id).activeCount ≠ 0 → (e.finishEndpoint id).Running = e.Running) := by
  have hc : (e.finishEndpoint id).activeCount =
      if e.activeCount - 1 < 0 then 0 else e.activeCount - 1 := rfl
  have hr : (e.finishEndpoint id).Running =
      if (e.finishEndpoint id).activeCount = 0 then false else e.Running := rfl
  refine ⟨?_, ?_, ?_, ?_, ?_, ?_, ?_, ?_⟩
  · simp [Engine.finishEndpoint]
  · intro j hj
    simp [Engine.finishEndpoint, hj]
  · rw [hc]
    split_ifs <;> omega
  · intro h
    exact finishEndpoint_keeps_error e id h
  · intro h
    rw [finishEndpoint_get, if_pos ⟨rfl, h⟩]
  · intro j hj
    by_cases h : e.GetStatus id = EndpointStatus.StatusError
    · simp [Engine.finishEndpoint, h]
    · simp [Engine.finishEndpoint, h, GoMap.set, hj]
  · intro h
    rw [hr, if_pos h]
  · intro h
    rw [hr, if_neg h]

/-- What `executeMessage` does with a `syn` message, by cases. -/
theorem executeMessage_syn (e : Engine) (msg : Message) (o : Oracle) (hk : msg.Kind = "syn") :
    (e.executeMessage msg o).err =
        (match e.Config.Endpoints.find? (fun ep => decide (ep.ID = msg.To)) with
         | none => some (ExecError.targetNotFound msg.To)
         | some _ =>
           match o.dial with
           | none => some ExecError.connectFailed
           | some _ => none) ∧
      (e.executeMessage msg o).engine.Clients =
        (match e.Config.Endpoints.find? (fun ep => decide (ep.ID = msg.To)) with
         | none => e.Clients
         | some _ =>
           match o.dial with
           | none => e.Clients
           | some c =>
             e.Clients.set msg.From (((e.Clients msg.From).getD GoMap.empty).set msg.To c)) := by
  by_cases hm : msg.From ∈ e.endpointMutex
  · simp only [Engine.executeMessage, hm, if_true, hk]
    cases e.Config.Endpoints.find? (fun ep => decide (ep.ID = msg.To)) with
    | none => exact ⟨rfl, rfl⟩
    | some ep =>
      cases o.dial with
      | none => exact ⟨rfl, rfl⟩
      | some c => exact ⟨rfl, rfl⟩
  · simp only [Engine.executeMessage, hm, if_false, if_true, hk]
    cases e.Config.Endpoints.find? (fun ep => decide (ep.ID = msg.To)) with
    | none => exact ⟨rfl, rfl⟩
    | some ep =>
      cases o.dial with
      | none => exact ⟨rfl, rfl⟩
      | some c => exact ⟨rfl, rfl⟩

/-- What `executeMessage` does with a `fin` message, by cases. -/
theorem executeMessage_fin (e : Engine) (msg : Message) (o : Oracle) (hk : msg.Kind = "fin") :
    (e.executeMessage msg o).err = none ∧
      (e.executeMessage msg o).engine.Clients =
        (match e.Clients msg.From with
         | none => e.Clients
         | some inner =>
           match inner msg.To with
           | none => e.Clients
           | some _ => e.Clients.set msg.From (inner.delete msg.To)) := by
  have h1 : ¬ msg.Kind = "syn" := by rw [hk]; decide
  have h2 : ¬ (msg.Kind = "data" ∨ msg.Kind = "psh" ∨ msg.Kind = "push") := by rw [hk]; decide
  by_cases hm : msg.From ∈ e.endpointMutex
  · simp only [Engine.executeMessage, hm, if_true, h1, h2, if_false]
    rw [if_pos hk]
    cases hc : e.Clients msg.From with
    | none => exact ⟨rfl, rfl⟩
    | some inner =>
      cases hi : inner msg.To with
      | none =>
        dsimp only
        rw [hi]
        exact ⟨rfl, rfl⟩
      | some c =>
        dsimp only
        rw [hi]
        exact ⟨rfl, rfl⟩
  · simp only [Engine.executeMessage, hm, if_true, h1, h2, if_false]
    rw [if_pos hk]
    cases hc : e.Clients msg.From with
    | none => exact ⟨rfl, rfl⟩
    | some inner =>
      cases hi : inner msg.To with
      | none =>
        dsimp only
        rw [hi]
        exact ⟨rfl, rfl⟩
      | some c =>
        dsimp only
        rw [hi]
        exact ⟨rfl, rfl⟩

/-- Replacing the inner map of `src` by one that agrees with it except at `dst` changes no other entry of the connection map. -/
theorem conn_set_inner (e e1 : Engine) (src dst : Int) (inner : GoMap Nat)
    (hinner : ∀ b, b ≠ dst → inner b = e.conn src b)
    (h : e1.Clients = e.Clients.set src inner) (a b : Int) (hab : a ≠ src ∨ b ≠ dst) :
    e1.conn a b = e.conn a b := by
  unfold Engine.conn
  rw [h]
  unfold GoMap.set
  by_cases ha : a = src
  · subst ha
    have hb : b ≠ dst := by
      rcases hab with h1 | h1
      · exact absurd rfl h1
      · exact h1
    rw [if_pos rfl]
    dsimp only
    rw [hinner b hb]
    rfl
  · rw [if_neg ha]

/-- C21: for every `syn` message, `executeMessage` returns an error and leaves the connection map unchanged when the target id is not the id of an endpoint of the trace, and when it is but the dial fails; when the dial succeeds it returns no error and afterwards `connections[from][to]` is the new connection, every other entry of the connection map being unchanged. -/
theorem syn_effect (e : Engine) (msg : Message) (o : Oracle) (hk : msg.Kind = "syn") :
    ((∀ ep ∈ e.Config.Endpoints, ep.ID ≠ msg.To) →
        (e.executeMessage msg o).err = some (ExecError.targetNotFound msg.To) ∧
        (e.executeMessage msg o).engine.Clients = e.Clients) ∧
      ((∃ ep ∈ e.Config.Endpoints, ep.ID = msg.To) → o.dial = none →
        (e.executeMessage msg o).err = some ExecError.connectFailed ∧
        (e.executeMessage msg o).engine.Clients = e.Clients) ∧
      (∀ c, (∃ ep ∈ e.Config.Endpoints, ep.ID = msg.To) → o.dial = some c →
        (e.executeMessage msg o).err = none ∧
        (e.executeMessage msg o).engine.conn msg.From msg.To = some c ∧
        ∀ a b, a ≠ msg.From ∨ b ≠ msg.To →
          (e.executeMessage msg o).engine.conn a b = e.conn a b) := by
  obtain ⟨herr, hcl⟩ := executeMessage_syn e msg o hk
  refine ⟨?_, ?_, ?_⟩
  · intro hno
    have hf : e.Config.Endpoints.find? (fun ep => decide (ep.ID = msg.To)) = none := by
      rw [List.find?_eq_none]
      intro ep hep
      simpa using hno ep hep
    rw [herr, hcl, hf]
    exact ⟨rfl, rfl⟩
  · rintro ⟨ep, hep, hid⟩ hd
    have hs : (e.Config.Endpoints.find? (fun ep => decide (ep.ID = msg.To))).isSome = true := by
      rw [List.find?_isSome]
      exact ⟨ep, hep, by simpa using hid⟩
    obtain ⟨ep1, hf⟩ := Option.isSome_iff_exists.mp hs
    rw [herr, hcl, hf, hd]
    exact ⟨rfl, rfl⟩
  · rintro c ⟨ep, hep, hid⟩ hd
    have hs : (e.Config.Endpoints.find? (fun ep => decide (ep.ID = msg.To))).isSome = true := by
      rw [List.find?_isSome]
      exact ⟨ep, hep, by simpa using hid⟩
    obtain ⟨ep1, hf⟩ := Option.isSome_iff_exists.mp hs
    rw [hf, hd] at hcl
    dsimp only at hcl
    refine ⟨by rw [herr, hf, hd], ?_, ?_⟩
    · unfold Engine.conn
      rw [hcl]
      simp [GoMap.set]
    · intro a b hab
      refine conn_set_inner e _ msg.From msg.To _ ?_ hcl a b hab
      intro b1 hb1
      unfold Engine.conn GoMap.set
      rw [if_neg hb1]
      cases e.Clients msg.From with
      | none => rfl
      | some inner => rfl

/-- C21 at the fresh engine of `badTarget`: a `syn` to the undeclared id 99 and a `syn` to server 1. -/
theorem syn_effect_witness :
    ((NewEngine badTarget).executeMessage ⟨2, 99, "syn", "", 0⟩ (Oracle.ok 7)).err =
        some (ExecError.targetNotFound 99) ∧
      ((NewEngine badTarget).executeMessage ⟨2, 1, "syn", "", 0⟩ (Oracle.ok 7)).engine.conn 2 1 =
        some 7 :=
  ⟨((syn_effect (NewEngine badTarget) ⟨2, 99, "syn", "", 0⟩ (Oracle.ok 7) rfl).1
      (by decide)).1,
   ((syn_effect (NewEngine badTarget) ⟨2, 1, "syn", "", 0⟩ (Oracle.ok 7) rfl).2.2 7
      (by decide) rfl).2.1⟩

/-- C22: for every `fin` message and every engine state, `executeMessage` returns no error, afterwards `connections[from][to]` is absent, and every other entry of the connection map is unchanged. -/
theorem fin_effect (e : Engine) (msg : Message) (o : Oracle) (hk : msg.Kind = "fin") :
    (e.executeMessage msg o).err = none ∧
      (e.executeMessage msg o).engine.conn msg.From msg.To = none ∧
      ∀ a b, a ≠ msg.From ∨ b ≠ msg.To →
        (e.executeMessage msg o).engine.conn a b = e.conn a b := by
  obtain ⟨herr, hcl⟩ := executeMessage_fin e msg o hk
  refine ⟨herr, ?_, ?_⟩
  · unfold Engine.conn
    rw [hcl]
    cases hc : e.Clients msg.From with
    | none => simp [hc]
    | some inner =>
      cases hi : inner msg.To with
      | none => simp [hc, hi]
      | some c =>
        dsimp only
        rw [hi]
        simp [GoMap.set, GoMap.delete]
  · intro a b hab
    cases hc : e.Clients msg.From with
    | none =>
      rw [hc] at hcl
      unfold Engine.conn
      rw [hcl]
    | some inner =>
      cases hi : inner msg.To with
      | none =>
        rw [hc] at hcl
        dsimp only at hcl
        rw [hi] at hcl
        unfold Engine.conn
        rw [hcl]
      | some c =>
        rw [hc] at hcl
        dsimp only at hcl
        rw [hi] at hcl
        refine conn_set_inner e _ msg.From msg.To _ ?_ hcl a b hab
        intro b1 hb1
        unfold Engine.conn GoMap.delete
        rw [if_neg hb1, hc]

/-- C22 at the engine in which client 2 holds connection 7 to server 1. -/
theorem fin_effect_witness :
    connected.conn 2 1 = some 7 ∧
      (connected.executeMessage ⟨2, 1, "fin", "", 0⟩ (Oracle.ok 7)).engine.conn 2 1 = none :=
  ⟨by decide, (fin_effect connected ⟨2, 1, "fin", "", 0⟩ (Oracle.ok 7) rfl).2.1⟩

/-- `setupListener` does not change the active set. -/
theorem setupListener_active (e : Engine) (ep : Endpoint) (o : Oracle) :
    (e.setupListener ep o).1.ActiveEnd = e.ActiveEnd := by
  unfold Engine.setupListener
  split <;> rfl

/-- A step of a goroutine adds no id to the active set. -/
theorem taskStep_active (e : Engine) (t : Task) (o : Oracle) (j : Int)
    (h : j ∈ (taskStep e t o).1.ActiveEnd) : j ∈ e.ActiveEnd := by
  revert h
  cases hpc : t.pc <;> simp only [taskStep, hpc]
  case finish =>
    intro h
    exact (List.mem_filter.mp h).1
  all_goals repeat' split
  all_goals intro h
  all_goals first
    | exact h
    | (rw [(ensureIndexed_frame e).1] at h; exact h)
    | (rw [(executeMessage_frame _ _ _).1] at h; exact h)
    | (rw [setupListener_active] at h; exact h)

/-- `finishEndpoint` changes no status entry but that of its id. -/
theorem finishEndpoint_status_other (e : Engine) (id j : Int) (hj : j ≠ id) :
    (e.finishEndpoint id).Status j = e.Status j := by
  by_cases h : e.GetStatus id = EndpointStatus.StatusError
  · simp [Engine.finishEndpoint, h]
  · simp [Engine.finishEndpoint, h, GoMap.set, hj]

/-- A step of a goroutine changes no status entry but that of its id. -/
theorem taskStep_status_entry (e : Engine) (t : Task) (o : Oracle) (j : Int) (hj : t.id ≠ j) :
    (taskStep e t o).1.Status j = e.Status j := by
  have hne : j ≠ t.id := fun h => hj h.symm
  cases hpc : t.pc <;> simp only [taskStep, hpc]
  case serverStatus ok => simp [Engine.setStatus, GoMap.set, hne]
  case setError i => simp [Engine.setStatus, GoMap.set, hne]
  case setIdle => simp [Engine.setStatus, GoMap.set, hne]
  case finish => exact finishEndpoint_status_other e t.id j hne
  all_goals repeat' split
  all_goals first
    | rfl
    | exact congrFun (ensureIndexed_frame e).2.2.2.1 j
    | exact congrFun (executeMessage_frame _ _ _).2.2.2.2 j
    | exact congrFun (setupListener_status _ _ _) j

/-- An action other than `StartEndpoint(id)` keeps the id never started. -/
theorem NeverStarted_step (id : Int) (s : System) (a : Action) (h : NeverStarted id s)
    (ha : a ≠ Action.start id) : NeverStarted id (s.step a) := by
  obtain ⟨hst, hact, htasks⟩ := h
  cases a with
  | start j =>
    have hj : j ≠ id := fun h => ha (by rw [h])
    have hid : id ≠ j := fun h => hj h.symm
    by_cases hja : j ∈ s.engine.ActiveEnd
    · have he : s.engine.StartEndpoint j = (s.engine, none) := by
        simp [Engine.StartEndpoint, hja]
      have hs : s.step (Action.start j) = s := by
        simp only [System.step, he]
      rw [hs]
      exact ⟨hst, hact, htasks⟩
    · have heff := StartEndpoint_effect s.engine j hja
      refine ⟨?_, ?_, ?_⟩
      · rw [step_start_engine]
        simp [Engine.StartEndpoint, hja, GoMap.set, hid, hst]
      · rw [step_start_engine]
        simp [Engine.StartEndpoint, hja, hid, hact]
      · intro t ht
        rcases step_tasks_mem s (Action.start j) t ht with h1 | h1 | ⟨k, o, t0, hk, rfl⟩
        · exact htasks t h1
        · simp only [System.step] at ht
          rcases hse : s.engine.StartEndpoint j with ⟨e1, _ | ⟨j1, srv⟩⟩
          · rw [hse] at ht
            exact htasks t ht
          · rw [hse] at ht
            have hj1 : j1 = j := by
              have := heff.2.2.2.2.2
              rw [hse] at this
              simp only [Option.some.injEq, Prod.mk.injEq] at this
              exact this.1
            rcases List.mem_append.mp ht with h2 | h2
            · exact htasks t h2
            · rw [List.mem_singleton] at h2
              rw [h2, hj1]
              exact hj
        · rw [taskStep_id]
          exact htasks t0 (List.get?_mem hk)
  | stop j =>
    by_cases hj : j = id
    · subst hj
      have : s.step (Action.stop j) = s := by
        simp only [System.step, StopEndpoint_of_not_active s.engine j hact]
      rw [this]
      exact ⟨hst, hact, htasks⟩
    · obtain ⟨f1, f2, _, _⟩ := StopEndpoint_frame s.engine j id hj
      exact ⟨f2.trans hst, fun hm => hact (f1.mp hm), htasks⟩
  | stopAllLocked =>
    refine ⟨?_, ?_, htasks⟩
    · have hs := (stopAll_fold s.engine.ActiveEnd s.engine).1 id
      show (s.engine.ActiveEnd.foldl Engine.stopAllBody s.engine).Status id = none
      rw [hs, if_neg (fun h => hact h.1)]
      exact hst
    · show id ∉ s.engine.stopAllLocked.ActiveEnd
      rw [stopAllLocked_active]
      exact List.not_mem_nil _
  | stopAllCancel => exact ⟨hst, hact, htasks⟩
  | stopAllRenew => exact ⟨hst, hact, htasks⟩
  | task k o =>
    cases ht : s.tasks.get? k with
    | none =>
      rw [step_task_none s k o ht]
      exact ⟨hst, hact, htasks⟩
    | some t =>
      have htid := htasks t (List.get?_mem ht)
      refine ⟨?_, ?_, ?_⟩
      · rw [step_task_engine s k o t ht, taskStep_status_entry _ _ _ _ htid]
        exact hst
      · rw [step_task_engine s k o t ht]
        exact fun hm => hact (taskStep_active _ _ _ _ hm)
      · intro t1 ht1
        rcases step_tasks_mem s (Action.task k o) t1 ht1 with h1 | h1 | ⟨k1, o1, t0, hk, rfl⟩
        · exact htasks t1 h1
        · simp only [System.step, ht] at ht1
          rcases List.mem_or_eq_of_mem_set ht1 with h2 | h2
          · exact htasks t1 h2
          · rw [h2, taskStep_id]
            exact htid
        · rw [taskStep_id]
          exact htasks t0 (List.get?_mem hk)

/-- A schedule without `StartEndpoint(id)` keeps the id never started. -/
theorem NeverStarted_run (id : Int) (acts : List Action) :
    ∀ s : System, NeverStarted id s → (∀ a ∈ acts, a ≠ Action.start id) →
      NeverStarted id (s.run acts) := by
  induction acts with
  | nil => intro s h _; exact h
  | cons a rest ih =>
    intro s h hall
    exact ih (s.step a) (NeverStarted_step id s a h (hall a (List.mem_cons_self _ _)))
      (fun b hb => hall b (List.mem_cons_of_mem _ hb))

/-- C26: `GetStatus` and `IsRunning` only read the state (they are functions of the engine state and return no new state); `GetStatus(id)` returns Idle when the status map has no entry for id and the stored status otherwise, `IsRunning(id)` returns whether id is in the active set; and in every state reached from a fresh engine by a schedule without `StartEndpoint(id)`, `GetStatus(id)` is Idle and `IsRunning(id)` is false. -/
theorem status_reads (e : Engine) (id : Int) :
    (e.Status id = none → e.GetStatus id = EndpointStatus.StatusIdle) ∧
      (∀ st, e.Status id = some st → e.GetStatus id = st) ∧
      (e.IsRunning id = true ↔ id ∈ e.ActiveEnd) ∧
      (∀ (cfg : Config) (acts : List Action), (∀ a ∈ acts, a ≠ Action.start id) →
        ((System.init cfg).run acts).engine.GetStatus id = EndpointStatus.StatusIdle ∧
        ((System.init cfg).run acts).engine.IsRunning id = false) := by
  refine ⟨?_, ?_, ?_, ?_⟩
  · intro h
    unfold Engine.GetStatus
    rw [h]
    rfl
  · intro st h
    unfold Engine.GetStatus
    rw [h]
    rfl
  · simp [Engine.IsRunning]
  · intro cfg acts hall
    have h0 : NeverStarted id (System.init cfg) :=
      ⟨rfl, List.not_mem_nil _, fun t ht => absurd ht (List.not_mem_nil t)⟩
    obtain ⟨h1, h2, _⟩ := NeverStarted_run id acts _ h0 hall
    refine ⟨?_, ?_⟩
    · unfold Engine.GetStatus
      rw [h1]
      rfl
    · simp [Engine.IsRunning, h2]

/-- `Write` on a logger that is not closed. -/
theorem Write_open (l : Logger) (msg : String) (h : l.closed = false) :
    l.Write msg =
      { l with
          lines := l.lines.set l.head msg
          head := (l.head + 1) % l.capacity
          count := if l.count < l.capacity then l.count + 1 else l.count
          ch := if l.ch.length < 100 then l.ch ++ [msg] else l.ch } := by
  simp [Logger.Write, h]

/-- `Write` keeps the queue within its capacity of 100. -/
theorem Write_queue_bound (l : Logger) (msg : String) (h : l.ch.length ≤ 100) :
    (l.Write msg).ch.length ≤ 100 := by
  unfold Logger.Write
  split
  · exact h
  · dsimp only
    split
    · rw [List.length_append, List.length_singleton]
      omega
    · exact h

/-- Any sequence of writes keeps the queue within its capacity of 100. -/
theorem writeAll_queue_bound (l : Logger) (ws : List String) (h : l.ch.length ≤ 100) :
    (l.writeAll ws).ch.length ≤ 100 := by
  induction ws using List.reverseRecOn with
  | nil => exact h
  | append_singleton ws w ih =>
    rw [writeAll_snoc]
    exact Write_queue_bound _ w ih

/-- After any sequence of writes on a new logger the logger is open, the head is a slot of the ring, and the queue holds at most 100 lines. -/
theorem writeAll_wellformed (p : String) (cap : Int) (o : Option Nat) (ws : List String) :
    ((NewLogger p cap o).writeAll ws).closed = false ∧
      ((NewLogger p cap o).writeAll ws).head < ((NewLogger p cap o).writeAll ws).lines.length ∧
      ((NewLogger p cap o).writeAll ws).ch.length ≤ 100 := by
  obtain ⟨_, hlen, hcl, hhead, _, _⟩ := RingInv_writeAll p cap o ws
  refine ⟨hcl, ?_, writeAll_queue_bound _ ws (Nat.zero_le _)⟩
  rw [hlen, hhead]
  exact Nat.mod_lt _ (NewLogger_capacity_pos p cap o)

/-- C23: for every open logger whose head is a slot of the ring (as in every logger made by `NewLogger` and written to) and every line, `Write` stores the line in the ring at the head, whatever the length of the queue, and changes no other slot; the line is appended to the queue exactly when the queue holds fewer than 100 lines and the queue is unchanged otherwise, so a queue of at most 100 lines stays one. -/
theorem Write_ring_and_queue (l : Logger) (msg : String)
    (hopen : l.closed = false) (hwf : l.head < l.lines.length) :
    (l.Write msg).lines[l.head]? = some msg ∧
      (∀ i, i ≠ l.head → (l.Write msg).lines[i]? = l.lines[i]?) ∧
      (l.ch.length < 100 → (l.Write msg).ch = l.ch ++ [msg]) ∧
      (¬ l.ch.length < 100 → (l.Write msg).ch = l.ch) ∧
      (l.ch.length ≤ 100 → (l.Write msg).ch.length ≤ 100) := by
  rw [Write_open l msg hopen]
  refine ⟨?_, ?_, ?_, ?_, ?_⟩
  · dsimp only
    rw [List.getElem?_set, if_pos rfl, if_pos hwf]
  · intro i hi
    dsimp only
    rw [List.getElem?_set, if_neg (fun h => hi h.symm)]
  · intro h
    dsimp only
    rw [if_pos h]
  · intro h
    dsimp only
    rw [if_neg h]
  · intro h
    have := Write_queue_bound l msg h
    rw [Write_open l msg hopen] at this
    exact this

/-- C23 at a new logger of capacity 2 and the line `a`. -/
theorem Write_ring_and_queue_witness :
    (NewLogger "" 2 none).closed = false ∧
      ((NewLogger "" 2 none).Write "a").lines[0]? = some "a" ∧
      ((NewLogger "" 2 none).Write "a").ch = ["a"] :=
  ⟨rfl,
   (Write_ring_and_queue (NewLogger "" 2 none) "a" rfl (by decide)).1,
   (Write_ring_and_queue (NewLogger "" 2 none) "a" rfl (by decide)).2.2.1 (by decide)⟩

/-- The loop of `IndexMessages`: the entry of `id` is extended by the messages of the sender `id`, in order, and is untouched when there is none. -/
theorem index_fold (id : Int) (msgs : List Message) :
    ∀ idx : GoMap (List Message),
      (msgs.foldl indexStep idx) id =
        if msgs.filter (fun m => decide (m.From = id)) = [] then idx id
        else some ((idx id).getD [] ++ msgs.filter (fun m => decide (m.From = id))) := by
  induction msgs with
  | nil =>
    intro idx
    simp
  | cons m ms ih =>
    intro idx
    rw [List.foldl_cons, ih]
    by_cases hm : m.From = id
    · have h1 : (indexStep idx m) id = some ((idx id).getD [] ++ [m]) := by
        simp [indexStep, GoMap.set, hm]
      have h2 : (m :: ms).filter (fun m => decide (m.From = id)) =
          m :: ms.filter (fun m => decide (m.From = id)) := by
        simp [hm]
      rw [h1, h2, if_neg (List.cons_ne_nil _ _)]
      by_cases he : ms.filter (fun m => decide (m.From = id)) = []
      · rw [if_pos he, he]
      · rw [if_neg he]
        simp
    · have hne : ¬ id = m.From := fun h => hm h.symm
      have h1 : (indexStep idx m) id = idx id := by
        unfold indexStep GoMap.set
        rw [if_neg hne]
      have h2 : (m :: ms).filter (fun m => decide (m.From = id)) =
          ms.filter (fun m => decide (m.From = id)) := by
        simp [hm]
      rw [h1, h2]

/-- C24: for every trace and every id, after `IndexMessages` the sequence `MessagesByFrom[id]` is the subsequence of `Messages` whose `From` is id, in the original order; the map has no entry for id exactly when no message has the sender id; every message of the trace is in the sequence of its own sender and of no other id; and `Messages` itself is unchanged. -/
theorem IndexMessages_filter (c : Config) (id : Int) :
    c.IndexMessages.messagesOf id = c.Messages.filter (fun m => decide (m.From = id)) ∧
      ((∀ idx, c.IndexMessages.MessagesByFrom = some idx →
          (idx id = none ↔ ∀ m ∈ c.Messages, m.From ≠ id))) ∧
      (∀ m ∈ c.Messages, ∀ j, m ∈ c.IndexMessages.messagesOf j ↔ j = m.From) ∧
      c.IndexMessages.Messages = c.Messages := by
  have hfold := fun j => index_fold j c.Messages GoMap.empty
  have hmsgs : ∀ j, c.IndexMessages.messagesOf j =
      c.Messages.filter (fun m => decide (m.From = j)) := by
    intro j
    show ((c.Messages.foldl indexStep GoMap.empty) j).getD [] = _
    rw [hfold j]
    by_cases he : c.Messages.filter (fun m => decide (m.From = j)) = []
    · rw [if_pos he, he]
      rfl
    · rw [if_neg he]
      simp [GoMap.empty]
  refine ⟨hmsgs id, ?_, ?_, rfl⟩
  · intro idx hidx
    have : idx = c.Messages.foldl indexStep GoMap.empty := by
      have h : c.IndexMessages.MessagesByFrom = some (c.Messages.foldl indexStep GoMap.empty) := rfl
      rw [h] at hidx
      exact (Option.some.inj hidx).symm
    rw [this, hfold id]
    by_cases he : c.Messages.filter (fun m => decide (m.From = id)) = []
    · rw [if_pos he]
      simp only [GoMap.empty, true_iff]
      intro m hm hfrom
      have : m ∈ c.Messages.filter (fun m => decide (m.From = id)) :=
        List.mem_filter.mpr ⟨hm, by simpa using hfrom⟩
      rw [he] at this
      exact absurd this (List.not_mem_nil m)
    · rw [if_neg he]
      constructor
      · intro h
        cases h
      · intro h
        exfalso
        apply he
        rw [List.filter_eq_nil_iff]
        intro m hm
        simpa using h m hm
  · intro m hm j
    rw [hmsgs j, List.mem_filter]
    constructor
    · rintro ⟨_, h⟩
      exact (by simpa using h : m.From = j).symm
    · intro h
      exact ⟨hm, by simpa using h.symm⟩

/-- Folding the declarations into a map marks exactly the ids already marked and the ids of the
folded endpoints. -/
theorem declaredMap_fold (eps : List Endpoint) (id : Int) :
    ∀ m : GoMap Bool, ((eps.foldl (fun m ep => m.set ep.ID true) m) id).getD false = true ↔
      ((m id).getD false = true ∨ ∃ ep ∈ eps, ep.ID = id) := by
  induction eps with
  | nil =>
    intro m
    simp
  | cons ep eps ih =>
    intro m
    rw [List.foldl_cons, ih]
    by_cases h : id = ep.ID
    · simp [GoMap.set, h]
    · have h2 : ¬ ep.ID = id := fun h1 => h h1.symm
      simp [GoMap.set, h, h2]

/-- The map built by `ValidateConfig` reads true exactly at the ids of declared endpoints. -/
theorem declaredMap_iff (c : Config) (id : Int) :
    ((declaredMap c.Endpoints) id).getD false = true ↔ c.declares id := by
  unfold declaredMap Config.declares
  rw [declaredMap_fold]
  simp [GoMap.empty]

/-- The loop of `ValidateConfig` from index `i0`: it finds no error exactly when every message has
both ids marked, and an error names the first offending message, `From` being tested first. -/
theorem validateFrom_spec (d : GoMap Bool) (ms : List Message) :
    ∀ i0 : Nat,
      (validateFrom d i0 ms = none ↔
        ∀ m ∈ ms, (d m.From).getD false = true ∧ (d m.To).getD false = true) ∧
      (∀ err, validateFrom d i0 ms = some err →
        ∃ k m, ms[k]? = some m ∧
          (∀ j mj, j < k → ms[j]? = some mj →
            (d mj.From).getD false = true ∧ (d mj.To).getD false = true) ∧
          (((d m.From).getD false = false ∧ err = ValidationError.invalidFrom (i0 + k) m.From) ∨
            ((d m.From).getD false = true ∧ (d m.To).getD false = false ∧
              err = ValidationError.invalidTo (i0 + k) m.To))) := by
  induction ms with
  | nil =>
    intro i0
    simp [validateFrom]
  | cons m ms ih =>
    intro i0
    obtain ⟨ih1, ih2⟩ := ih (i0 + 1)
    by_cases hf : (d m.From).getD false = false
    · have hv : validateFrom d i0 (m :: ms) = some (ValidationError.invalidFrom i0 m.From) := by
        simp [validateFrom, hf]
      rw [hv]
      refine ⟨⟨fun h => Option.noConfusion h, fun h => ?_⟩, ?_⟩
      · have := (h m (List.mem_cons_self _ _)).1
        rw [hf] at this
        cases this
      · intro err herr
        refine ⟨0, m, List.getElem?_cons_zero, fun j mj hj _ => absurd hj (Nat.not_lt_zero j), Or.inl ⟨hf, ?_⟩⟩
        rw [← Option.some.inj herr]
        rfl
    · have hf1 : (d m.From).getD false = true := by simpa using hf
      by_cases ht : (d m.To).getD false = false
      · have hv : validateFrom d i0 (m :: ms) = some (ValidationError.invalidTo i0 m.To) := by
          simp [validateFrom, hf1, ht]
        rw [hv]
        refine ⟨⟨fun h => Option.noConfusion h, fun h => ?_⟩, ?_⟩
        · have := (h m (List.mem_cons_self _ _)).2
          rw [ht] at this
          cases this
        · intro err herr
          refine ⟨0, m, List.getElem?_cons_zero, fun j mj hj _ => absurd hj (Nat.not_lt_zero j),
            Or.inr ⟨hf1, ht, ?_⟩⟩
          rw [← Option.some.inj herr]
          rfl
      · have ht1 : (d m.To).getD false = true := by simpa using ht
        have hv : validateFrom d i0 (m :: ms) = validateFrom d (i0 + 1) ms := by
          simp [validateFrom, hf1, ht1]
        rw [hv]
        refine ⟨?_, ?_⟩
        · rw [ih1]
          constructor
          · intro h x hx
            rcases List.mem_cons.mp hx with rfl | hx
            · exact ⟨hf1, ht1⟩
            · exact h x hx
          · intro h x hx
            exact h x (List.mem_cons_of_mem _ hx)
        · intro err herr
          obtain ⟨k, mk, hk, hbefore, hcase⟩ := ih2 err herr
          refine ⟨k + 1, mk, by simpa using hk, ?_, ?_⟩
          · intro j mj hj hmj
            cases j with
            | zero =>
              simp only [List.getElem?_cons_zero, Option.some.injEq] at hmj
              rw [← hmj]
              exact ⟨hf1, ht1⟩
            | succ j =>
              simp only [List.getElem?_cons_succ] at hmj
              exact hbefore j mj (by omega) hmj
          · have hidx : i0 + 1 + k = i0 + (k + 1) := by omega
            rw [hidx] at hcase
            exact hcase

/-- C25: `ValidateConfig` returns no error if and only if the `From` and the `To` of every message
are ids of declared endpoints; an error names a message index `i` such that every earlier message
has both ids declared (so `i` is the smallest offending index), and it is the `From` error when
the `From` of that message is undeclared, the `To` error only when its `From` is declared. -/
theorem ValidateConfig_spec (c : Config) :
    (ValidateConfig c = none ↔ ∀ m ∈ c.Messages, c.declares m.From ∧ c.declares m.To) ∧
      (∀ err, ValidateConfig c = some err →
        ∃ i m, c.Messages[i]? = some m ∧
          (∀ j mj, j < i → c.Messages[j]? = some mj → c.declares mj.From ∧ c.declares mj.To) ∧
          ((¬ c.declares m.From ∧ err = ValidationError.invalidFrom i m.From) ∨
            (c.declares m.From ∧ ¬ c.declares m.To ∧
              err = ValidationError.invalidTo i m.To))) := by
  obtain ⟨h1, h2⟩ := validateFrom_spec (declaredMap c.Endpoints) c.Messages 0
  have hd := declaredMap_iff c
  have hdn : ∀ id, ((declaredMap c.Endpoints) id).getD false = false ↔ ¬ c.declares id := by
    intro id
    rw [← hd id]
    simp
  refine ⟨?_, ?_⟩
  · unfold ValidateConfig
    rw [h1]
    constructor
    · intro h m hm
      exact ⟨(hd _).mp (h m hm).1, (hd _).mp (h m hm).2⟩
    · intro h m hm
      exact ⟨(hd _).mpr (h m hm).1, (hd _).mpr (h m hm).2⟩
  · intro err herr
    obtain ⟨k, m, hk, hbefore, hcase⟩ := h2 err herr
    refine ⟨k, m, hk, ?_, ?_⟩
    · intro j mj hj hmj
      exact ⟨(hd _).mp (hbefore j mj hj hmj).1, (hd _).mp (hbefore j mj hj hmj).2⟩
    · rw [Nat.zero_add] at hcase
      rcases hcase with ⟨ha, hb⟩ | ⟨ha, hb, hc⟩
      · exact Or.inl ⟨(hdn _).mp ha, hb⟩
      · exact Or.inr ⟨(hd _).mp ha, (hdn _).mp hb, hc⟩

/-- The starting state of `ReadPCAP` satisfies the id invariant. -/
theorem PcapInv_empty : PcapInv PcapState.empty := by
  refine ⟨rfl, rfl, ?_⟩
  intro k id h
  cases h

/-- A key already in the map: the stored id is returned and nothing changes. -/
theorem getOrCreateEndpoint_seen (parse : String → Option (String × Option Int))
    (key kind : String) (st : PcapState) (id : Int) (h : st.index key = some id) :
    getOrCreateEndpoint parse key kind st = (st, id) := by
  unfold getOrCreateEndpoint
  rw [h]

/-- After a call the map holds the returned id at the key. -/
theorem getOrCreateEndpoint_index (parse : String → Option (String × Option Int))
    (key kind : String) (st : PcapState) :
    (getOrCreateEndpoint parse key kind st).1.index key =
      some (getOrCreateEndpoint parse key kind st).2 := by
  unfold getOrCreateEndpoint
  cases h : st.index key with
  | some id => exact h
  | none => simp

/-- A call keeps every entry of the map and only appends to the endpoint list. -/
theorem getOrCreateEndpoint_keeps (parse : String → Option (String × Option Int))
    (key kind : String) (st : PcapState) :
    (∀ k id, st.index k = some id → (getOrCreateEndpoint parse key kind st).1.index k = some id) ∧
      st.endpoints <+: (getOrCreateEndpoint parse key kind st).1.endpoints := by
  unfold getOrCreateEndpoint
  cases h : st.index key with
  | some id => exact ⟨fun _ _ hk => hk, List.prefix_refl _⟩
  | none =>
    refine ⟨?_, List.prefix_append _ _⟩
    intro k id hk
    by_cases hkk : k = key
    · rw [hkk, h] at hk
      cases hk
    · simp [hkk, hk]

/-- A call preserves the id invariant and returns the id of a position of the new list. -/
theorem getOrCreateEndpoint_inv (parse : String → Option (String × Option Int))
    (key kind : String) (st : PcapState) (hinv : PcapInv st) :
    PcapInv (getOrCreateEndpoint parse key kind st).1 ∧
      0 ≤ (getOrCreateEndpoint parse key kind st).2 ∧
      (getOrCreateEndpoint parse key kind st).2 <
        ((getOrCreateEndpoint parse key kind st).1.endpoints.length : Int) := by
  obtain ⟨h1, h2, h3⟩ := hinv
  unfold getOrCreateEndpoint
  cases h : st.index key with
  | some id => exact ⟨⟨h1, h2, h3⟩, h3 key id h⟩
  | none =>
    dsimp only
    refine ⟨⟨?_, ?_, ?_⟩, ?_, ?_⟩
    · rw [List.map_append, h1, List.length_append, List.length_singleton, List.range_succ,
        List.map_append, h2]
      rfl
    · rw [List.length_append, List.length_singleton, h2]
      push_cast
      rfl
    · intro k id hk
      rw [List.length_append, List.length_singleton]
      push_cast
      by_cases hkk : k = key
      · have hk2 : some st.nextID = some id := by simpa [hkk] using hk
        rw [← Option.some.inj hk2, h2]
        omega
      · have hk2 : st.index k = some id := by simpa [hkk] using hk
        have := h3 k id hk2
        omega
    · rw [h2]
      omega
    · rw [List.length_append, List.length_singleton, h2]
      push_cast
      omega

/-- Any sequence of calls preserves the id invariant. -/
theorem runCalls_inv (parse : String → Option (String × Option Int))
    (calls : List (String × String)) :
    ∀ st, PcapInv st → PcapInv (runCalls parse st calls) := by
  induction calls with
  | nil => exact fun st h => h
  | cons c cs ih =>
    intro st h
    exact ih _ (getOrCreateEndpoint_inv parse c.1 c.2 st h).1

/-- Any sequence of calls keeps the entries of the map and only appends to the endpoint list. -/
theorem runCalls_keeps (parse : String → Option (String × Option Int))
    (calls : List (String × String)) :
    ∀ st, (∀ k id, st.index k = some id → (runCalls parse st calls).index k = some id) ∧
      st.endpoints <+: (runCalls parse st calls).endpoints := by
  induction calls with
  | nil => exact fun st => ⟨fun _ _ h => h, List.prefix_refl _⟩
  | cons c cs ih =>
    intro st
    obtain ⟨k1, k2⟩ := getOrCreateEndpoint_keeps parse c.1 c.2 st
    obtain ⟨i1, i2⟩ := ih (getOrCreateEndpoint parse c.1 c.2 st).1
    exact ⟨fun k id h => i1 k id (k1 k id h), k2.trans i2⟩

/-- Under the id invariant every position of the list is the id of one of its endpoints. -/
theorem PcapInv_declared (st : PcapState) (hinv : PcapInv st) (id : Int) (h0 : 0 ≤ id)
    (h1 : id < (st.endpoints.length : Int)) : ∃ ep ∈ st.endpoints, ep.ID = id := by
  have hmem : id ∈ st.endpoints.map (fun ep => ep.ID) := by
    rw [hinv.1, List.mem_map]
    refine ⟨id.toNat, List.mem_range.mpr ?_, ?_⟩
    · omega
    · exact Int.toNat_of_nonneg h0
  obtain ⟨ep, hep, hid⟩ := List.mem_map.mp hmem
  exact ⟨ep, hep, hid⟩

/-- The loop of `ReadPCAP` preserves the id invariant and the messages only use ids of the list. -/
theorem readPacket_inv (parse : String → Option (String × Option Int)) (pkts : List Packet) :
    ∀ acc : PcapState × List Message, PcapInv acc.1 →
      (∀ m ∈ acc.2, (0 ≤ m.From ∧ m.From < (acc.1.endpoints.length : Int)) ∧
        (0 ≤ m.To ∧ m.To < (acc.1.endpoints.length : Int))) →
      PcapInv (pkts.foldl (readPacket parse) acc).1 ∧
      ∀ m ∈ (pkts.foldl (readPacket parse) acc).2,
        (0 ≤ m.From ∧ m.From < ((pkts.foldl (readPacket parse) acc).1.endpoints.length : Int)) ∧
        (0 ≤ m.To ∧ m.To < ((pkts.foldl (readPacket parse) acc).1.endpoints.length : Int)) := by
  induction pkts with
  | nil => exact fun acc h1 h2 => ⟨h1, h2⟩
  | cons p ps ih =>
    intro acc hinv hm
    rw [List.foldl_cons]
    obtain ⟨s1, s2, s3⟩ := getOrCreateEndpoint_inv parse p.srcKey "client" acc.1 hinv
    obtain ⟨t1, t2, t3⟩ := getOrCreateEndpoint_inv parse p.dstKey "server"
      (getOrCreateEndpoint parse p.srcKey "client" acc.1).1 s1
    have l1 := (getOrCreateEndpoint_keeps parse p.srcKey "client" acc.1).2.length_le
    have l2 := (getOrCreateEndpoint_keeps parse p.dstKey "server"
      (getOrCreateEndpoint parse p.srcKey "client" acc.1).1).2.length_le
    apply ih
    · exact t1
    · intro m hmem
      simp only [readPacket] at hmem ⊢
      rcases List.mem_append.mp hmem with hold | hnew
      · have := hm m hold
        omega
      · rw [List.mem_singleton] at hnew
        rw [hnew]
        dsimp only
        omega

/-- C30: from the empty state, after any sequence of calls of `getOrCreateEndpoint` the ids of
the endpoint list are pairwise distinct and the endpoint at position `i` has id `i`; a call with a
key used by an earlier call returns the id of that earlier call and leaves the state unchanged,
the endpoints created so far staying a prefix of the list (so no kind changes); every returned id
is the id of an endpoint of the list after the call; and the trace `ReadPCAP` builds from any
packets passes `ValidateConfig`. -/
theorem getOrCreateEndpoint_ids (parse : String → Option (String × Option Int))
    (calls : List (String × String)) :
    ((runCalls parse PcapState.empty calls).endpoints.map (fun ep => ep.ID)).Nodup ∧
      (∀ (i : Nat) (ep : Endpoint),
        (runCalls parse PcapState.empty calls).endpoints[i]? = some ep → ep.ID = Int.ofNat i) ∧
      (∀ key kind later kind2,
        getOrCreateEndpoint parse key kind2
            (runCalls parse
              (getOrCreateEndpoint parse key kind (runCalls parse PcapState.empty calls)).1 later) =
          (runCalls parse
              (getOrCreateEndpoint parse key kind (runCalls parse PcapState.empty calls)).1 later,
            (getOrCreateEndpoint parse key kind (runCalls parse PcapState.empty calls)).2)) ∧
      (∀ key kind later,
        (getOrCreateEndpoint parse key kind (runCalls parse PcapState.empty calls)).1.endpoints <+:
          (runCalls parse
            (getOrCreateEndpoint parse key kind (runCalls parse PcapState.empty calls)).1
            later).endpoints) ∧
      (∀ key kind, ∃ ep ∈
          (getOrCreateEndpoint parse key kind (runCalls parse PcapState.empty calls)).1.endpoints,
        ep.ID = (getOrCreateEndpoint parse key kind (runCalls parse PcapState.empty calls)).2) ∧
      ∀ pkts, ValidateConfig (ReadPCAP parse pkts) = none := by
  have hinv := runCalls_inv parse calls PcapState.empty PcapInv_empty
  refine ⟨?_, ?_, ?_, ?_, ?_, ?_⟩
  · rw [hinv.1]
    exact (List.nodup_range _).map (fun a b h => Int.ofNat.inj h)
  · intro i ep hi
    have hmap : ((runCalls parse PcapState.empty calls).endpoints.map (fun ep => ep.ID))[i]? =
        some ep.ID := by
      rw [List.getElem?_map, hi]
      rfl
    rw [hinv.1, List.getElem?_map] at hmap
    have hlt : i < (runCalls parse PcapState.empty calls).endpoints.length := by
      have := (List.getElem?_eq_some_iff.mp hi).1
      exact this
    rw [List.getElem?_range hlt] at hmap
    exact (Option.some.inj hmap).symm
  · intro key kind later kind2
    apply getOrCreateEndpoint_seen
    exact (runCalls_keeps parse later _).1 key _ (getOrCreateEndpoint_index parse key kind _)
  · intro key kind later
    exact (runCalls_keeps parse later _).2
  · intro key kind
    obtain ⟨i1, i2, i3⟩ := getOrCreateEndpoint_inv parse key kind _ hinv
    exact PcapInv_declared _ i1 _ i2 i3
  · intro pkts
    obtain ⟨p1, p2⟩ := readPacket_inv parse pkts (PcapState.empty, []) PcapInv_empty
      (fun m hm => by cases hm)
    unfold ValidateConfig
    rw [(validateFrom_spec _ _ 0).1]
    intro m hm
    have := p2 m hm
    exact ⟨(declaredMap_iff (ReadPCAP parse pkts) _).mpr (PcapInv_declared _ p1 _ this.1.1 this.1.2),
      (declaredMap_iff (ReadPCAP parse pkts) _).mpr (PcapInv_declared _ p1 _ this.2.1 this.2.2)⟩

/-- A logger made with an empty path has no backing file. -/
theorem NewLogger_no_path (capacity : Int) (opened : Option Nat) :
    (NewLogger "" capacity opened).file = none := by
  show (if "" = "" then none else opened) = none
  rw [if_pos rfl]

/-- Without a backing file `flush` returns at its first test and changes nothing. -/
theorem flush_without_file (l : Logger) (h : l.file = none) (w : WriterState) :
    l.flush w = w := by
  unfold Logger.flush
  rw [if_pos (Or.inr h)]

/-- Without a backing file a dequeued line is appended to the batch and stays there. -/
theorem writerStep_without_file (l : Logger) (h : l.file = none) (w : WriterState)
    (hr : w.returned = false) (msg : String) :
    l.writerStep w (WriterEvent.recv msg) = { w with batch := w.batch ++ [msg] } := by
  unfold Logger.writerStep
  rw [hr]
  simp only [Bool.false_eq_true, if_false, flush_without_file l h, ite_self]

/-- Without a backing file dequeued lines accumulate in the batch. -/
theorem writer_fold_without_file (l : Logger) (h : l.file = none) (msgs : List String) :
    ∀ w : WriterState, w.returned = false →
      msgs.foldl (fun s m => l.writerStep s (WriterEvent.recv m)) w =
        { w with batch := w.batch ++ msgs } := by
  induction msgs with
  | nil =>
    intro w _
    simp
  | cons m ms ih =>
    intro w hr
    rw [List.foldl_cons, writerStep_without_file l h w hr,
      ih { w with batch := w.batch ++ [m] } hr]
    simp

/-- Without a backing file the batch of the writer holds every line it dequeued. -/
theorem writer_without_file (l : Logger) (h : l.file = none) (msgs : List String) :
    l.writer (msgs.map WriterEvent.recv) = { batch := msgs, written := [], returned := false } := by
  unfold Logger.writer
  rw [List.foldl_map, writer_fold_without_file l h msgs _ rfl]
  simp

/-- With a backing file one iteration of the writer keeps the batch below the batch size, and a
tick empties it. -/
theorem writerStep_batch_bound (l : Logger) (f : Nat) (h : l.file = some f) (w : WriterState)
    (hb : w.batch.length < defaultBatchSize) (ev : WriterEvent) :
    (l.writerStep w ev).batch.length < defaultBatchSize ∧
      (ev = WriterEvent.tick → w.returned = false → (l.writerStep w ev).batch = []) := by
  have hfl : ∀ v : WriterState, (l.flush v).batch = [] := by
    intro v
    unfold Logger.flush
    by_cases hv : v.batch.length = 0
    · rw [if_pos (Or.inl hv)]
      exact List.length_eq_zero.mp hv
    · rw [if_neg (by simp [hv, h])]
  unfold Logger.writerStep
  by_cases hr : w.returned = true
  · rw [if_pos hr]
    refine ⟨hb, fun _ hf => ?_⟩
    rw [hr] at hf
    cases hf
  · rw [if_neg hr]
    cases ev with
    | recv msg =>
      refine ⟨?_, fun he => by cases he⟩
      dsimp only
      by_cases hlen : (w.batch ++ [msg]).length ≥ defaultBatchSize
      · rw [if_pos hlen, hfl]
        decide
      · rw [if_neg hlen]
        exact Nat.lt_of_not_le hlen
    | closed =>
      refine ⟨?_, fun he => by cases he⟩
      show (l.flush w).batch.length < defaultBatchSize
      rw [hfl]
      decide
    | tick =>
      refine ⟨?_, fun _ _ => hfl w⟩
      show (l.flush w).batch.length < defaultBatchSize
      rw [hfl]
      decide

/-- With a backing file the batch of the writer always holds fewer lines than the batch size. -/
theorem writer_batch_bound (l : Logger) (f : Nat) (h : l.file = some f)
    (events : List WriterEvent) : (l.writer events).batch.length < defaultBatchSize := by
  unfold Logger.writer
  have key : ∀ (evs : List WriterEvent) (w : WriterState),
      w.batch.length < defaultBatchSize →
      (evs.foldl l.writerStep w).batch.length < defaultBatchSize := by
    intro evs
    induction evs with
    | nil => exact fun w hw => hw
    | cons e es ih =>
      intro w hw
      exact ih _ (writerStep_batch_bound l f h w hw e).1
  exact key events _ (by decide)

/-- C29 (the code departs from the claim for a logger without a backing file): `NewLogger` with an
empty path
starts the writer; its batch then holds every line dequeued so far, a timer tick leaves it as it
is, and after ten lines it holds ten lines. -/
theorem writer_keeps_batch_without_file (capacity : Int) (opened : Option Nat)
    (msgs : List String) :
    startsWriter "" opened = true ∧
      (NewLogger "" capacity opened).writer (msgs.map WriterEvent.recv) =
        { batch := msgs, written := [], returned := false } ∧
      (NewLogger "" capacity opened).writerStep
          ((NewLogger "" capacity opened).writer (msgs.map WriterEvent.recv)) WriterEvent.tick =
        { batch := msgs, written := [], returned := false } ∧
      ((NewLogger "" 0 none).writer (tenLines.map WriterEvent.recv)).batch.length = 10 := by
  have hf := NewLogger_no_path capacity opened
  refine ⟨rfl, writer_without_file _ hf msgs, ?_, ?_⟩
  · rw [writer_without_file _ hf msgs]
    show (NewLogger "" capacity opened).flush _ = _
    rw [flush_without_file _ hf]
  · rw [writer_without_file _ (NewLogger_no_path 0 none) tenLines]
    rfl

/-- On every path of `executeMessage`, each access to the connection map is made while holding the
per-endpoint mutex of the sender. -/
theorem executeMessageOps_endpoint_guarded (msg : Message) (found dialed noInner hasConn : Bool) :
    guardedBy (fun id => [LockId.endpoint id]) [] (executeMessageOps msg found dialed noInner hasConn)
      = true := by
  unfold executeMessageOps
  by_cases h1 : msg.Kind = "syn"
  · cases found <;> cases dialed <;> cases noInner <;> simp [h1, guardedBy]
  · by_cases h2 : msg.Kind = "data" ∨ msg.Kind = "psh" ∨ msg.Kind = "push"
    · simp [h1, h2, guardedBy]
    · by_cases h3 : msg.Kind = "fin"
      · cases hasConn <;> simp [h1, h2, h3, guardedBy]
      · simp [h1, h2, h3, guardedBy]

/-- On every path of `StopEndpoint`, each access to the connection map is made while holding the
engine mutex. -/
theorem StopEndpointOps_engine_guarded (id : Int) (active hasConns : Bool) :
    guardedBy (fun _ => [LockId.engine]) [] (StopEndpointOps id active hasConns) = true := by
  cases active <;> cases hasConns <;> simp [StopEndpointOps, guardedBy]

/-- In `StopAll`, each access to the connection map is made while holding the engine mutex. -/
theorem StopAllOps_engine_guarded (ids : List Int) (hasConns : Int → Bool) :
    guardedBy (fun _ => [LockId.engine]) [] (StopAllOps ids hasConns) = true := by
  have iter : ∀ (id : Int) (tail : List LockOp),
      guardedBy (fun _ => [LockId.engine]) [LockId.engine] (StopAllIterOps hasConns id ++ tail) =
        guardedBy (fun _ => [LockId.engine]) [LockId.engine] tail := by
    intro id tail
    cases h : hasConns id <;> simp [StopAllIterOps, guardedBy, h]
  have key : ∀ (l : List Int) (tail : List LockOp),
      guardedBy (fun _ => [LockId.engine]) [LockId.engine]
        (l.flatMap (StopAllIterOps hasConns) ++ tail) =
        guardedBy (fun _ => [LockId.engine]) [LockId.engine] tail := by
    intro l tail
    induction l with
    | nil => rfl
    | cons id l ih => rw [List.flatMap_cons, List.append_assoc, iter, ih]
  unfold StopAllOps
  rw [List.append_assoc]
  show guardedBy (fun _ => [LockId.engine]) [LockId.engine]
    (ids.flatMap (StopAllIterOps hasConns) ++ [LockOp.other, LockOp.unlock LockId.engine]) = true
  rw [key]
  rfl

/-- C27 (the code departs from the claim): `executeMessage` stores, looks up and removes a
connection without
holding the engine mutex, `StopEndpoint` removes the connections of an endpoint without holding
its per-endpoint mutex, and there is a run in which `StopEndpoint(2)`, holding the engine mutex,
and the goroutine of endpoint 2, holding the per-endpoint mutex, are at the same time about to
mutate the connections of endpoint 2; both then run to their end. -/
theorem clients_access_not_under_engine_lock :
    guardedBy (fun _ => [LockId.engine]) []
        (executeMessageOps ⟨2, 1, "syn", "", 0⟩ true true false false) = false ∧
      guardedBy (fun _ => [LockId.engine]) []
        (executeMessageOps ⟨2, 1, "data", "ab", 0⟩ true true false true) = false ∧
      guardedBy (fun _ => [LockId.engine]) []
        (executeMessageOps ⟨2, 1, "fin", "", 0⟩ true true false true) = false ∧
      guardedBy (fun id => [LockId.endpoint id]) [] (StopEndpointOps 2 true true) = false ∧
      (stopVsStore.run storeThenStop).map (fun s => (s.held, s.race 0 1)) =
        some ([(LockId.engine, 0), (LockId.endpoint 2, 1)], true) ∧
      ((stopVsStore.run (storeThenStop ++ bothFinish)).map (fun s => s.threads)) =
        some [[], []] := by
  refine ⟨by decide, by decide, by decide, by decide, by decide, by decide⟩

end Nabu
